import Mathlib

/-!
# MP707 USB thermometer: 1-Wire protocol stack

A shallow embedding of the Go packages `onewire` and `usb` of `nradchenko/mp707`
and theorems about them.

Conventions of the embedding:

* Go's `byte`, `uint32` and `uint64` are natural numbers; every operation that can
  leave the range of its Go type is followed by an explicit `% 2 ^ w`, and every
  function with a `byte` parameter truncates it on entry (`% 256`).
* Go's `error` results are `Option Error`, `none` being `nil`.
* The USB handle of a `Device` is a state of an abstract `Transport`; the
  stateful methods of `Device` pass the device explicitly.
* `time.Sleep` has no observable effect in the embedding and is left out.
-/

/-! ## Errors -/

/-- The error values of the two packages: `onewire.CrcMismatchError`,
`usb.LibUsbError` (the description is a function of the code and is not kept),
`usb.InputOutputError`, and the values made by `errors.New`. -/
inductive Error where
  | CrcMismatchError : Error
  | LibUsbError (code : Int) : Error
  | InputOutputError : Error
  | New (text : String) : Error
  deriving DecidableEq, Repr

/-! ## Package onewire -/

namespace onewire

/-- ROM command `Search ROM`. -/
def SearchRom : Nat := 0xf0
/-- ROM command `Match ROM`. -/
def MatchRom : Nat := 0x55
/-- ROM command `Skip ROM`. -/
def SkipRom : Nat := 0xcc
/-- Function command `Convert T`. -/
def ConvertT : Nat := 0x44
/-- Function command `Read Scratchpad`. -/
def ReadScratchpad : Nat := 0xbe

/-- Family code of the DS18S20. -/
def FamilyDS18S20 : Nat := 0x10
/-- Family code of the DS1822. -/
def FamilyDS1822 : Nat := 0x22
/-- Family code of the DS18B20. -/
def FamilyDS18B20 : Nat := 0x28

/-- One pass of the loop body of `Crc8` for bit position `i` of the data byte `d`,
on the accumulator `r` (a `byte`). -/
def Crc8.body (d : Nat) (r i : Nat) : Nat :=
  if (r ^^^ (d >>> i)) &&& 0x01 = 0x01 then
    (((r ^^^ 0x18) >>> 1) ||| 0x80) % 256
  else
    (r >>> 1) &&& 0x7f

/-- The function `Crc8(crc byte, d byte) Crc`: the loop `for i := 0; i < 8; i++`
over the accumulator `r`, started at `crc`. -/
def Crc8 (crc d : Nat) : Nat :=
  (List.range 8).foldl (Crc8.body (d % 256)) (crc % 256)

/-- The function `CheckCrc8(crc Crc) error`. -/
def CheckCrc8 (crc : Nat) : Option Error :=
  if crc ≠ 0 then some Error.CrcMismatchError else none

/-- The function `GetFamilyByRom(rom Rom) byte`. -/
def GetFamilyByRom (rom : Nat) : Nat :=
  (rom &&& 0xff) % 256

/-- The way both callers of `Crc8` fold a byte sequence into the accumulator:
`crc = onewire.Crc8(byte(crc), b)` for every byte `b` in order, from `crc`. -/
def foldCrc8From (crc : Nat) (bs : List Nat) : Nat :=
  bs.foldl (fun acc b => Crc8 (acc % 256) b) crc

/-- The fold of `Crc8` over a byte sequence from the zero accumulator. -/
def foldCrc8 (bs : List Nat) : Nat :=
  foldCrc8From 0 bs

/-- Go's `fmt.Sprintf("%x", v)` for one hexadecimal digit `n < 16`: the lowercase
digit character. -/
def hexDigit (n : Nat) : Char :=
  if n < 10 then Char.ofNat (48 + n) else Char.ofNat (87 + n)

/-- The method `Rom.String`, that is `fmt.Sprintf("%x", uint64(r))`: the lowercase
hexadecimal digits of `r`, most significant first, without padding; `"0"` for zero. -/
def Rom.String (r : Nat) : String :=
  if r % 2 ^ 64 = 0 then "0"
  else String.mk ((Nat.digits 16 (r % 2 ^ 64)).reverse.map hexDigit)

/-- The digit value of a character in Go's `strconv.ParseUint`: `c - 48` for a
decimal digit, `lower(c) - 97 + 10` for a letter, where `lower(c) = c | 0x20`. -/
def ParseUint.digit (c : Char) : Option Nat :=
  if 48 ≤ c.toNat ∧ c.toNat ≤ 57 then some (c.toNat - 48)
  else if 97 ≤ (c.toNat ||| 0x20) ∧ (c.toNat ||| 0x20) ≤ 122 then
    some ((c.toNat ||| 0x20) - 97 + 10)
  else none

/-- The digit loop of Go's `strconv.ParseUint(s, 16, 64)` on the value `n` read so
far: a character that is no digit below 16 ends it with `(0, ErrSyntax)`; a value
that would leave 64 bits ends it with `(1<<64 - 1, ErrRange)`. -/
def ParseUint.loop (n : Nat) : List Char → Nat × Option Error
  | [] => (n, none)
  | c :: cs =>
    match ParseUint.digit c with
    | none => (0, some (Error.New "invalid syntax"))
    | some v =>
      if 16 ≤ v then (0, some (Error.New "invalid syntax"))
      else if 2 ^ 64 / 16 ≤ n then (2 ^ 64 - 1, some (Error.New "value out of range"))
      else if (n * 16 + v) % 2 ^ 64 < n * 16 ∨ 2 ^ 64 - 1 < (n * 16 + v) % 2 ^ 64 then
        (2 ^ 64 - 1, some (Error.New "value out of range"))
      else ParseUint.loop ((n * 16 + v) % 2 ^ 64) cs

/-- Go's `strconv.ParseUint(s, 16, 64)`: the value and the error. -/
def ParseUint (s : String) : Nat × Option Error :=
  if s.data = [] then (0, some (Error.New "invalid syntax")) else ParseUint.loop 0 s.data

/-- The function `StringToRom`: the value of `ParseUint`, its error dropped. -/
def StringToRom (str : String) : Nat :=
  (ParseUint str).1

/-- Reference definition, from the words of the specification: one bit step of the
reflected Dallas/Maxim CRC8 (polynomial x^8+x^5+x^4+1, reflected constant 0x8C). -/
def dallasCrc8Step (x : Nat) : Nat :=
  if x % 2 = 1 then (x >>> 1) ^^^ 0x8C else x >>> 1

/-- Reference definition, from the words of the specification: eight bit steps. -/
def dallasCrc8Shift (x : Nat) : Nat :=
  (List.range 8).foldl (fun y _ => dallasCrc8Step y) x

/-- Reference definition, from the words of the specification: one byte step of the
Dallas/Maxim 1-Wire CRC8, `x := c XOR d` followed by eight bit steps. -/
def dallasCrc8Byte (c d : Nat) : Nat :=
  dallasCrc8Shift (c ^^^ d)

/-- Inverse of one reference bit step on bytes (used to show that the byte step
loses no information). -/
def dallasCrc8Unstep (y : Nat) : Nat :=
  if 128 ≤ y then (((y ^^^ 0x8C) <<< 1) ||| 1) % 256 else (y <<< 1) % 256

/-- Eight inverse bit steps. -/
def dallasCrc8Unshift (y : Nat) : Nat :=
  (List.range 8).foldl (fun x _ => dallasCrc8Unstep x) y

end onewire

/-! ## Package usb -/

namespace usb

/-- Number of retries for some operations. -/
def Retries : Nat := 3
/-- Number of ROM ports (bit positions of an address). -/
def RomPorts : Nat := 64
/-- Size of the input and output buffers. -/
def CmdSize : Nat := 8

/-- First byte of every command. -/
def CMD_MAGIC : Nat := 0x18
/-- Opcode of the reset command. -/
def CMD_RESET : Nat := 0x48
/-- Opcode of the one-bit command. -/
def CMD_RW_BIT : Nat := 0x81
/-- Opcode of the two-bit read command. -/
def CMD_RW_2BIT : Nat := 0x82
/-- Opcode of the four-byte command. -/
def CMD_RW_4BYTE : Nat := 0x84
/-- Opcode of the one-byte command. -/
def CMD_RW_BYTE : Nat := 0x88

/-- The USB control channel behind a device handle (the two uses of
`libusb_control_transfer`), over a state `σ` of the adapter and the bus.
`controlOut` receives the outbound buffer and returns the transfer's result (the
number of bytes written, or a negative libusb code); `controlIn` returns the bytes
placed in the inbound buffer and the transfer's result. -/
structure Transport (σ : Type) where
  /-- The HID `SET_REPORT` transfer of `usbWriteCtl`. -/
  controlOut : σ → List Nat → σ × Int
  /-- The HID `GET_REPORT` transfer of `usbReadCtl`. -/
  controlIn : σ → σ × List Nat × Int

/-- The struct `Device`. The arrays `[CmdSize]byte` are lists of length `CmdSize`.
The field `sent` is a ghost record of every outbound buffer handed to the transport,
oldest first; no method reads it. -/
structure Device (σ : Type) where
  /-- Device ID. -/
  id : Nat
  /-- State of the transport behind the libusb handle. -/
  handle : σ
  /-- Outbound command buffer. -/
  outputBuffer : List Nat
  /-- Inbound command buffer. -/
  inputBuffer : List Nat
  /-- Ghost record of the outbound buffers sent so far. -/
  sent : List (List Nat)

/-- The eight bytes that a transfer leaves in a `[CmdSize]byte` array. -/
def toCmdBuffer (data : List Nat) : List Nat :=
  (List.range CmdSize).map fun i => data.getD i 0 % 256

/-- The method `clearBuffers`: every slot of both arrays is set to zero. -/
def Device.clearBuffers {σ : Type} (d : Device σ) : Device σ :=
  { d with inputBuffer := List.replicate CmdSize 0, outputBuffer := List.replicate CmdSize 0 }

/-- The method `compareBuffersWithDepth`: `InputOutputError` when one of the first
`depth` slots differs between the two buffers. -/
def Device.compareBuffersWithDepth {σ : Type} (d : Device σ) (depth : Nat) : Option Error :=
  if (List.range depth).any (fun i => d.inputBuffer.getD i 0 != d.outputBuffer.getD i 0) then
    some Error.InputOutputError
  else
    none

/-- The method `compareBuffers`. -/
def Device.compareBuffers {σ : Type} (d : Device σ) : Option Error :=
  d.compareBuffersWithDepth CmdSize

/-- The method `usbWriteCtl`. -/
def Device.usbWriteCtl {σ : Type} (t : Transport σ) (d : Device σ) : Device σ × Option Error :=
  match t.controlOut d.handle d.outputBuffer with
  | (h, written) =>
    ({ d with handle := h, sent := d.sent ++ [d.outputBuffer] },
      if written ≠ (CmdSize : Int) then some (Error.LibUsbError written) else none)

/-- The method `usbReadCtl`. -/
def Device.usbReadCtl {σ : Type} (t : Transport σ) (d : Device σ) : Device σ × Option Error :=
  match t.controlIn d.handle with
  | (h, data, read) =>
    ({ d with handle := h, inputBuffer := toCmdBuffer data },
      if read ≠ (CmdSize : Int) then some (Error.LibUsbError read) else none)

/-- The method `usbWriteReadCtl`. -/
def Device.usbWriteReadCtl {σ : Type} (t : Transport σ) (d : Device σ) :
    Device σ × Option Error :=
  match d.usbWriteCtl t with
  | (d, some e) => (d, some e)
  | (d, none) =>
    match d.usbReadCtl t with
    | (d, some e) => (d, some e)
    | (d, none) => (d, none)

/-- Both control transfers of one exchange succeed: from the transport state `h` the
outbound buffer `out` is written in full, and eight bytes are read back which fill
the inbound buffer with `inb`. -/
def TransfersSucceed {σ : Type} (t : Transport σ) (h : σ) (out inb : List Nat) : Prop :=
  (t.controlOut h out).2 = 8 ∧ (t.controlIn (t.controlOut h out).1).2.2 = 8 ∧
    toCmdBuffer (t.controlIn (t.controlOut h out).1).2.1 = inb

/-- The echo rule of a primitive that sent `out`, received `inb` and returned the
error `err`, for a comparison over the first `depth` slots: `err` is nil exactly when
the slots agree, it is `InputOutputError` otherwise, and a difference in the
two-byte header is always an `InputOutputError`. -/
def EchoRule (err : Option Error) (out inb : List Nat) (depth : Nat) : Prop :=
  (err = none ↔ ∀ i < depth, inb.getD i 0 = out.getD i 0) ∧
  (err ≠ none → err = some Error.InputOutputError) ∧
  (inb.getD 0 0 ≠ out.getD 0 0 ∨ inb.getD 1 0 ≠ out.getD 1 0 →
    err = some Error.InputOutputError)

/-- The method `reset`. -/
def Device.reset {σ : Type} (t : Transport σ) (d : Device σ) : Device σ × Option Error :=
  let d := d.clearBuffers
  let d := { d with outputBuffer := (d.outputBuffer.set 0 CMD_MAGIC).set 1 CMD_RESET }
  match d.usbWriteReadCtl t with
  | (d, some e) => (d, some e)
  | (d, none) =>
    match d.compareBuffers with
    | some e => (d, some e)
    | none => (d, none)

/-- The method `writeBit`. -/
def Device.writeBit {σ : Type} (t : Transport σ) (d : Device σ) (bit : Nat) :
    Device σ × Option Error :=
  let d := d.clearBuffers
  let d := { d with outputBuffer :=
    ((d.outputBuffer.set 0 CMD_MAGIC).set 1 CMD_RW_BIT).set 2 ((bit % 256) &&& 0x01) }
  match d.usbWriteReadCtl t with
  | (d, some e) => (d, some e)
  | (d, none) =>
    match d.compareBuffers with
    | some e => (d, some e)
    | none => (d, none)

/-- The method `writeByte`. -/
def Device.writeByte {σ : Type} (t : Transport σ) (d : Device σ) (b : Nat) :
    Device σ × Option Error :=
  let d := d.clearBuffers
  let d := { d with outputBuffer :=
    ((d.outputBuffer.set 0 CMD_MAGIC).set 1 CMD_RW_BYTE).set 2 (b % 256) }
  match d.usbWriteReadCtl t with
  | (d, some e) => (d, some e)
  | (d, none) =>
    match d.compareBuffers with
    | some e => (d, some e)
    | none => (d, none)

/-- The method `write4Byte`; `b` is a `uint32`. -/
def Device.write4Byte {σ : Type} (t : Transport σ) (d : Device σ) (b : Nat) :
    Device σ × Option Error :=
  let b := b % 2 ^ 32
  let b0 := b &&& 0xff
  let b1 := (b >>> 8) &&& 0xff
  let b2 := (b >>> 16) &&& 0xff
  let b3 := (b >>> 24) &&& 0xff
  let d := d.clearBuffers
  let out := ((d.outputBuffer.set 0 CMD_MAGIC).set 1 CMD_RW_4BYTE).set 2 (b0 % 256)
  let d := { d with outputBuffer := ((out.set 3 (b1 % 256)).set 4 (b2 % 256)).set 5 (b3 % 256) }
  match d.usbWriteReadCtl t with
  | (d, some e) => (d, some e)
  | (d, none) =>
    match d.compareBuffers with
    | some e => (d, some e)
    | none => (d, none)

/-- The method `read2Bit`; the results are the device, `bit` and `err`. -/
def Device.read2Bit {σ : Type} (t : Transport σ) (d : Device σ) :
    Device σ × Nat × Option Error :=
  let d := d.clearBuffers
  let d := { d with outputBuffer :=
    (((d.outputBuffer.set 0 CMD_MAGIC).set 1 CMD_RW_2BIT).set 2 0x01).set 3 0x01 }
  match d.usbWriteReadCtl t with
  | (d, some e) => (d, 0, some e)
  | (d, none) =>
    let bit := (d.inputBuffer.getD 2 0 + (d.inputBuffer.getD 3 0 <<< 1) % 256) % 256
    match d.compareBuffersWithDepth 2 with
    | some e => (d, bit, some e)
    | none => (d, bit, none)

/-- The method `readByte`; the results are the device, the byte and `err`. -/
def Device.readByte {σ : Type} (t : Transport σ) (d : Device σ) :
    Device σ × Nat × Option Error :=
  let d := d.clearBuffers
  let d := { d with outputBuffer :=
    ((d.outputBuffer.set 0 CMD_MAGIC).set 1 CMD_RW_BYTE).set 2 0xff }
  match d.usbWriteReadCtl t with
  | (d, some e) => (d, 0, some e)
  | (d, none) =>
    let bit := d.inputBuffer.getD 2 0
    match d.compareBuffersWithDepth 2 with
    | some e => (d, bit, some e)
    | none => (d, bit, none)

/-- The method `read4Byte`; the results are the device, the `uint32` and `err`. -/
def Device.read4Byte {σ : Type} (t : Transport σ) (d : Device σ) :
    Device σ × Nat × Option Error :=
  let d := d.clearBuffers
  let out := ((d.outputBuffer.set 0 CMD_MAGIC).set 1 CMD_RW_4BYTE).set 2 0xff
  let d := { d with outputBuffer := ((out.set 3 0xff).set 4 0xff).set 5 0xff }
  match d.usbWriteReadCtl t with
  | (d, some e) => (d, 0, some e)
  | (d, none) =>
    let b := (d.inputBuffer.getD 2 0 + (d.inputBuffer.getD 3 0 <<< 8) % 2 ^ 32 +
      (d.inputBuffer.getD 4 0 <<< 16) % 2 ^ 32 + (d.inputBuffer.getD 5 0 <<< 24) % 2 ^ 32) % 2 ^ 32
    match d.compareBuffersWithDepth 2 with
    | some e => (d, b, some e)
    | none => (d, b, none)

/-- The local variables of `searchRom` that live across its loops: `ok`, the
collision flags `cl`, the recorded partial addresses `rl`, `bit`, `rom` and the
named result `err`. -/
structure SearchVars where
  /-- The flag `ok`. -/
  ok : Bool
  /-- The slice `cl`. -/
  cl : List Bool
  /-- The slice `rl`. -/
  rl : List Nat
  /-- The variable `bit`. -/
  bit : Nat
  /-- The variable `rom`. -/
  rom : Nat
  /-- The named result `err`. -/
  err : Option Error
  deriving DecidableEq, Repr

/-- The body of the loop `for i := 0; i < RomPorts; i++` of `searchRom`. A `break`
inside the `switch` leaves the `switch` only; the `break` after a failed `read2Bit`
leaves the loop with `ok` false, which is what the guard `if ok` makes of the
remaining passes as well. -/
def searchRom.bitStep {σ : Type} (t : Transport σ) (romNext portLast : Nat)
    (s : Device σ × SearchVars) (i : Nat) : Device σ × SearchVars :=
  match s with
  | (d, v) =>
    if v.ok then
      match d.read2Bit t with
      | (d, bit, none) =>
        let v := { v with bit := bit, err := none }
        match v.bit &&& 0x03 with
        | 0 =>
          let v :=
            if portLast % 2 ^ 32 < i % 2 ^ 32 then
              { v with cl := v.cl.set i true, rl := v.rl.set i v.rom, bit := 0 }
            else
              { v with bit := ((romNext >>> i) &&& 1) % 256 }
          match d.writeBit t v.bit with
          | (d, some _) => (d, { v with ok := false })
          | (d, none) =>
            if v.bit = 1 then (d, { v with rom := (v.rom + (1 <<< i) % 2 ^ 64) % 2 ^ 64 })
            else (d, v)
        | 1 =>
          match d.writeBit t 1 with
          | (d, some _) => (d, { v with ok := false })
          | (d, none) => (d, { v with rom := (v.rom + (1 <<< i) % 2 ^ 64) % 2 ^ 64 })
        | 2 =>
          match d.writeBit t 0 with
          | (d, some _) => (d, { v with ok := false })
          | (d, none) => (d, v)
        | _ => (d, { v with ok := false })
      | (d, bit, some e) => (d, { v with bit := bit, err := some e, ok := false })
    else
      (d, v)

/-- The checksum loop `for j := 0; j < 8; j++` of `searchRom` on the pair
(`crc`, `ok`). -/
def searchRom.crcLoop (rom : Nat) : Nat × Bool :=
  (List.range 8).foldl
    (fun (s : Nat × Bool) j =>
      let crc := onewire.Crc8 (s.1 % 256) (((rom >>> (j <<< 3)) % 256) &&& 0xff)
      match onewire.CheckCrc8 crc with
      | some _ => (crc, false)
      | none => (crc, true))
    (0, true)

/-- The statements of `searchRom` after the loop over the bit positions: a zero
address clears `ok`, and when `ok` still holds the checksum loop decides it. -/
def searchRom.check (v : SearchVars) : SearchVars :=
  let v := if v.rom = 0 then { v with ok := false } else v
  if v.ok then { v with ok := (searchRom.crcLoop v.rom).2 } else v

/-- The body of the loop `for n := 0; n < Retries && !ok; n++` of `searchRom`: one
attempt, on the device and the variables. A failed `reset` or `writeByte` ends the
attempt by `continue`. -/
def searchRom.attempt {σ : Type} (t : Transport σ) (romNext portLast : Nat)
    (s : Device σ × SearchVars) : Device σ × SearchVars :=
  match s.1.reset t with
  | (d, some _) => (d, s.2)
  | (d, none) =>
    match d.writeByte t onewire.SearchRom with
    | (d, some _) => (d, s.2)
    | (d, none) =>
      let r := (List.range RomPorts).foldl (searchRom.bitStep t romNext portLast)
        (d, { s.2 with ok := true })
      (r.1, searchRom.check r.2)

/-- The loop `for n := 0; n < Retries && !ok; n++` of `searchRom`, with `k` the
number of values of `n` still to come. -/
def searchRom.attempts {σ : Type} (t : Transport σ) (romNext portLast : Nat) :
    Nat → Device σ × SearchVars → Device σ × SearchVars
  | 0, s => s
  | k + 1, s =>
    if s.2.ok then s
    else searchRom.attempts t romNext portLast k (searchRom.attempt t romNext portLast s)

/-- The body of the last loop `for i := 0; i < RomPorts; i++` of `searchRom`, on the
device and the slice `roms`: for a flagged position the search is called again
(`search` is that call) and its addresses are appended when its error is nil. The
accumulator is `none` once a call has used up the recursion bound. -/
def searchRom.branch {σ : Type}
    (search : Device σ → Nat → Nat → Option (Device σ × List Nat × Option Error))
    (v : SearchVars) (acc : Option (Device σ × List Nat)) (i : Nat) :
    Option (Device σ × List Nat) :=
  match acc with
  | none => none
  | some (d, roms) =>
    if v.cl.getD i false then
      match search d ((v.rl.getD i 0 ||| (1 <<< i)) % 2 ^ 64) (i % 2 ^ 32) with
      | none => none
      | some (d, r, none) => some (d, roms ++ r)
      | some (d, _, some _) => some (d, roms)
    else some (d, roms)

/-- The body of the method `searchRom`, with `search` standing for the method in its
recursive calls; the results are the device, `roms` and `err`. -/
def searchRom.body {σ : Type} (t : Transport σ)
    (search : Device σ → Nat → Nat → Option (Device σ × List Nat × Option Error))
    (d : Device σ) (romNext portLast : Nat) : Option (Device σ × List Nat × Option Error) :=
  let v : SearchVars :=
    { ok := false, cl := List.replicate RomPorts false, rl := List.replicate RomPorts 0,
      bit := 0, rom := 0, err := none }
  let r := searchRom.attempts t romNext portLast Retries (d, v)
  if !r.2.ok then some (r.1, [], r.2.err)
  else
    match (List.range RomPorts).foldl (searchRom.branch search r.2) (some (r.1, [r.2.rom])) with
    | none => none
    | some (d, roms) =>
      some (d, roms, if !r.2.ok then some (Error.New "failed to enumerate sensors") else r.2.err)

/-- The method `searchRom`. The first argument bounds the depth of the recursion:
`none` is returned when it is used up. -/
def Device.searchRom {σ : Type} (t : Transport σ) :
    Nat → Device σ → Nat → Nat → Option (Device σ × List Nat × Option Error)
  | 0, _, _, _ => none
  | fuel + 1, d, romNext, portLast =>
    searchRom.body t (Device.searchRom t fuel) d romNext portLast

/-- The method `GetSensors`. Every call of `searchRom` made by a call with
`portLast = p` has a larger `portLast` below `RomPorts`, so `RomPorts + 1` levels
are enough. -/
def Device.GetSensors {σ : Type} (t : Transport σ) (d : Device σ) :
    Option (Device σ × List Nat × Option Error) :=
  d.searchRom t (RomPorts + 1) 0 0

/-- The method `matchRom`. -/
def Device.matchRom {σ : Type} (t : Transport σ) (d : Device σ) (rom : Nat) :
    Device σ × Option Error :=
  match d.reset t with
  | (d, some e) => (d, some e)
  | (d, none) =>
    match d.writeByte t onewire.MatchRom with
    | (d, some e) => (d, some e)
    | (d, none) =>
      match d.write4Byte t ((rom &&& 0xFFFFFFFF) % 2 ^ 32) with
      | (d, some e) => (d, some e)
      | (d, none) =>
        match d.write4Byte t (((rom >>> 32) &&& 0xFFFFFFFF) % 2 ^ 32) with
        | (d, some e) => (d, some e)
        | (d, none) => (d, none)

/-- The method `skipRomConvert`. -/
def Device.skipRomConvert {σ : Type} (t : Transport σ) (d : Device σ) :
    Device σ × Option Error :=
  match d.reset t with
  | (d, some e) => (d, some e)
  | (d, none) =>
    match d.writeByte t onewire.SkipRom with
    | (d, some e) => (d, some e)
    | (d, none) =>
      match d.writeByte t onewire.ConvertT with
      | (d, some e) => (d, some e)
      | (d, none) => (d, none)

/-- The conversion `int16(x)` of an unsigned value: its low 16 bits in two's
complement. -/
def toInt16 (x : Nat) : Int :=
  if x % 2 ^ 16 < 2 ^ 15 then ((x % 2 ^ 16 : Nat) : Int) else ((x % 2 ^ 16 : Nat) : Int) - 2 ^ 16

/-- Nearest integer to a rational, ties to the even neighbour. -/
def roundHalfEven (q : ℚ) : ℤ :=
  if q - ⌊q⌋ < 1 / 2 then ⌊q⌋
  else if 1 / 2 < q - ⌊q⌋ then ⌊q⌋ + 1
  else if ⌊q⌋ % 2 = 0 then ⌊q⌋ else ⌊q⌋ + 1

/-- The value of a real number as a `float32`: IEEE 754 binary32 rounding to nearest,
ties to even, with a 24-bit significand and least exponent -126 (subnormals below).
Overflow to infinity is left out: no value here reaches 2^128. -/
def float32 (q : ℚ) : ℚ :=
  roundHalfEven (q / (2 : ℚ) ^ (max (Int.log 2 |q|) (-126) - 23)) *
    (2 : ℚ) ^ (max (Int.log 2 |q|) (-126) - 23)

/-- The type `Temperature`, a `float32`: the rational value of the float. -/
abbrev Temperature : Type := ℚ

/-- The exchanges of one pass of the loop of `GetTemperature`, up to the three reads
of the scratchpad: `none` when one of them fails (the pass ends by `continue`),
otherwise the values `l1`, `l2`, `l3`. -/
def GetTemperature.exchange {σ : Type} (t : Transport σ) (d : Device σ) (rom : Nat) :
    Device σ × Option (Nat × Nat × Nat) :=
  match d.skipRomConvert t with
  | (d, some _) => (d, none)
  | (d, none) =>
    match d.matchRom t rom with
    | (d, some _) => (d, none)
    | (d, none) =>
      match d.writeByte t onewire.ReadScratchpad with
      | (d, some _) => (d, none)
      | (d, none) =>
        match d.read4Byte t with
        | (d, _, some _) => (d, none)
        | (d, l1, none) =>
          match d.read4Byte t with
          | (d, _, some _) => (d, none)
          | (d, l2, none) =>
            match d.readByte t with
            | (d, _, some _) => (d, none)
            | (d, l3, none) => (d, some (l1, l2, l3))

/-- The nine bytes that `GetTemperature` folds into the checksum, in order:
`byte((l1>>(i*8))&0xff)` for `i` from 0 to 3, the same of `l2`, and `l3`. -/
def GetTemperature.scratchpad (l1 l2 l3 : Nat) : List Nat :=
  (List.range 4).map (fun i => ((l1 >>> (i * 8)) &&& 0xff) % 256) ++
    (List.range 4).map (fun i => ((l2 >>> (i * 8)) &&& 0xff) % 256) ++ [l3 % 256]

/-- The unit conversion at the end of a pass of `GetTemperature`. -/
def GetTemperature.convert (rom l1 : Nat) : Temperature :=
  let k : ℚ := float32 (toInt16 (l1 &&& 0xffff))
  if onewire.GetFamilyByRom rom = onewire.FamilyDS18B20 then float32 (k * 0.0625)
  else if onewire.GetFamilyByRom rom = onewire.FamilyDS1822 then float32 (k * 0.0625)
  else if onewire.GetFamilyByRom rom = onewire.FamilyDS18S20 then float32 (k * 0.5)
  else 1000

/-- The loop `for n := 0; n < Retries; n++` of `GetTemperature` with `k` values of `n`
still to come, and the `return 0, InputOutputError{}` after it. -/
def GetTemperature.loop {σ : Type} (t : Transport σ) (rom : Nat) :
    Nat → Device σ → Device σ × Temperature × Option Error
  | 0, d => (d, 0, some Error.InputOutputError)
  | k + 1, d =>
    match GetTemperature.exchange t d rom with
    | (d, none) => GetTemperature.loop t rom k d
    | (d, some (l1, l2, l3)) =>
      match onewire.CheckCrc8 (onewire.foldCrc8 (GetTemperature.scratchpad l1 l2 l3)) with
      | some _ => GetTemperature.loop t rom k d
      | none => (d, GetTemperature.convert rom l1, none)

/-- The outbound buffer of `writeByte(onewire.ReadScratchpad)`. -/
def readScratchpadFrame : List Nat :=
  [CMD_MAGIC, CMD_RW_BYTE, onewire.ReadScratchpad, 0, 0, 0, 0, 0]

/-- Number of Read-Scratchpad commands among the outbound buffers sent so far. -/
def Device.readScratchpadCount {σ : Type} (d : Device σ) : Nat :=
  d.sent.count readScratchpadFrame

/-- The next `k` passes of the loop of `GetTemperature`, started from `d`, all
complete their exchanges and read nine bytes that fold to a non-zero CRC8. -/
def GetTemperature.allBadCrc {σ : Type} (t : Transport σ) (rom : Nat) :
    Nat → Device σ → Bool
  | 0, _ => true
  | k + 1, d =>
    match GetTemperature.exchange t d rom with
    | (_, none) => false
    | (d, some (l1, l2, l3)) =>
      (onewire.foldCrc8 (GetTemperature.scratchpad l1 l2 l3) != 0) &&
        GetTemperature.allBadCrc t rom k d

/-- The method `GetTemperature`; the results are the device, `temperature` and
`err`. -/
def Device.GetTemperature {σ : Type} (t : Transport σ) (d : Device σ) (rom : Nat) :
    Device σ × Temperature × Option Error :=
  GetTemperature.loop t rom Retries d

end usb

/-! ## A simulated 1-Wire bus behind the adapter -/

namespace sim

/-- State of a simulated adapter with 1-Wire devices behind it: the addresses of the
devices on the bus, the devices still taking part in the running search, the bit
position the search has reached, and the reply waiting to be read. -/
structure Bus where
  /-- Addresses of the devices wired to the bus. -/
  devices : List Nat
  /-- Devices still selected in the running search. -/
  selected : List Nat
  /-- Bit position the running search has reached. -/
  pos : Nat
  /-- Reply to the last command. -/
  reply : List Nat
  deriving DecidableEq, Repr

/-- Bit `i` of an address, as 0 or 1. -/
def addrBit (a i : Nat) : Nat :=
  if a.testBit i then 1 else 0

/-- Wired-AND of bit `i` of the given devices: 1 when no device pulls the line low. -/
def wiredAnd (sel : List Nat) (i : Nat) : Nat :=
  if sel.all (fun a => addrBit a i == 1) then 1 else 0

/-- Wired-AND of the complement of bit `i` of the given devices. -/
def wiredAndCompl (sel : List Nat) (i : Nat) : Nat :=
  if sel.all (fun a => addrBit a i == 0) then 1 else 0

/-- The faithful bus serving one outbound command: every command is accepted in
full; a reset selects all devices again; a two-bit read answers with the wired-AND
of the selected devices' bit and of its complement; a bit write deselects the
devices whose bit differs and moves to the next position; everything else is
echoed. -/
def busOut (b : Bus) (out : List Nat) : Bus × Int :=
  if out.getD 1 0 = usb.CMD_RESET then
    ({ b with selected := b.devices, pos := 0, reply := out }, 8)
  else if out.getD 1 0 = usb.CMD_RW_2BIT then
    let answer := (out.set 2 (wiredAnd b.selected b.pos)).set 3 (wiredAndCompl b.selected b.pos)
    ({ b with reply := answer }, 8)
  else if out.getD 1 0 = usb.CMD_RW_BIT then
    let stay := b.selected.filter (fun a => addrBit a b.pos == out.getD 2 0)
    ({ b with selected := stay, pos := b.pos + 1, reply := out }, 8)
  else
    ({ b with reply := out }, 8)

/-- The faithful bus handing over the waiting reply. -/
def busIn (b : Bus) : Bus × List Nat × Int :=
  (b, b.reply, 8)

/-- The transport of the faithful simulated bus. -/
def faithful : usb.Transport Bus :=
  { controlOut := busOut, controlIn := busIn }

/-- A fresh device session on a bus carrying the devices `S`. -/
def session (S : List Nat) : usb.Device Bus :=
  { id := 0, handle := { devices := S, selected := [], pos := 0, reply := [] },
    outputBuffer := List.replicate usb.CmdSize 0, inputBuffer := List.replicate usb.CmdSize 0,
    sent := [] }

/-- A transport that accepts every command and answers every read with the same
bytes. -/
def constant (reply : List Nat) : usb.Transport Unit :=
  { controlOut := fun _ _ => ((), 8), controlIn := fun _ => ((), reply, 8) }

/-- A transport on which every control transfer fails with `LIBUSB_ERROR_IO`. -/
def dead : usb.Transport Unit :=
  { controlOut := fun _ _ => ((), -1), controlIn := fun _ => ((), [], -1) }

/-- A device session on a transport with state `h`. -/
def sessionOn {σ : Type} (h : σ) : usb.Device σ :=
  { id := 0, handle := h, outputBuffer := List.replicate usb.CmdSize 0,
    inputBuffer := List.replicate usb.CmdSize 0, sent := [] }

/-- State of a simulated adapter with one thermometer behind it: the nine bytes of
the scratchpad, the index of the next byte while a scratchpad read is under way, and
the reply waiting to be read. -/
structure Sensor where
  /-- The nine bytes of the scratchpad. -/
  scratch : List Nat
  /-- Index of the next scratchpad byte while a read is under way. -/
  reading : Option Nat
  /-- Reply to the last command. -/
  reply : List Nat
  deriving DecidableEq, Repr

/-- The simulated thermometer serving one outbound command: every command is
accepted in full and echoed, except that after `Read Scratchpad` the byte slots of
the one-byte and four-byte commands are answered with the next scratchpad bytes,
until the next reset. -/
def sensorOut (s : Sensor) (out : List Nat) : Sensor × Int :=
  if out.getD 1 0 = usb.CMD_RESET then
    ({ s with reading := none, reply := out }, 8)
  else
    match s.reading with
    | none =>
      if out.getD 1 0 = usb.CMD_RW_BYTE ∧ out.getD 2 0 = onewire.ReadScratchpad then
        ({ s with reading := some 0, reply := out }, 8)
      else
        ({ s with reply := out }, 8)
    | some i =>
      if out.getD 1 0 = usb.CMD_RW_BYTE then
        ({ s with reading := some (i + 1), reply := out.set 2 (s.scratch.getD i 0xff) }, 8)
      else if out.getD 1 0 = usb.CMD_RW_4BYTE then
        let low := (out.set 2 (s.scratch.getD i 0xff)).set 3 (s.scratch.getD (i + 1) 0xff)
        let answer := (low.set 4 (s.scratch.getD (i + 2) 0xff)).set 5 (s.scratch.getD (i + 3) 0xff)
        ({ s with reading := some (i + 4), reply := answer }, 8)
      else
        ({ s with reply := out }, 8)

/-- The transport of the simulated thermometer. -/
def thermometer : usb.Transport Sensor :=
  { controlOut := sensorOut, controlIn := fun s => (s, s.reply, 8) }

/-- A fresh device session on a thermometer with the given scratchpad. -/
def sensorSession (scratch : List Nat) : usb.Device Sensor :=
  sessionOn { scratch := scratch, reading := none, reply := [] }

/-- The eight bytes of an address, least significant first. -/
def romBytes (a : Nat) : List Nat :=
  (List.range 8).map fun j => (a >>> (j <<< 3)) % 256

/-- An address passes the CRC8 check when its eight bytes fold to zero. -/
def crcValid (a : Nat) : Bool :=
  onewire.foldCrc8 (romBytes a) == 0

/-! ## Invariants of the search on the faithful bus -/

/-- Two addresses agree on every bit position below `n`. -/
def agreeBelow (n a b : Nat) : Prop :=
  ∀ k, k < n → a.testBit k = b.testBit k

/-- Invariant of one pass of `searchRom romNext portLast` over the bit positions, on
the faithful bus carrying the devices `S`, when the pass is about to handle position
`i`: the pass is alive, the selected devices are the devices of `S` that agree with
`rom` below `i`, there is one, and the collision flags describe exactly the
positions above `portLast` where a device leaves the path of the pass. -/
structure PassInv (S : List Nat) (romNext portLast i : Nat) (d : usb.Device Bus)
    (v : usb.SearchVars) : Prop where
  /-- The pass is alive. -/
  ok : v.ok = true
  /-- No error is recorded. -/
  err : v.err = none
  /-- The bus carries the devices `S`. -/
  devices : d.handle.devices = S
  /-- The bus is at position `i`. -/
  pos : d.handle.pos = i
  /-- The selected devices are those of `S` that agree with `rom` below `i`. -/
  selected : ∀ a, a ∈ d.handle.selected ↔ a ∈ S ∧ agreeBelow i a v.rom
  /-- A device is selected. -/
  nonempty : ∃ a, a ∈ d.handle.selected
  /-- Only bits below `i` are set in `rom`. -/
  rom_lt : v.rom < 2 ^ i
  /-- The slice `cl` has `RomPorts` slots. -/
  cl_len : v.cl.length = 64
  /-- The slice `rl` has `RomPorts` slots. -/
  rl_len : v.rl.length = 64
  /-- A flagged position lies above `portLast`, the pass took bit 0 there, the
  recorded address is `rom` below that position, and a device took bit 1 there. -/
  coll : ∀ j, v.cl.getD j false = true →
    portLast < j ∧ j < i ∧ v.rom.testBit j = false ∧ v.rl.getD j 0 < 2 ^ j ∧
      agreeBelow j (v.rl.getD j 0) v.rom ∧
      ∃ a, a ∈ S ∧ agreeBelow j a v.rom ∧ a.testBit j = true
  /-- When a device agrees with `romNext` up to `portLast`, so does the pass. -/
  follow : (∃ a, a ∈ S ∧ agreeBelow (portLast + 1) a romNext) →
    agreeBelow (min i (portLast + 1)) v.rom romNext
  /-- Every position above `portLast` where a device leaves the path is flagged. -/
  recorded : ∀ j a, portLast < j → j < i → a ∈ S → agreeBelow j a v.rom →
    a.testBit j ≠ v.rom.testBit j → v.cl.getD j false = true

/-- What a call `searchRom romNext portLast` returns on the faithful bus carrying `S`:
a nil error and a list of addresses without repetition, whose head `c0` is the
address found by the pass of the call itself; the list holds exactly the devices of
`S` that agree with `c0` on the bit positions up to `portLast`; and `c0` agrees with
`romNext` on these positions when some device does. -/
def SearchResult (S : List Nat) (romNext portLast : Nat)
    (res : Option (usb.Device Bus × List Nat × Option Error)) : Prop :=
  ∃ d c0 rest, res = some (d, c0 :: rest, none) ∧ d.handle.devices = S ∧
    ((∃ a, a ∈ S ∧ agreeBelow (portLast + 1) a romNext) →
      agreeBelow (portLast + 1) c0 romNext) ∧
    (∀ x, x ∈ c0 :: rest → x ∈ S ∧ agreeBelow (portLast + 1) x c0) ∧
    (c0 :: rest).Nodup ∧
    (∀ a, a ∈ S → agreeBelow (portLast + 1) a c0 → a ∈ c0 :: rest)

end sim

/-! ## Hexadecimal text -/

namespace onewire

/-- A character is a hexadecimal digit: `0`-`9`, `a`-`f` or `A`-`F`. -/
def isHexChar (c : Char) : Bool :=
  (48 ≤ c.toNat && c.toNat ≤ 57) || (97 ≤ c.toNat && c.toNat ≤ 102) ||
    (65 ≤ c.toNat && c.toNat ≤ 70)

/-- The value of a hexadecimal digit character. -/
def hexCharValue (c : Char) : Nat :=
  if c.toNat ≤ 57 then c.toNat - 48 else if c.toNat ≤ 70 then c.toNat - 55 else c.toNat - 87

/-- The number denoted by a text of hexadecimal digits, most significant first. -/
def hexValue (cs : List Char) : Nat :=
  cs.foldl (fun n c => n * 16 + hexCharValue c) 0

/-- A string is the hexadecimal text of a 64-bit value: it is not empty, all its
characters are hexadecimal digits, and the number it denotes is below 2^64. -/
def isHexText64 (s : String) : Bool :=
  !s.data.isEmpty && s.data.all isHexChar && decide (hexValue s.data < 2 ^ 64)

end onewire

/-! ## The collision branches as the specification describes them -/

namespace usb

/-- The collision branches of a `searchRom` call in the words of the specification,
for comparison with the loop `searchRom.branch` of the code: the flagged positions
among `is` are visited in order; at each of them the search is invoked with the
recorded partial address with that bit forced to 1 and with that position as
`portLast`; an invocation that returns a nil error contributes all its addresses, and
one that returns an error contributes none. The result is `none` once an invocation
has used up the recursion bound. -/
def searchRom.specBranches {σ : Type}
    (search : Device σ → Nat → Nat → Option (Device σ × List Nat × Option Error))
    (v : SearchVars) : List Nat → Device σ → Option (Device σ × List Nat)
  | [], d => some (d, [])
  | i :: is, d =>
    if v.cl.getD i false then
      match search d ((v.rl.getD i 0 ||| (1 <<< i)) % 2 ^ 64) (i % 2 ^ 32) with
      | none => none
      | some (d1, r, e) =>
        match searchRom.specBranches search v is d1 with
        | none => none
        | some (d2, rest) => some (d2, (match e with | none => r | some _ => []) ++ rest)
    else searchRom.specBranches search v is d

end usb

/-! ## A faithful bus with one failing transfer -/

namespace sim

/-- The faithful bus behind an adapter on which the outbound control transfer with
index `k` (counted from 0 over the session) fails with `LIBUSB_ERROR_IO` and leaves
the bus untouched; every other transfer is served as by `busOut`. The state is the
bus and the number of outbound transfers so far. -/
def flakyOut (k : Nat) (s : Bus × Nat) (out : List Nat) : (Bus × Nat) × Int :=
  if s.2 = k then ((s.1, s.2 + 1), -1)
  else (((busOut s.1 out).1, s.2 + 1), (busOut s.1 out).2)

/-- The transport of the faithful bus whose outbound transfer `k` fails. -/
def flaky (k : Nat) : usb.Transport (Bus × Nat) :=
  { controlOut := flakyOut k, controlIn := fun s => (s, s.1.reply, 8) }

/-- A fresh device session on the bus carrying the devices `S`, before any transfer. -/
def flakySession (S : List Nat) : usb.Device (Bus × Nat) :=
  sessionOn ({ devices := S, selected := [], pos := 0, reply := [] }, 0)

end sim

/-! ## The passes of a temperature reading -/

namespace usb

/-- One pass of the loop of `GetTemperature` started from `d` passes: its exchanges all
succeed and the nine bytes read fold to CRC8 0. -/
def GetTemperature.passes {σ : Type} (t : Transport σ) (rom : Nat) (d : Device σ) : Bool :=
  match (GetTemperature.exchange t d rom).2 with
  | none => false
  | some (l1, l2, l3) => onewire.foldCrc8 (GetTemperature.scratchpad l1 l2 l3) == 0

/-- The eleven outbound buffers of one complete pass of `GetTemperature` for `rom`, in
the order sent: reset, Skip ROM, Convert T, reset, Match ROM, the low and the high four
bytes of `rom`, Read Scratchpad, two four-byte reads and a one-byte read. -/
def GetTemperature.passFrames (rom : Nat) : List (List Nat) :=
  [[0x18, 0x48, 0, 0, 0, 0, 0, 0], [0x18, 0x88, 0xcc, 0, 0, 0, 0, 0],
   [0x18, 0x88, 0x44, 0, 0, 0, 0, 0], [0x18, 0x48, 0, 0, 0, 0, 0, 0],
   [0x18, 0x88, 0x55, 0, 0, 0, 0, 0],
   [0x18, 0x84, rom % 256, rom / 2 ^ 8 % 256, rom / 2 ^ 16 % 256, rom / 2 ^ 24 % 256, 0, 0],
   [0x18, 0x84, rom / 2 ^ 32 % 256, rom / 2 ^ 40 % 256, rom / 2 ^ 48 % 256,
     rom / 2 ^ 56 % 256, 0, 0],
   [0x18, 0x88, 0xbe, 0, 0, 0, 0, 0], [0x18, 0x84, 0xff, 0xff, 0xff, 0xff, 0, 0],
   [0x18, 0x84, 0xff, 0xff, 0xff, 0xff, 0, 0], [0x18, 0x88, 0xff, 0, 0, 0, 0, 0]]

end usb

namespace sim

/-- The outbound side of a transport `t` behind an adapter on which the outbound
control transfer with index `k` (counted from 0 over the session) fails with
`LIBUSB_ERROR_IO` and does not reach `t`. The state is the state of `t` and the number
of outbound transfers so far. -/
def failingOut {σ : Type} (k : Nat) (t : usb.Transport σ) (s : σ × Nat) (out : List Nat) :
    (σ × Nat) × Int :=
  if s.2 = k then ((s.1, s.2 + 1), -1)
  else (((t.controlOut s.1 out).1, s.2 + 1), (t.controlOut s.1 out).2)

/-- The inbound side of that transport: the inbound transfers of `t`. -/
def failingIn {σ : Type} (t : usb.Transport σ) (s : σ × Nat) : (σ × Nat) × List Nat × Int :=
  (((t.controlIn s.1).1, s.2), (t.controlIn s.1).2.1, (t.controlIn s.1).2.2)

/-- The transport `t` with its outbound transfer `k` failing. -/
def failingAt {σ : Type} (k : Nat) (t : usb.Transport σ) : usb.Transport (σ × Nat) :=
  { controlOut := failingOut k t, controlIn := failingIn t }

/-- A fresh device session on a thermometer with the given scratchpad, before any
transfer, behind an adapter with a failing transfer. -/
def failingSensorSession (scratch : List Nat) : usb.Device (Sensor × Nat) :=
  sessionOn ({ scratch := scratch, reading := none, reply := [] }, 0)

end sim

/-! ## Theorems: checksum module -/

namespace onewire

set_option maxRecDepth 20000 in
theorem crc8_byte_facts : ∀ r < 256,
    (((r ^^^ 0x18) >>> 1) ||| 0x80) % 256 = (r >>> 1) ^^^ 0x8C ∧
    (r >>> 1) &&& 0x7f = r >>> 1 ∧ ((r >>> 1) ^^^ 0x8C) < 256 := by decide

/-- Loop invariant relating the accumulator of `Crc8` to the reference register:
after `n` passes they differ by the data bits not yet consumed. -/
theorem crc8_loop_inv (c d : Nat) (hc : c < 256) (n : Nat) :
    (List.range n).foldl (Crc8.body d) c < 256 ∧
    (List.range n).foldl (Crc8.body d) c ^^^ (d >>> n)
      = (List.range n).foldl (fun y _ => dallasCrc8Step y) (c ^^^ d) := by
  induction n with
  | zero => simpa using hc
  | succ n ih =>
    obtain ⟨hlt, heq⟩ := ih
    rw [List.range_succ, List.foldl_append, List.foldl_append]
    simp only [List.foldl_cons, List.foldl_nil]
    rw [← heq]
    generalize (List.range n).foldl _ c = r at hlt ⊢
    obtain ⟨h1, h2, h3⟩ := crc8_byte_facts r hlt
    have hs : d >>> (n + 1) = (d >>> n) >>> 1 := Nat.shiftRight_add d n 1
    unfold Crc8.body
    rw [hs]
    generalize d >>> n = e
    rw [Nat.and_one_is_mod, h1, h2]
    unfold dallasCrc8Step
    have hx : (r ^^^ e) >>> 1 = (r >>> 1) ^^^ (e >>> 1) := by
      simp only [Nat.shiftRight_one, Nat.xor_div_two]
    by_cases hodd : (r ^^^ e) % 2 = 1
    · rw [if_pos hodd, if_pos hodd, hx]
      refine ⟨h3, ?_⟩
      rw [Nat.xor_assoc, Nat.xor_assoc, Nat.xor_comm 0x8C]
    · rw [if_neg hodd, if_neg hodd, hx]
      refine ⟨?_, rfl⟩
      have : r >>> 1 ≤ r := by rw [Nat.shiftRight_one]; omega
      omega

theorem crc8_eq_dallas (c d : Nat) (hc : c < 256) (hd : d < 256) :
    Crc8 c d = dallasCrc8Byte c d := by
  have h := (crc8_loop_inv c d hc 8).2
  have hz : d >>> 8 = 0 := by
    rw [Nat.shiftRight_eq_div_pow]; exact Nat.div_eq_of_lt (by simpa using hd)
  rw [hz, Nat.xor_zero] at h
  unfold Crc8 dallasCrc8Byte dallasCrc8Shift
  rw [Nat.mod_eq_of_lt hc, Nat.mod_eq_of_lt hd]
  exact h

theorem crc8_lt (c d : Nat) : Crc8 c d < 256 :=
  (crc8_loop_inv (c % 256) (d % 256) (Nat.mod_lt _ (by decide)) 8).1

theorem crc8_mod (c d : Nat) : Crc8 c d = dallasCrc8Byte (c % 256) (d % 256) := by
  have h := crc8_eq_dallas (c % 256) (d % 256) (Nat.mod_lt _ (by decide))
    (Nat.mod_lt _ (by decide))
  have h2 : Crc8 (c % 256) (d % 256) = Crc8 c d := by
    unfold Crc8; rw [Nat.mod_mod, Nat.mod_mod]
  rw [← h2, h]

set_option maxRecDepth 20000 in
theorem dallas_unshift_shift : ∀ x < 256, dallasCrc8Unshift (dallasCrc8Shift x) = x := by
  decide

theorem dallas_shift_zero : dallasCrc8Shift 0 = 0 := by decide

theorem dallas_shift_inj {x y : Nat} (hx : x < 256) (hy : y < 256)
    (h : dallasCrc8Shift x = dallasCrc8Shift y) : x = y := by
  rw [← dallas_unshift_shift x hx, ← dallas_unshift_shift y hy, h]

/-- C1: for accumulator and data bytes `c`, `d`, `Crc8 c d` is one byte step of the
reflected Dallas/Maxim CRC8 (`x := c XOR d`, then eight times: shift right, XOR
with 0x8C when the bit shifted out was 1), and the result is a byte. -/
theorem crc8_refines_dallas (c d : Nat) (hc : c < 256) (hd : d < 256) :
    Crc8 c d = dallasCrc8Byte c d ∧ Crc8 c d < 256 :=
  ⟨crc8_eq_dallas c d hc hd, crc8_lt c d⟩

theorem crc8_refines_dallas_witness :
    (0x5a < 256 ∧ 0xc3 < 256) ∧
    (Crc8 0x5a 0xc3 = dallasCrc8Byte 0x5a 0xc3 ∧ Crc8 0x5a 0xc3 < 256) :=
  ⟨by decide, crc8_refines_dallas 0x5a 0xc3 (by decide) (by decide)⟩

theorem foldCrc8From_lt (c : Nat) (bs : List Nat) (hc : c < 256) :
    foldCrc8From c bs < 256 := by
  induction bs generalizing c with
  | nil => simpa [foldCrc8From] using hc
  | cons b bs ih => exact ih _ (crc8_lt _ _)

theorem foldCrc8From_append (c : Nat) (xs ys : List Nat) :
    foldCrc8From c (xs ++ ys) = foldCrc8From (foldCrc8From c xs) ys := by
  simp [foldCrc8From, List.foldl_append]

theorem crc8_self (c : Nat) : Crc8 c c = 0 := by
  rw [crc8_mod, dallasCrc8Byte, Nat.xor_self]
  exact dallas_shift_zero

theorem crc8_inj_left {a b d : Nat} (ha : a < 256) (hb : b < 256)
    (h : Crc8 a d = Crc8 b d) : a = b := by
  rw [crc8_mod, crc8_mod, Nat.mod_eq_of_lt ha, Nat.mod_eq_of_lt hb] at h
  have hd : d % 256 < 2 ^ 8 := Nat.mod_lt _ (by decide)
  have hx := dallas_shift_inj (Nat.xor_lt_two_pow (n := 8) ha hd)
    (Nat.xor_lt_two_pow (n := 8) hb hd) h
  have h2 := congrArg (fun t => t ^^^ (d % 256)) hx
  simpa [Nat.xor_assoc] using h2

theorem crc8_inj_right {c x y : Nat} (hx : x < 256) (hy : y < 256)
    (h : Crc8 c x = Crc8 c y) : x = y := by
  rw [crc8_mod, crc8_mod, Nat.mod_eq_of_lt hx, Nat.mod_eq_of_lt hy] at h
  have hc : c % 256 < 2 ^ 8 := Nat.mod_lt _ (by decide)
  have hxy := dallas_shift_inj (Nat.xor_lt_two_pow (n := 8) hc hx)
    (Nat.xor_lt_two_pow (n := 8) hc hy) h
  exact Nat.xor_right_injective hxy

theorem foldCrc8From_inj (bs : List Nat) {a b : Nat} (ha : a < 256) (hb : b < 256)
    (h : foldCrc8From a bs = foldCrc8From b bs) : a = b := by
  induction bs generalizing a b with
  | nil => simpa [foldCrc8From] using h
  | cons x xs ih =>
    have h2 : Crc8 (a % 256) x = Crc8 (b % 256) x := ih (crc8_lt _ _) (crc8_lt _ _) h
    rw [Nat.mod_eq_of_lt ha, Nat.mod_eq_of_lt hb] at h2
    exact crc8_inj_left ha hb h2

/-- Replacing one byte of a sequence by a different byte changes the folded
accumulator. -/
theorem foldCrc8From_set_ne (l : List Nat) (c i v : Nat) (hc : c < 256)
    (hi : i < l.length) (hv : v < 256) (hl : l.getD i 0 < 256) (hne : v ≠ l.getD i 0) :
    foldCrc8From c (l.set i v) ≠ foldCrc8From c l := by
  induction l generalizing c i with
  | nil => simp at hi
  | cons x xs ih =>
    cases i with
    | zero =>
      simp only [List.set_cons_zero]
      intro h
      have hx : x < 256 := by simpa using hl
      have h2 : Crc8 (c % 256) v = Crc8 (c % 256) x :=
        foldCrc8From_inj xs (crc8_lt _ _) (crc8_lt _ _) h
      exact hne (by simpa using crc8_inj_right hv hx h2)
    | succ j =>
      simp only [List.set_cons_succ]
      exact ih (Crc8 (c % 256) x) j (crc8_lt _ _) (by simpa using hi)
        (by simpa using hl) (by simpa using hne)

theorem xor_two_pow_ne (x k : Nat) : x ^^^ 2 ^ k ≠ x := by
  intro h
  have h2 : x ^^^ 2 ^ k = x ^^^ 0 := by simpa using h
  have h3 := Nat.xor_right_injective h2
  exact absurd h3 (by positivity)

theorem foldCrc8_append_self (bs : List Nat) : foldCrc8 (bs ++ [foldCrc8 bs]) = 0 := by
  unfold foldCrc8
  rw [foldCrc8From_append]
  have hlt := foldCrc8From_lt 0 bs (by decide)
  show Crc8 (foldCrc8From 0 bs % 256) (foldCrc8From 0 bs) = 0
  rw [Nat.mod_eq_of_lt hlt]
  exact crc8_self _

/-- C2: for every byte sequence `bs`, folding `Crc8` from 0 over `bs` followed by the
accumulator `foldCrc8 bs` gives 0, and `CheckCrc8` returns nil on it. -/
theorem foldCrc8_append_crc (bs : List Nat) :
    foldCrc8 (bs ++ [foldCrc8 bs]) = 0 ∧ CheckCrc8 (foldCrc8 (bs ++ [foldCrc8 bs])) = none := by
  have h := foldCrc8_append_self bs
  exact ⟨h, by rw [h]; rfl⟩

/-- C3: for every byte sequence followed by its trailing CRC8 byte, flipping bit `k`
(`k < 8`) of the byte at any index `i` of the extended sequence makes the folded
accumulator non-zero, and `CheckCrc8` returns `CrcMismatchError`. -/
theorem foldCrc8_single_bit_flip (bs : List Nat) (i k : Nat)
    (hbs : ∀ b ∈ bs, b < 256) (hi : i ≤ bs.length) (hk : k < 8) :
    foldCrc8 ((bs ++ [foldCrc8 bs]).set i ((bs ++ [foldCrc8 bs]).getD i 0 ^^^ 2 ^ k)) ≠ 0 ∧
    CheckCrc8
      (foldCrc8 ((bs ++ [foldCrc8 bs]).set i ((bs ++ [foldCrc8 bs]).getD i 0 ^^^ 2 ^ k)))
      = some Error.CrcMismatchError := by
  have hall : ∀ b ∈ bs ++ [foldCrc8 bs], b < 256 := by
    intro b hb
    rcases List.mem_append.1 hb with h | h
    · exact hbs b h
    · rw [List.mem_singleton.1 h]; exact foldCrc8From_lt 0 bs (by decide)
  have hlen : i < (bs ++ [foldCrc8 bs]).length := by simp; omega
  have hget : (bs ++ [foldCrc8 bs]).getD i 0 < 256 := by
    rw [List.getD_eq_getElem _ _ hlen]
    exact hall _ (List.getElem_mem _)
  have hpow : 2 ^ k < 2 ^ 8 := Nat.pow_lt_pow_right (by decide) hk
  have hv : (bs ++ [foldCrc8 bs]).getD i 0 ^^^ 2 ^ k < 256 :=
    Nat.xor_lt_two_pow (n := 8) hget hpow
  have hne := foldCrc8From_set_ne (bs ++ [foldCrc8 bs]) 0 i _ (by decide) hlen hv hget
    (xor_two_pow_ne _ k)
  have h0 : foldCrc8From 0 (bs ++ [foldCrc8 bs]) = 0 := foldCrc8_append_self bs
  rw [h0] at hne
  exact ⟨hne, if_pos hne⟩

theorem foldCrc8_single_bit_flip_witness :
    ((∀ b ∈ [0x28, 0x01], b < 256) ∧ 1 ≤ [0x28, 0x01].length ∧ 3 < 8) ∧
    (foldCrc8 (([0x28, 0x01] ++ [foldCrc8 [0x28, 0x01]]).set 1
        (([0x28, 0x01] ++ [foldCrc8 [0x28, 0x01]]).getD 1 0 ^^^ 2 ^ 3)) ≠ 0 ∧
     CheckCrc8 (foldCrc8 (([0x28, 0x01] ++ [foldCrc8 [0x28, 0x01]]).set 1
        (([0x28, 0x01] ++ [foldCrc8 [0x28, 0x01]]).getD 1 0 ^^^ 2 ^ 3)))
       = some Error.CrcMismatchError) :=
  ⟨by decide, foldCrc8_single_bit_flip [0x28, 0x01] 1 3 (by decide) (by decide) (by decide)⟩

end onewire

/-! ## Theorems: textual form of addresses -/

namespace onewire

theorem parseUint_digit_hexDigit : ∀ v < 16, ParseUint.digit (hexDigit v) = some v := by
  decide

theorem parseUint_loop_le (ds : List Nat) (n : Nat) :
    n ≤ ds.foldl (fun m v => m * 16 + v) n := by
  induction ds generalizing n with
  | nil => simp
  | cons v vs ih =>
    simp only [List.foldl_cons]
    exact le_trans (by omega) (ih (n * 16 + v))

/-- The digit loop reads back the digits written most significant first, as long as
the value stays below 2^64. -/
theorem parseUint_loop_digits (ds : List Nat) (n : Nat) (hds : ∀ v ∈ ds, v < 16)
    (hlt : ds.foldl (fun m v => m * 16 + v) n < 2 ^ 64) :
    ParseUint.loop n (ds.map hexDigit) = (ds.foldl (fun m v => m * 16 + v) n, none) := by
  induction ds generalizing n with
  | nil => rfl
  | cons v vs ih =>
    have hv : v < 16 := hds v (List.mem_cons_self _ _)
    simp only [List.foldl_cons] at hlt ⊢
    have hle := parseUint_loop_le vs (n * 16 + v)
    have hn : n * 16 + v < 2 ^ 64 := lt_of_le_of_lt hle hlt
    simp only [List.map_cons, ParseUint.loop, parseUint_digit_hexDigit v hv]
    rw [Nat.mod_eq_of_lt hn]
    have h1 : ¬ 16 ≤ v := by omega
    have h2 : ¬ 2 ^ 64 / 16 ≤ n := by omega
    have h3 : ¬ (n * 16 + v < n * 16 ∨ 2 ^ 64 - 1 < n * 16 + v) := by omega
    rw [if_neg h1, if_neg h2, if_neg h3]
    exact ih (n * 16 + v) (fun w hw => hds w (List.mem_cons_of_mem _ hw)) hlt

theorem foldl_digits_reverse (r : Nat) :
    (Nat.digits 16 r).reverse.foldl (fun m v => m * 16 + v) 0 = r := by
  rw [List.foldl_reverse]
  have h := Nat.ofDigits_digits 16 r
  rw [Nat.ofDigits_eq_foldr] at h
  simpa [mul_comm, add_comm] using h

/-- C10: for every 64-bit value `r`, parsing the lowercase hexadecimal text of `r`
gives `r` back: `StringToRom (Rom.String r) = r`. -/
theorem stringToRom_string (r : Nat) (hr : r < 2 ^ 64) : StringToRom (Rom.String r) = r := by
  unfold StringToRom Rom.String
  rw [Nat.mod_eq_of_lt hr]
  by_cases h0 : r = 0
  · subst h0; decide
  · rw [if_neg h0]
    unfold ParseUint
    have hne : (Nat.digits 16 r).reverse.map hexDigit ≠ [] := by
      simpa [Nat.digits_eq_nil_iff_eq_zero] using h0
    rw [if_neg hne]
    have hlt : (Nat.digits 16 r).reverse.foldl (fun m v => m * 16 + v) 0 < 2 ^ 64 := by
      rw [foldl_digits_reverse]; exact hr
    rw [parseUint_loop_digits _ 0 ?_ hlt, foldl_digits_reverse]
    intro v hv
    exact Nat.digits_lt_base (by decide) (List.mem_reverse.1 hv)

theorem stringToRom_string_witness :
    0x1e00000000000028 < 2 ^ 64 ∧
      StringToRom (Rom.String 0x1e00000000000028) = 0x1e00000000000028 :=
  ⟨by decide, stringToRom_string 0x1e00000000000028 (by decide)⟩

end onewire

/-! ## Theorems: echo verification of the bus primitives -/

namespace usb

theorem usbWriteReadCtl_of_transfers {σ : Type} (t : Transport σ) (d : Device σ)
    (inb : List Nat) (h : TransfersSucceed t d.handle d.outputBuffer inb) :
    ∃ d1, d.usbWriteReadCtl t = (d1, none) ∧ d1.inputBuffer = inb ∧
      d1.outputBuffer = d.outputBuffer := by
  obtain ⟨h1, h2, h3⟩ := h
  cases hout : t.controlOut d.handle d.outputBuffer with
  | mk s written =>
    rw [hout] at h1 h2 h3
    simp only at h1 h2 h3
    cases hin : t.controlIn s with
    | mk s2 rest =>
      cases rest with
      | mk data read =>
        rw [hin] at h2 h3
        simp only at h2 h3
        subst h1 h2
        refine ⟨{ d with handle := s2, inputBuffer := toCmdBuffer data,
                         sent := d.sent ++ [d.outputBuffer] }, ?_, h3, rfl⟩
        simp [Device.usbWriteReadCtl, Device.usbWriteCtl, Device.usbReadCtl, hout, hin,
          CmdSize]

theorem compareBuffersWithDepth_iff {σ : Type} (d : Device σ) (depth : Nat) :
    (d.compareBuffersWithDepth depth = none ↔
      ∀ i < depth, d.inputBuffer.getD i 0 = d.outputBuffer.getD i 0) ∧
    (d.compareBuffersWithDepth depth ≠ none →
      d.compareBuffersWithDepth depth = some Error.InputOutputError) := by
  unfold Device.compareBuffersWithDepth
  by_cases h : (List.range depth).any
      (fun i => d.inputBuffer.getD i 0 != d.outputBuffer.getD i 0) = true
  · rw [if_pos h]
    refine ⟨⟨fun h2 => by simp at h2, fun h2 => ?_⟩, fun _ => rfl⟩
    obtain ⟨i, hi, hne⟩ := List.any_eq_true.1 h
    exact absurd (h2 i (List.mem_range.1 hi)) (by simpa using hne)
  · rw [if_neg h]
    refine ⟨⟨fun _ i hi => ?_, fun _ => rfl⟩, fun h2 => absurd rfl h2⟩
    by_contra hne
    exact h (List.any_eq_true.2 ⟨i, List.mem_range.2 hi, by simpa using hne⟩)

/-- Shape shared by the four write-type primitives after the outbound buffer is
filled. -/
theorem write_shape {σ : Type} (t : Transport σ) (d : Device σ) (inb : List Nat)
    (h : TransfersSucceed t d.handle d.outputBuffer inb) :
    ((match d.usbWriteReadCtl t with
      | (d, some e) => (d, some e)
      | (d, none) =>
        match d.compareBuffers with
        | some e => (d, some e)
        | none => (d, none)).2 = none ↔
        ∀ i < 8, inb.getD i 0 = d.outputBuffer.getD i 0) ∧
    ((match d.usbWriteReadCtl t with
      | (d, some e) => (d, some e)
      | (d, none) =>
        match d.compareBuffers with
        | some e => (d, some e)
        | none => (d, none)).2 ≠ none →
      (match d.usbWriteReadCtl t with
      | (d, some e) => (d, some e)
      | (d, none) =>
        match d.compareBuffers with
        | some e => (d, some e)
        | none => (d, none)).2 = some Error.InputOutputError) := by
  obtain ⟨d1, h1, hin, hout⟩ := usbWriteReadCtl_of_transfers t d inb h
  have hc := compareBuffersWithDepth_iff d1 CmdSize
  rw [hin, hout] at hc
  rw [h1]
  simp only
  unfold Device.compareBuffers
  cases hcmp : d1.compareBuffersWithDepth CmdSize with
  | none =>
    simp only [hcmp] at hc ⊢
    simpa [CmdSize] using hc.1
  | some e =>
    simp only [hcmp] at hc ⊢
    have he := hc.2 (by simp)
    refine ⟨?_, fun _ => he⟩
    have := hc.1
    simpa [CmdSize] using this

/-- Shape shared by the three read-type primitives after the outbound buffer is
filled; `f` takes the result out of the inbound buffer. -/
theorem read_shape {σ : Type} (t : Transport σ) (d : Device σ) (inb : List Nat)
    (f : Device σ → Nat) (h : TransfersSucceed t d.handle d.outputBuffer inb) :
    ((match d.usbWriteReadCtl t with
      | (d, some e) => (d, 0, some e)
      | (d, none) =>
        match d.compareBuffersWithDepth 2 with
        | some e => (d, f d, some e)
        | none => (d, f d, none)).2.2 = none ↔
        ∀ i < 2, inb.getD i 0 = d.outputBuffer.getD i 0) ∧
    ((match d.usbWriteReadCtl t with
      | (d, some e) => (d, 0, some e)
      | (d, none) =>
        match d.compareBuffersWithDepth 2 with
        | some e => (d, f d, some e)
        | none => (d, f d, none)).2.2 ≠ none →
      (match d.usbWriteReadCtl t with
      | (d, some e) => (d, 0, some e)
      | (d, none) =>
        match d.compareBuffersWithDepth 2 with
        | some e => (d, f d, some e)
        | none => (d, f d, none)).2.2 = some Error.InputOutputError) := by
  obtain ⟨d1, h1, hin, hout⟩ := usbWriteReadCtl_of_transfers t d inb h
  have hc := compareBuffersWithDepth_iff d1 2
  rw [hin, hout] at hc
  rw [h1]
  simp only
  cases hcmp : d1.compareBuffersWithDepth 2 with
  | none =>
    simp only [hcmp] at hc ⊢
    simpa using hc.1
  | some e =>
    simp only [hcmp] at hc ⊢
    have he := hc.2 (by simp)
    refine ⟨?_, fun _ => he⟩
    have := hc.1
    simpa using this

theorem echoRule_of_shape (err : Option Error) (out inb : List Nat) (depth : Nat)
    (hd : 2 ≤ depth)
    (h : (err = none ↔ ∀ i < depth, inb.getD i 0 = out.getD i 0) ∧
      (err ≠ none → err = some Error.InputOutputError)) :
    EchoRule err out inb depth := by
  refine ⟨h.1, h.2, fun hne => h.2 (fun hn => ?_)⟩
  have hall := h.1.1 hn
  rcases hne with h0 | h1
  · exact h0 (hall 0 (by omega))
  · exact h1 (hall 1 (by omega))

theorem write4Byte_bytes (w : Nat) :
    ((w % 2 ^ 32) &&& 0xff) % 256 = w % 256 ∧
    (((w % 2 ^ 32) >>> 8) &&& 0xff) % 256 = w / 2 ^ 8 % 256 ∧
    (((w % 2 ^ 32) >>> 16) &&& 0xff) % 256 = w / 2 ^ 16 % 256 ∧
    (((w % 2 ^ 32) >>> 24) &&& 0xff) % 256 = w / 2 ^ 24 % 256 := by
  have h : ∀ x : Nat, x &&& 0xff = x % 256 := fun x => Nat.and_pow_two_sub_one_eq_mod x 8
  simp only [h, Nat.shiftRight_eq_div_pow, Nat.mod_mod]
  refine ⟨?_, ?_, ?_, ?_⟩ <;> omega

/-- C9: when both control transfers succeed, each write-type primitive (`reset`,
`writeBit`, `writeByte`, `write4Byte`) returns nil exactly when all eight inbound
bytes equal the outbound bytes, each read-type primitive (`read2Bit`, `readByte`,
`read4Byte`) returns a nil error exactly when inbound bytes 0 and 1 equal the
outbound header; otherwise the error is `InputOutputError`, in particular whenever
the inbound header differs from the outbound one. -/
theorem echo_verification {σ : Type} (t : Transport σ) (d : Device σ)
    (bit b w : Nat) (inb : List Nat) :
    (TransfersSucceed t d.handle [0x18, 0x48, 0, 0, 0, 0, 0, 0] inb →
      EchoRule (d.reset t).2 [0x18, 0x48, 0, 0, 0, 0, 0, 0] inb 8) ∧
    (TransfersSucceed t d.handle [0x18, 0x81, bit % 256 &&& 1, 0, 0, 0, 0, 0] inb →
      EchoRule (d.writeBit t bit).2 [0x18, 0x81, bit % 256 &&& 1, 0, 0, 0, 0, 0] inb 8) ∧
    (TransfersSucceed t d.handle [0x18, 0x88, b % 256, 0, 0, 0, 0, 0] inb →
      EchoRule (d.writeByte t b).2 [0x18, 0x88, b % 256, 0, 0, 0, 0, 0] inb 8) ∧
    (TransfersSucceed t d.handle
        [0x18, 0x84, w % 256, w / 2 ^ 8 % 256, w / 2 ^ 16 % 256, w / 2 ^ 24 % 256, 0, 0] inb →
      EchoRule (d.write4Byte t w).2
        [0x18, 0x84, w % 256, w / 2 ^ 8 % 256, w / 2 ^ 16 % 256, w / 2 ^ 24 % 256, 0, 0] inb 8) ∧
    (TransfersSucceed t d.handle [0x18, 0x82, 1, 1, 0, 0, 0, 0] inb →
      EchoRule (d.read2Bit t).2.2 [0x18, 0x82, 1, 1, 0, 0, 0, 0] inb 2) ∧
    (TransfersSucceed t d.handle [0x18, 0x88, 0xff, 0, 0, 0, 0, 0] inb →
      EchoRule (d.readByte t).2.2 [0x18, 0x88, 0xff, 0, 0, 0, 0, 0] inb 2) ∧
    (TransfersSucceed t d.handle [0x18, 0x84, 0xff, 0xff, 0xff, 0xff, 0, 0] inb →
      EchoRule (d.read4Byte t).2.2 [0x18, 0x84, 0xff, 0xff, 0xff, 0xff, 0, 0] inb 2) := by
  refine ⟨fun h => ?_, fun h => ?_, fun h => ?_, fun h => ?_, fun h => ?_, fun h => ?_,
    fun h => ?_⟩
  · exact echoRule_of_shape _ _ _ _ (by decide)
      (write_shape t { d.clearBuffers with outputBuffer := [0x18, 0x48, 0, 0, 0, 0, 0, 0] } inb h)
  · exact echoRule_of_shape _ _ _ _ (by decide)
      (write_shape t
        { d.clearBuffers with outputBuffer := [0x18, 0x81, bit % 256 &&& 1, 0, 0, 0, 0, 0] }
        inb h)
  · exact echoRule_of_shape _ _ _ _ (by decide)
      (write_shape t { d.clearBuffers with outputBuffer := [0x18, 0x88, b % 256, 0, 0, 0, 0, 0] }
        inb h)
  · obtain ⟨h0, h1, h2, h3⟩ := write4Byte_bytes w
    have hw : d.write4Byte t w =
        (match Device.usbWriteReadCtl t
            { d.clearBuffers with outputBuffer :=
              [0x18, 0x84, ((w % 2 ^ 32) &&& 0xff) % 256,
                (((w % 2 ^ 32) >>> 8) &&& 0xff) % 256, (((w % 2 ^ 32) >>> 16) &&& 0xff) % 256,
                (((w % 2 ^ 32) >>> 24) &&& 0xff) % 256, 0, 0] } with
          | (d, some e) => (d, some e)
          | (d, none) =>
            match d.compareBuffers with
            | some e => (d, some e)
            | none => (d, none)) := rfl
    rw [h0, h1, h2, h3] at hw
    rw [hw]
    exact echoRule_of_shape _ _ _ _ (by decide)
      (write_shape t
        { d.clearBuffers with outputBuffer :=
          [0x18, 0x84, w % 256, w / 2 ^ 8 % 256, w / 2 ^ 16 % 256, w / 2 ^ 24 % 256, 0, 0] }
        inb h)
  · exact echoRule_of_shape _ _ _ _ (by decide)
      (read_shape t { d.clearBuffers with outputBuffer := [0x18, 0x82, 1, 1, 0, 0, 0, 0] } inb
        (fun d => (d.inputBuffer.getD 2 0 + (d.inputBuffer.getD 3 0 <<< 1) % 256) % 256) h)
  · exact echoRule_of_shape _ _ _ _ (by decide)
      (read_shape t { d.clearBuffers with outputBuffer := [0x18, 0x88, 0xff, 0, 0, 0, 0, 0] } inb
        (fun d => d.inputBuffer.getD 2 0) h)
  · exact echoRule_of_shape _ _ _ _ (by decide)
      (read_shape t
        { d.clearBuffers with outputBuffer := [0x18, 0x84, 0xff, 0xff, 0xff, 0xff, 0, 0] } inb
        (fun d => (d.inputBuffer.getD 2 0 + (d.inputBuffer.getD 3 0 <<< 8) % 2 ^ 32 +
          (d.inputBuffer.getD 4 0 <<< 16) % 2 ^ 32 +
          (d.inputBuffer.getD 5 0 <<< 24) % 2 ^ 32) % 2 ^ 32) h)

theorem echo_verification_witness :
    (TransfersSucceed (sim.constant [0x18, 0x48]) (sim.sessionOn ()).handle
        [0x18, 0x48, 0, 0, 0, 0, 0, 0]
        [0x18, 0x48, 0, 0, 0, 0, 0, 0] ∧
      TransfersSucceed (sim.constant [0x18, 0x48]) (sim.sessionOn ()).handle
        [0x18, 0x81, 1 % 256 &&& 1, 0, 0, 0, 0, 0]
        [0x18, 0x48, 0, 0, 0, 0, 0, 0] ∧
      TransfersSucceed (sim.constant [0x18, 0x48]) (sim.sessionOn ()).handle
        [0x18, 0x88, 0xf0 % 256, 0, 0, 0, 0, 0]
        [0x18, 0x48, 0, 0, 0, 0, 0, 0] ∧
      TransfersSucceed (sim.constant [0x18, 0x48]) (sim.sessionOn ()).handle
        [0x18, 0x84, 0x28 % 256, 0x28 / 2 ^ 8 % 256, 0x28 / 2 ^ 16 % 256, 0x28 / 2 ^ 24 % 256, 0, 0]
        [0x18, 0x48, 0, 0, 0, 0, 0, 0] ∧
      TransfersSucceed (sim.constant [0x18, 0x48]) (sim.sessionOn ()).handle
        [0x18, 0x82, 1, 1, 0, 0, 0, 0]
        [0x18, 0x48, 0, 0, 0, 0, 0, 0] ∧
      TransfersSucceed (sim.constant [0x18, 0x48]) (sim.sessionOn ()).handle
        [0x18, 0x88, 0xff, 0, 0, 0, 0, 0]
        [0x18, 0x48, 0, 0, 0, 0, 0, 0] ∧
      TransfersSucceed (sim.constant [0x18, 0x48]) (sim.sessionOn ()).handle
        [0x18, 0x84, 0xff, 0xff, 0xff, 0xff, 0, 0]
        [0x18, 0x48, 0, 0, 0, 0, 0, 0]) ∧
    (EchoRule ((sim.sessionOn ()).reset (sim.constant [0x18, 0x48])).2
        [0x18, 0x48, 0, 0, 0, 0, 0, 0]
        [0x18, 0x48, 0, 0, 0, 0, 0, 0] 8 ∧
      EchoRule ((sim.sessionOn ()).writeBit (sim.constant [0x18, 0x48]) 1).2
        [0x18, 0x81, 1 % 256 &&& 1, 0, 0, 0, 0, 0]
        [0x18, 0x48, 0, 0, 0, 0, 0, 0] 8 ∧
      EchoRule ((sim.sessionOn ()).writeByte (sim.constant [0x18, 0x48]) 0xf0).2
        [0x18, 0x88, 0xf0 % 256, 0, 0, 0, 0, 0]
        [0x18, 0x48, 0, 0, 0, 0, 0, 0] 8 ∧
      EchoRule ((sim.sessionOn ()).write4Byte (sim.constant [0x18, 0x48]) 0x28).2
        [0x18, 0x84, 0x28 % 256, 0x28 / 2 ^ 8 % 256, 0x28 / 2 ^ 16 % 256, 0x28 / 2 ^ 24 % 256, 0, 0]
        [0x18, 0x48, 0, 0, 0, 0, 0, 0] 8 ∧
      EchoRule ((sim.sessionOn ()).read2Bit (sim.constant [0x18, 0x48])).2.2
        [0x18, 0x82, 1, 1, 0, 0, 0, 0]
        [0x18, 0x48, 0, 0, 0, 0, 0, 0] 2 ∧
      EchoRule ((sim.sessionOn ()).readByte (sim.constant [0x18, 0x48])).2.2
        [0x18, 0x88, 0xff, 0, 0, 0, 0, 0]
        [0x18, 0x48, 0, 0, 0, 0, 0, 0] 2 ∧
      EchoRule ((sim.sessionOn ()).read4Byte (sim.constant [0x18, 0x48])).2.2
        [0x18, 0x84, 0xff, 0xff, 0xff, 0xff, 0, 0]
        [0x18, 0x48, 0, 0, 0, 0, 0, 0] 2) :=
  ⟨⟨⟨rfl, rfl, rfl⟩, ⟨rfl, rfl, rfl⟩, ⟨rfl, rfl, rfl⟩, ⟨rfl, rfl, rfl⟩, ⟨rfl, rfl, rfl⟩, ⟨rfl, rfl, rfl⟩, ⟨rfl, rfl, rfl⟩⟩,
    (echo_verification (sim.constant [0x18, 0x48]) (sim.sessionOn ()) 1 0xf0 0x28
      [0x18, 0x48, 0, 0, 0, 0, 0, 0]).1 ⟨rfl, rfl, rfl⟩,
    (echo_verification (sim.constant [0x18, 0x48]) (sim.sessionOn ()) 1 0xf0 0x28
      [0x18, 0x48, 0, 0, 0, 0, 0, 0]).2.1 ⟨rfl, rfl, rfl⟩,
    (echo_verification (sim.constant [0x18, 0x48]) (sim.sessionOn ()) 1 0xf0 0x28
      [0x18, 0x48, 0, 0, 0, 0, 0, 0]).2.2.1 ⟨rfl, rfl, rfl⟩,
    (echo_verification (sim.constant [0x18, 0x48]) (sim.sessionOn ()) 1 0xf0 0x28
      [0x18, 0x48, 0, 0, 0, 0, 0, 0]).2.2.2.1 ⟨rfl, rfl, rfl⟩,
    (echo_verification (sim.constant [0x18, 0x48]) (sim.sessionOn ()) 1 0xf0 0x28
      [0x18, 0x48, 0, 0, 0, 0, 0, 0]).2.2.2.2.1 ⟨rfl, rfl, rfl⟩,
    (echo_verification (sim.constant [0x18, 0x48]) (sim.sessionOn ()) 1 0xf0 0x28
      [0x18, 0x48, 0, 0, 0, 0, 0, 0]).2.2.2.2.2.1 ⟨rfl, rfl, rfl⟩,
    (echo_verification (sim.constant [0x18, 0x48]) (sim.sessionOn ()) 1 0xf0 0x28
      [0x18, 0x48, 0, 0, 0, 0, 0, 0]).2.2.2.2.2.2 ⟨rfl, rfl, rfl⟩⟩

end usb

/-! ## Theorems: temperature acquisition -/

namespace usb

theorem roundHalfEven_intCast (n : ℤ) : roundHalfEven (n : ℚ) = n := by
  unfold roundHalfEven
  simp

/-- A rational `z * 2 ^ j` with a significand below 2^24 and an exponent not below
-149 is a `float32` value: rounding leaves it unchanged. -/
theorem float32_exact (z j : ℤ) (hz : |z| < 2 ^ 24) (hj : -149 ≤ j) :
    float32 ((z : ℚ) * (2 : ℚ) ^ j) = (z : ℚ) * (2 : ℚ) ^ j := by
  by_cases hz0 : z = 0
  · subst hz0
    simp [float32, roundHalfEven]
  · have hq0 : (0 : ℚ) < |(z : ℚ) * (2 : ℚ) ^ j| := by
      apply abs_pos.2
      exact mul_ne_zero (by exact_mod_cast hz0) (zpow_ne_zero _ (by norm_num))
    have hlt : |(z : ℚ) * (2 : ℚ) ^ j| < (2 : ℚ) ^ (24 + j) := by
      rw [abs_mul, abs_of_pos (zpow_pos (by norm_num : (0 : ℚ) < 2) j), zpow_add₀ (by norm_num)]
      apply mul_lt_mul_of_pos_right _ (zpow_pos (by norm_num) j)
      have h24 : (2 : ℚ) ^ (24 : ℤ) = ((2 ^ 24 : ℤ) : ℚ) := by norm_num
      rw [h24]
      exact_mod_cast hz
    have hlog : Int.log 2 |(z : ℚ) * (2 : ℚ) ^ j| < 24 + j :=
      (Int.lt_zpow_iff_log_lt (by norm_num) hq0).1 (by exact_mod_cast hlt)
    have he : max (Int.log 2 |(z : ℚ) * (2 : ℚ) ^ j|) (-126) - 23 ≤ j := by
      have := max_le (show Int.log 2 |(z : ℚ) * (2 : ℚ) ^ j| ≤ 23 + j by omega)
        (show (-126 : ℤ) ≤ 23 + j by omega)
      omega
    unfold float32
    generalize max (Int.log 2 |(z : ℚ) * (2 : ℚ) ^ j|) (-126) - 23 = e at he
    have h2 : (2 : ℚ) ≠ 0 := by norm_num
    obtain ⟨m, hm⟩ := Int.eq_ofNat_of_zero_le (show 0 ≤ j - e by omega)
    have hdiv : (z : ℚ) * (2 : ℚ) ^ j / (2 : ℚ) ^ e = ((z * 2 ^ m : ℤ) : ℚ) := by
      rw [mul_div_assoc, ← zpow_sub₀ h2, hm, zpow_natCast]
      push_cast
      rfl
    rw [hdiv, roundHalfEven_intCast, ← hdiv]
    exact div_mul_cancel₀ _ (zpow_ne_zero _ h2)

theorem toInt16_abs_lt (x : Nat) : |toInt16 x| < 2 ^ 24 := by
  unfold toInt16
  split <;> rw [abs_lt] <;> constructor <;> omega

theorem float32_toInt16 (x : Nat) : float32 (toInt16 x : ℚ) = (toInt16 x : ℚ) := by
  simpa using float32_exact (toInt16 x) 0 (toInt16_abs_lt x) (by decide)

theorem float32_toInt16_sixteenth (x : Nat) :
    float32 ((toInt16 x : ℚ) * 0.0625) = (toInt16 x : ℚ) / 16 := by
  have h := float32_exact (toInt16 x) (-4) (toInt16_abs_lt x) (by decide)
  have e : (2 : ℚ) ^ (-4 : ℤ) = 0.0625 := by norm_num
  rw [e] at h
  rw [h]; norm_num; ring

theorem float32_toInt16_half (x : Nat) :
    float32 ((toInt16 x : ℚ) * 0.5) = (toInt16 x : ℚ) / 2 := by
  have h := float32_exact (toInt16 x) (-1) (toInt16_abs_lt x) (by decide)
  have e : (2 : ℚ) ^ (-1 : ℤ) = 0.5 := by norm_num
  rw [e] at h
  rw [h]; norm_num; ring

theorem getFamilyByRom_eq (rom : Nat) : onewire.GetFamilyByRom rom = rom % 256 := by
  unfold onewire.GetFamilyByRom
  rw [show rom &&& 0xff = rom % 256 from Nat.and_pow_two_sub_one_eq_mod rom 8, Nat.mod_mod]

theorem scratchpad_raw (l1 l2 l3 : Nat) :
    l1 &&& 0xffff = (GetTemperature.scratchpad l1 l2 l3).getD 0 0 +
      256 * (GetTemperature.scratchpad l1 l2 l3).getD 1 0 := by
  have h0 : (GetTemperature.scratchpad l1 l2 l3).getD 0 0 = ((l1 >>> (0 * 8)) &&& 0xff) % 256 :=
    rfl
  have h1 : (GetTemperature.scratchpad l1 l2 l3).getD 1 0 = ((l1 >>> (1 * 8)) &&& 0xff) % 256 :=
    rfl
  have hb : ∀ x : Nat, x &&& 0xff = x % 256 := fun x => Nat.and_pow_two_sub_one_eq_mod x 8
  rw [h0, h1, hb, hb, show l1 &&& 0xffff = l1 % 65536 from Nat.and_pow_two_sub_one_eq_mod l1 16]
  simp only [Nat.shiftRight_eq_div_pow, Nat.mod_mod]
  omega

theorem scratchpad_byte_lt (l1 l2 l3 : Nat) :
    (GetTemperature.scratchpad l1 l2 l3).getD 0 0 < 256 ∧
    (GetTemperature.scratchpad l1 l2 l3).getD 1 0 < 256 := by
  have h0 : (GetTemperature.scratchpad l1 l2 l3).getD 0 0 = ((l1 >>> (0 * 8)) &&& 0xff) % 256 :=
    rfl
  have h1 : (GetTemperature.scratchpad l1 l2 l3).getD 1 0 = ((l1 >>> (1 * 8)) &&& 0xff) % 256 :=
    rfl
  rw [h0, h1]
  exact ⟨Nat.mod_lt _ (by decide), Nat.mod_lt _ (by decide)⟩

/-- The conversion `int16(x)` of a value below 2^16 is `x` below 2^15 and `x - 2^16`
from 2^15 on. -/
theorem toInt16_two_complement (x : Nat) (hx : x < 65536) (k : ℤ)
    (hpos : x < 32768 → k = (x : ℤ)) (hneg : 32768 ≤ x → k = (x : ℤ) - 65536) :
    toInt16 x = k := by
  unfold toInt16
  have hm : x % 2 ^ 16 = x := Nat.mod_eq_of_lt hx
  rw [hm]
  by_cases h : x < 32768
  · rw [if_pos (by omega), hpos h]
  · rw [if_neg (by omega), hneg (by omega)]
    norm_num

/-- C7: in every pass of the loop of `GetTemperature` in which all exchanges succeed
and the nine scratchpad bytes fold to CRC 0, the method returns at once with a nil
error and the temperature `k/16` for the family bytes 0x28 and 0x22, `k/2` for 0x10
and 1000 for every other family byte. Here `k` is the signed two's-complement 16-bit
integer with low byte scratchpad byte 0 and high byte scratchpad byte 1: with
`raw = byte0 + 256 * byte1`, `k = raw` when `raw < 32768` and `k = raw - 65536`
otherwise. The `float32` products are exact. Raw 0x0191 gives 25.0625 for 0x28, 200.5
for 0x10 and 1000 for 0x3b; raw 0xff5e (k = -162) gives -10.125 for 0x28 and -81 for
0x10; raw 0xfc90 (k = -880) gives -55 for 0x22. -/
theorem getTemperature_conversion {σ : Type} (t : Transport σ) (d : Device σ)
    (rom l1 l2 l3 n : Nat)
    (hx : (GetTemperature.exchange t d rom).2 = some (l1, l2, l3))
    (hcrc : onewire.foldCrc8 (GetTemperature.scratchpad l1 l2 l3) = 0) :
    GetTemperature.loop t rom (n + 1) d =
      ((GetTemperature.exchange t d rom).1, GetTemperature.convert rom l1, none) ∧
    (∀ k : ℤ,
      ((GetTemperature.scratchpad l1 l2 l3).getD 0 0 +
          256 * (GetTemperature.scratchpad l1 l2 l3).getD 1 0 < 32768 →
        k = (((GetTemperature.scratchpad l1 l2 l3).getD 0 0 +
          256 * (GetTemperature.scratchpad l1 l2 l3).getD 1 0 : ℕ) : ℤ)) →
      (32768 ≤ (GetTemperature.scratchpad l1 l2 l3).getD 0 0 +
          256 * (GetTemperature.scratchpad l1 l2 l3).getD 1 0 →
        k = (((GetTemperature.scratchpad l1 l2 l3).getD 0 0 +
          256 * (GetTemperature.scratchpad l1 l2 l3).getD 1 0 : ℕ) : ℤ) - 65536) →
      (rom % 256 = 0x28 ∨ rom % 256 = 0x22 → GetTemperature.convert rom l1 = (k : ℚ) / 16) ∧
      (rom % 256 = 0x10 → GetTemperature.convert rom l1 = (k : ℚ) / 2)) ∧
    (rom % 256 ≠ 0x28 ∧ rom % 256 ≠ 0x22 ∧ rom % 256 ≠ 0x10 →
      GetTemperature.convert rom l1 = 1000) ∧
    GetTemperature.convert 0x28 0x0191 = 25.0625 ∧
    GetTemperature.convert 0x10 0x0191 = 200.5 ∧
    GetTemperature.convert 0x3b 0x0191 = 1000 ∧
    GetTemperature.convert 0x28 0xff5e = -10.125 ∧
    GetTemperature.convert 0x10 0xff5e = -81 ∧
    GetTemperature.convert 0x22 0xfc90 = -55 := by
  have hconv : ∀ r x : Nat,
      (r % 256 = 0x28 ∨ r % 256 = 0x22 →
        GetTemperature.convert r x = (toInt16 (x &&& 0xffff) : ℚ) / 16) ∧
      (r % 256 = 0x10 → GetTemperature.convert r x = (toInt16 (x &&& 0xffff) : ℚ) / 2) ∧
      (r % 256 ≠ 0x28 ∧ r % 256 ≠ 0x22 ∧ r % 256 ≠ 0x10 →
        GetTemperature.convert r x = 1000) := by
    intro r x
    unfold GetTemperature.convert
    simp only [getFamilyByRom_eq, onewire.FamilyDS18B20, onewire.FamilyDS1822,
      onewire.FamilyDS18S20, float32_toInt16]
    refine ⟨fun h => ?_, fun h => ?_, fun h => ?_⟩
    · rcases h with h | h
      · rw [if_pos h]; exact float32_toInt16_sixteenth _
      · rw [if_neg (by omega), if_pos h]; exact float32_toInt16_sixteenth _
    · rw [if_neg (by omega), if_neg (by omega), if_pos h]; exact float32_toInt16_half _
    · rw [if_neg h.1, if_neg h.2.1, if_neg h.2.2]
  have h401 : toInt16 (0x0191 &&& 0xffff) = 401 :=
    toInt16_two_complement _ (by decide) 401 (by decide) (by decide)
  have hm162 : toInt16 (0xff5e &&& 0xffff) = -162 :=
    toInt16_two_complement _ (by decide) (-162) (by decide) (by decide)
  have hm880 : toInt16 (0xfc90 &&& 0xffff) = -880 :=
    toInt16_two_complement _ (by decide) (-880) (by decide) (by decide)
  refine ⟨?_, ?_, (hconv rom l1).2.2, ?_, ?_, ?_, ?_, ?_, ?_⟩
  · cases hex : GetTemperature.exchange t d rom with
    | mk d1 r =>
      rw [hex] at hx
      simp only at hx
      subst hx
      simp only [GetTemperature.loop, hex, hcrc, onewire.CheckCrc8]
      rfl
  · intro k hpos hneg
    obtain ⟨hb0, hb1⟩ := scratchpad_byte_lt l1 l2 l3
    have hk : toInt16 (l1 &&& 0xffff) = k := by
      rw [scratchpad_raw l1 l2 l3]
      exact toInt16_two_complement _ (by omega) k hpos hneg
    rw [← hk]
    exact ⟨(hconv rom l1).1, (hconv rom l1).2.1⟩
  · rw [(hconv 0x28 0x0191).1 (by decide), h401]; norm_num
  · rw [(hconv 0x10 0x0191).2.1 (by decide), h401]; norm_num
  · exact (hconv 0x3b 0x0191).2.2 (by decide)
  · rw [(hconv 0x28 0xff5e).1 (by decide), hm162]; norm_num
  · rw [(hconv 0x10 0xff5e).2.1 (by decide), hm162]; norm_num
  · rw [(hconv 0x22 0xfc90).1 (by decide), hm880]; norm_num

set_option maxRecDepth 100000 in
theorem getTemperature_conversion_witness :
    ((GetTemperature.exchange sim.thermometer
        (sim.sensorSession [0x5e, 0xff, 0x4b, 0x46, 0x7f, 0xff, 0x02, 0x10, 0xb6])
        0x1e00000000000028).2 = some (0x464bff5e, 0x1002ff7f, 0xb6) ∧
      onewire.foldCrc8 (GetTemperature.scratchpad 0x464bff5e 0x1002ff7f 0xb6) = 0) ∧
    GetTemperature.loop sim.thermometer 0x1e00000000000028 (2 + 1)
        (sim.sensorSession [0x5e, 0xff, 0x4b, 0x46, 0x7f, 0xff, 0x02, 0x10, 0xb6]) =
      ((GetTemperature.exchange sim.thermometer
          (sim.sensorSession [0x5e, 0xff, 0x4b, 0x46, 0x7f, 0xff, 0x02, 0x10, 0xb6])
          0x1e00000000000028).1,
        GetTemperature.convert 0x1e00000000000028 0x464bff5e, none) ∧
    GetTemperature.convert 0x1e00000000000028 0x464bff5e = ((-162 : ℤ) : ℚ) / 16 :=
  ⟨⟨by decide, by decide⟩,
    (getTemperature_conversion sim.thermometer
      (sim.sensorSession [0x5e, 0xff, 0x4b, 0x46, 0x7f, 0xff, 0x02, 0x10, 0xb6])
      0x1e00000000000028 0x464bff5e 0x1002ff7f 0xb6 2 (by decide) (by decide)).1,
    ((getTemperature_conversion sim.thermometer
      (sim.sensorSession [0x5e, 0xff, 0x4b, 0x46, 0x7f, 0xff, 0x02, 0x10, 0xb6])
      0x1e00000000000028 0x464bff5e 0x1002ff7f 0xb6 2 (by decide) (by decide)).2.1 (-162)
        (by decide) (by decide)).1 (Or.inl (by decide))⟩

end usb

namespace usb

theorem usbWriteReadCtl_sent {σ : Type} (t : Transport σ) (d : Device σ) :
    (d.usbWriteReadCtl t).1.sent = d.sent ++ [d.outputBuffer] := by
  unfold Device.usbWriteReadCtl Device.usbWriteCtl Device.usbReadCtl
  rcases hout : t.controlOut d.handle d.outputBuffer with ⟨s, written⟩
  rcases hin : t.controlIn s with ⟨s2, data, read⟩
  by_cases hw : written = (CmdSize : Int)
  · by_cases hr : read = (CmdSize : Int)
    · simp [hw, hr, hin]
    · simp [hw, hr, hin]
  · simp [hw]

theorem write_shape_sent {σ : Type} (t : Transport σ) (d : Device σ) :
    (match d.usbWriteReadCtl t with
      | (d, some e) => (d, some e)
      | (d, none) =>
        match d.compareBuffers with
        | some e => (d, some e)
        | none => (d, none)).1.sent = d.sent ++ [d.outputBuffer] := by
  rw [← usbWriteReadCtl_sent t d]
  rcases d.usbWriteReadCtl t with ⟨d1, _ | e⟩
  · simp only
    cases d1.compareBuffers <;> rfl
  · rfl

theorem read_shape_sent {σ : Type} (t : Transport σ) (d : Device σ) (f : Device σ → Nat) :
    (match d.usbWriteReadCtl t with
      | (d, some e) => (d, 0, some e)
      | (d, none) =>
        match d.compareBuffersWithDepth 2 with
        | some e => (d, f d, some e)
        | none => (d, f d, none)).1.sent = d.sent ++ [d.outputBuffer] := by
  rw [← usbWriteReadCtl_sent t d]
  rcases d.usbWriteReadCtl t with ⟨d1, _ | e⟩
  · simp only
    cases d1.compareBuffersWithDepth 2 <;> rfl
  · rfl

theorem reset_sent {σ : Type} (t : Transport σ) (d : Device σ) :
    (d.reset t).1.sent = d.sent ++ [[0x18, 0x48, 0, 0, 0, 0, 0, 0]] :=
  write_shape_sent t { d.clearBuffers with outputBuffer := [0x18, 0x48, 0, 0, 0, 0, 0, 0] }

theorem writeByte_sent {σ : Type} (t : Transport σ) (d : Device σ) (b : Nat) :
    (d.writeByte t b).1.sent = d.sent ++ [[0x18, 0x88, b % 256, 0, 0, 0, 0, 0]] :=
  write_shape_sent t { d.clearBuffers with outputBuffer := [0x18, 0x88, b % 256, 0, 0, 0, 0, 0] }

theorem write4Byte_sent {σ : Type} (t : Transport σ) (d : Device σ) (w : Nat) :
    ∃ w0 w1 w2 w3, (d.write4Byte t w).1.sent = d.sent ++ [[0x18, 0x84, w0, w1, w2, w3, 0, 0]] :=
  ⟨_, _, _, _, write_shape_sent t
    { d.clearBuffers with outputBuffer :=
      [0x18, 0x84, ((w % 2 ^ 32) &&& 0xff) % 256, (((w % 2 ^ 32) >>> 8) &&& 0xff) % 256,
        (((w % 2 ^ 32) >>> 16) &&& 0xff) % 256, (((w % 2 ^ 32) >>> 24) &&& 0xff) % 256, 0, 0] }⟩

theorem readByte_sent {σ : Type} (t : Transport σ) (d : Device σ) :
    (d.readByte t).1.sent = d.sent ++ [[0x18, 0x88, 0xff, 0, 0, 0, 0, 0]] :=
  read_shape_sent t { d.clearBuffers with outputBuffer := [0x18, 0x88, 0xff, 0, 0, 0, 0, 0] }
    (fun d => d.inputBuffer.getD 2 0)

theorem read4Byte_sent {σ : Type} (t : Transport σ) (d : Device σ) :
    (d.read4Byte t).1.sent = d.sent ++ [[0x18, 0x84, 0xff, 0xff, 0xff, 0xff, 0, 0]] :=
  read_shape_sent t
    { d.clearBuffers with outputBuffer := [0x18, 0x84, 0xff, 0xff, 0xff, 0xff, 0, 0] }
    (fun d => (d.inputBuffer.getD 2 0 + (d.inputBuffer.getD 3 0 <<< 8) % 2 ^ 32 +
      (d.inputBuffer.getD 4 0 <<< 16) % 2 ^ 32 + (d.inputBuffer.getD 5 0 <<< 24) % 2 ^ 32) % 2 ^ 32)

theorem count_append_other (l : List (List Nat)) (f : List Nat) (h : f ≠ readScratchpadFrame) :
    (l ++ [f]).count readScratchpadFrame = l.count readScratchpadFrame := by
  rw [List.count_append, List.count_singleton]
  simp [h]

theorem reset_count {σ : Type} (t : Transport σ) (d : Device σ) :
    (d.reset t).1.readScratchpadCount = d.readScratchpadCount := by
  unfold Device.readScratchpadCount
  rw [reset_sent]
  exact count_append_other _ _ (by decide)

theorem writeByte_count {σ : Type} (t : Transport σ) (d : Device σ) (b : Nat) :
    (d.writeByte t b).1.readScratchpadCount =
      d.readScratchpadCount + if b % 256 = 0xbe then 1 else 0 := by
  unfold Device.readScratchpadCount
  rw [writeByte_sent, List.count_append, List.count_singleton]
  by_cases h : b % 256 = 0xbe
  · simp [h, readScratchpadFrame, CMD_MAGIC, CMD_RW_BYTE, onewire.ReadScratchpad]
  · simp [h, readScratchpadFrame, CMD_MAGIC, CMD_RW_BYTE, onewire.ReadScratchpad]

theorem write4Byte_count {σ : Type} (t : Transport σ) (d : Device σ) (w : Nat) :
    (d.write4Byte t w).1.readScratchpadCount = d.readScratchpadCount := by
  unfold Device.readScratchpadCount
  obtain ⟨w0, w1, w2, w3, h⟩ := write4Byte_sent t d w
  rw [h]
  exact count_append_other _ _
    (by simp [readScratchpadFrame, CMD_MAGIC, CMD_RW_BYTE, onewire.ReadScratchpad])

theorem readByte_count {σ : Type} (t : Transport σ) (d : Device σ) :
    (d.readByte t).1.readScratchpadCount = d.readScratchpadCount := by
  unfold Device.readScratchpadCount
  rw [readByte_sent]
  exact count_append_other _ _ (by decide)

theorem read4Byte_count {σ : Type} (t : Transport σ) (d : Device σ) :
    (d.read4Byte t).1.readScratchpadCount = d.readScratchpadCount := by
  unfold Device.readScratchpadCount
  rw [read4Byte_sent]
  exact count_append_other _ _ (by decide)

theorem skipRomConvert_count {σ : Type} (t : Transport σ) (d : Device σ) :
    (d.skipRomConvert t).1.readScratchpadCount = d.readScratchpadCount := by
  unfold Device.skipRomConvert
  have h1 := reset_count t d
  rcases hr1 : d.reset t with ⟨d1, _ | e1⟩
  · have h2 := writeByte_count t d1 onewire.SkipRom
    rcases hr2 : d1.writeByte t onewire.SkipRom with ⟨d2, _ | e2⟩
    · have h3 := writeByte_count t d2 onewire.ConvertT
      rcases hr3 : d2.writeByte t onewire.ConvertT with ⟨d3, _ | e3⟩ <;>
        simp_all [onewire.SkipRom, onewire.ConvertT]
    · simp_all [onewire.SkipRom]
  · simp_all

theorem matchRom_count {σ : Type} (t : Transport σ) (d : Device σ) (rom : Nat) :
    (d.matchRom t rom).1.readScratchpadCount = d.readScratchpadCount := by
  unfold Device.matchRom
  have h1 := reset_count t d
  rcases hr4 : d.reset t with ⟨d1, _ | e1⟩
  · have h2 := writeByte_count t d1 onewire.MatchRom
    rcases hr5 : d1.writeByte t onewire.MatchRom with ⟨d2, _ | e2⟩
    · have h3 := write4Byte_count t d2 ((rom &&& 0xFFFFFFFF) % 2 ^ 32)
      rcases hr6 : d2.write4Byte t ((rom &&& 0xFFFFFFFF) % 2 ^ 32) with ⟨d3, _ | e3⟩
      · have h4 := write4Byte_count t d3 (((rom >>> 32) &&& 0xFFFFFFFF) % 2 ^ 32)
        rcases hr7 : d3.write4Byte t (((rom >>> 32) &&& 0xFFFFFFFF) % 2 ^ 32) with ⟨d4, _ | e4⟩ <;>
          simp_all [onewire.MatchRom]
      · simp_all [onewire.MatchRom]
    · simp_all [onewire.MatchRom]
  · simp_all

/-- One pass of the exchanges issues at most one Read-Scratchpad command, and
exactly one when it completes. -/
theorem exchange_count {σ : Type} (t : Transport σ) (d : Device σ) (rom : Nat) :
    (GetTemperature.exchange t d rom).1.readScratchpadCount ≤ d.readScratchpadCount + 1 ∧
    ((GetTemperature.exchange t d rom).2 ≠ none →
      (GetTemperature.exchange t d rom).1.readScratchpadCount = d.readScratchpadCount + 1) := by
  unfold GetTemperature.exchange
  have h1 := skipRomConvert_count t d
  rcases hr8 : d.skipRomConvert t with ⟨d1, _ | e1⟩
  · have h2 := matchRom_count t d1 rom
    rcases hr9 : d1.matchRom t rom with ⟨d2, _ | e2⟩
    · have h3 := writeByte_count t d2 onewire.ReadScratchpad
      rcases hr10 : d2.writeByte t onewire.ReadScratchpad with ⟨d3, _ | e3⟩
      · have h4 := read4Byte_count t d3
        rcases hr11 : d3.read4Byte t with ⟨d4, l1, _ | e4⟩
        · have h5 := read4Byte_count t d4
          rcases hr12 : d4.read4Byte t with ⟨d5, l2, _ | e5⟩
          · have h6 := readByte_count t d5
            rcases hr13 : d5.readByte t with ⟨d6, l3, _ | e6⟩ <;>
              simp_all [onewire.ReadScratchpad]
          · simp_all [onewire.ReadScratchpad]
        · simp_all [onewire.ReadScratchpad]
      · simp_all [onewire.ReadScratchpad]
    · simp_all
  · simp_all

theorem loop_count_le {σ : Type} (t : Transport σ) (rom k : Nat) (d : Device σ) :
    (GetTemperature.loop t rom k d).1.readScratchpadCount ≤ d.readScratchpadCount + k := by
  induction k generalizing d with
  | zero => simp [GetTemperature.loop]
  | succ k ih =>
    have hx := (exchange_count t d rom).1
    unfold GetTemperature.loop
    rcases hex : GetTemperature.exchange t d rom with ⟨d1, _ | ⟨l1, l2, l3⟩⟩
    · rw [hex] at hx
      have := ih d1
      simp only at hx ⊢
      omega
    · rw [hex] at hx
      simp only at hx ⊢
      cases onewire.CheckCrc8 (onewire.foldCrc8 (GetTemperature.scratchpad l1 l2 l3)) with
      | none => simp only; omega
      | some e =>
        have := ih d1
        simp only
        omega

theorem loop_allBadCrc {σ : Type} (t : Transport σ) (rom k : Nat) (d : Device σ)
    (h : GetTemperature.allBadCrc t rom k d = true) :
    (GetTemperature.loop t rom k d).2 = (0, some Error.InputOutputError) ∧
    (GetTemperature.loop t rom k d).1.readScratchpadCount = d.readScratchpadCount + k := by
  induction k generalizing d with
  | zero => simp [GetTemperature.loop]
  | succ k ih =>
    have hx := (exchange_count t d rom).2
    unfold GetTemperature.allBadCrc at h
    unfold GetTemperature.loop
    rcases hex : GetTemperature.exchange t d rom with ⟨d1, _ | ⟨l1, l2, l3⟩⟩
    · rw [hex] at h
      simp at h
    · rw [hex] at h hx
      simp only [Bool.and_eq_true, bne_iff_ne, ne_eq] at h
      have hc := hx (by simp)
      simp only at hc ⊢
      have hcrc : onewire.CheckCrc8 (onewire.foldCrc8 (GetTemperature.scratchpad l1 l2 l3)) =
          some Error.CrcMismatchError := if_pos h.1
      rw [hcrc]
      simp only
      obtain ⟨h1, h2⟩ := ih d1 h.2
      exact ⟨h1, by omega⟩

end usb

/-! ## Theorems: the search at concrete buses -/

namespace usb

set_option maxRecDepth 100000 in
/-- C4: the code on a faithful bus carrying the two distinct, non-zero, CRC8-valid
addresses 0x1e00000000000028 and 0x3d00000000000001, which differ at bit 0:
`GetSensors` returns the first address only, with a nil error, so the second
device of the bus is missing from the result. -/
theorem getSensors_misses_odd_address :
    (sim.crcValid 0x1e00000000000028 = true ∧ sim.crcValid 0x3d00000000000001 = true) ∧
    (((sim.session [0x1e00000000000028, 0x3d00000000000001]).GetSensors sim.faithful).map
      fun r => r.2) = some ([0x1e00000000000028], none) ∧
    (((sim.session [0x3d00000000000001, 0x1e00000000000028]).GetSensors sim.faithful).map
      fun r => r.2) = some ([0x1e00000000000028], none) := by
  refine ⟨by decide, ?_, ?_⟩ <;> decide

end usb

namespace usb

set_option maxRecDepth 100000 in
/-- C6: the code at four inputs on which no attempt establishes a valid address:
every transfer fails (so every reset fails), an empty bus (pattern 3 is read), a bus
whose only device has address zero, and a bus whose only device has an address that
fails the CRC8 check. In each case `GetSensors` returns no address and a nil
error. -/
theorem getSensors_nil_error_without_address :
    (((sim.sessionOn ()).GetSensors sim.dead).map fun r => r.2) = some ([], none) ∧
    (((sim.session []).GetSensors sim.faithful).map fun r => r.2) = some ([], none) ∧
    (((sim.session [0]).GetSensors sim.faithful).map fun r => r.2) = some ([], none) ∧
    (((sim.session [0x28]).GetSensors sim.faithful).map fun r => r.2) = some ([], none) := by
  refine ⟨?_, ?_, ?_, ?_⟩ <;> decide

end usb

/-! ## Theorems: the search on the faithful bus -/

namespace sim
open usb

theorem reset_faithful (d : Device Bus) :
    ∃ d1, d.reset faithful = (d1, none) ∧ d1.handle.devices = d.handle.devices ∧
      d1.handle.selected = d.handle.devices ∧ d1.handle.pos = 0 :=
  ⟨_, rfl, rfl, rfl, rfl⟩

theorem writeByte_searchRom_faithful (d : Device Bus) :
    ∃ d1, d.writeByte faithful onewire.SearchRom = (d1, none) ∧
      d1.handle.devices = d.handle.devices ∧
      d1.handle.selected = d.handle.selected ∧ d1.handle.pos = d.handle.pos :=
  ⟨_, rfl, rfl, rfl, rfl⟩

theorem read2Bit_faithful (d : Device Bus) :
    ∃ d1, d.read2Bit faithful =
        (d1, wiredAnd d.handle.selected d.handle.pos +
          2 * wiredAndCompl d.handle.selected d.handle.pos, none) ∧
      d1.handle.devices = d.handle.devices ∧
      d1.handle.selected = d.handle.selected ∧ d1.handle.pos = d.handle.pos := by
  have h1 : wiredAnd d.handle.selected d.handle.pos = 0 ∨
      wiredAnd d.handle.selected d.handle.pos = 1 := by
    unfold wiredAnd; split <;> simp
  have h2 : wiredAndCompl d.handle.selected d.handle.pos = 0 ∨
      wiredAndCompl d.handle.selected d.handle.pos = 1 := by
    unfold wiredAndCompl; split <;> simp
  have h : ∃ d1, d.read2Bit faithful =
        (d1, (wiredAnd d.handle.selected d.handle.pos % 256 +
          ((wiredAndCompl d.handle.selected d.handle.pos % 256) <<< 1) % 256) % 256, none) ∧
      d1.handle.devices = d.handle.devices ∧
      d1.handle.selected = d.handle.selected ∧ d1.handle.pos = d.handle.pos :=
    ⟨_, rfl, rfl, rfl, rfl⟩
  obtain ⟨d1, hd, hrest⟩ := h
  refine ⟨d1, ?_, hrest⟩
  rw [hd]
  rcases h1 with h1 | h1 <;> rcases h2 with h2 | h2 <;> rw [h1, h2] <;> rfl

theorem writeBit_faithful (d : Device Bus) (x : Nat) (hx : x = 0 ∨ x = 1) :
    ∃ d1, d.writeBit faithful x = (d1, none) ∧ d1.handle.devices = d.handle.devices ∧
      d1.handle.selected =
        d.handle.selected.filter (fun a => addrBit a d.handle.pos == x) ∧
      d1.handle.pos = d.handle.pos + 1 := by
  rcases hx with hx | hx <;> subst hx <;> exact ⟨_, rfl, rfl, rfl, rfl⟩

end sim

namespace sim
open usb

theorem addrBit_cases (a i : Nat) : addrBit a i = 0 ∨ addrBit a i = 1 := by
  unfold addrBit; split <;> simp

theorem shift_and_one_eq_addrBit (rn i : Nat) : ((rn >>> i) &&& 1) % 256 = addrBit rn i := by
  unfold addrBit Nat.testBit
  rw [Nat.and_comm 1, Nat.and_one_is_mod]
  rcases Nat.mod_two_eq_zero_or_one (rn >>> i) with h | h <;> rw [h] <;> rfl

theorem rom_add_bit (rom i : Nat) (hi : i < 64) (hrom : rom < 2 ^ i) :
    (rom + (1 <<< i) % 2 ^ 64) % 2 ^ 64 = rom + 1 * 2 ^ i := by
  have h1 : (2 : Nat) ^ i < 2 ^ 64 := Nat.pow_lt_pow_right (by decide) hi
  have h2 : (2 : Nat) ^ (i + 1) ≤ 2 ^ 64 := Nat.pow_le_pow_right (by decide) (by omega)
  rw [Nat.one_shiftLeft, Nat.mod_eq_of_lt h1, Nat.mod_eq_of_lt (by rw [pow_succ] at h2; omega)]
  omega

theorem bitStep_faithful_spec (rn pl i : Nat) (d : Device Bus) (v : SearchVars)
    (hok : v.ok = true) (hi : i < 64) (hpl : pl < 2 ^ 32) (hrom : v.rom < 2 ^ i)
    (hpos : d.handle.pos = i) (hne : ∃ a, a ∈ d.handle.selected) :
    ∃ d2 v2 c, ∃ newColl : Bool,
      searchRom.bitStep faithful rn pl (d, v) i = (d2, v2) ∧
      d2.handle.devices = d.handle.devices ∧
      d2.handle.selected = d.handle.selected.filter (fun a => addrBit a i == c) ∧
      d2.handle.pos = i + 1 ∧
      v2.ok = true ∧ v2.err = none ∧ v2.rom = v.rom + c * 2 ^ i ∧
      v2.cl = (if newColl then v.cl.set i true else v.cl) ∧
      v2.rl = (if newColl then v.rl.set i v.rom else v.rl) ∧
      (c = 0 ∨ c = 1) ∧
      (∃ a, a ∈ d.handle.selected ∧ addrBit a i = c) ∧
      (newColl = true → pl < i ∧ c = 0 ∧ ∃ a, a ∈ d.handle.selected ∧ addrBit a i = 1) ∧
      (newColl = false → pl < i → ∀ a, a ∈ d.handle.selected → addrBit a i = c) ∧
      (newColl = false → i ≤ pl →
        (∀ a, a ∈ d.handle.selected → addrBit a i = c) ∨ c = addrBit rn i) := by
  obtain ⟨d1, hr, hd1, hs1, hp1⟩ := read2Bit_faithful d
  rw [hpos] at hr hp1
  have hi32 : i % 2 ^ 32 = i := Nat.mod_eq_of_lt (by omega)
  have hpl32 : pl % 2 ^ 32 = pl := Nat.mod_eq_of_lt hpl
  by_cases h1 : d.handle.selected.all (fun a => addrBit a i == 1) = true
  · by_cases h0 : d.handle.selected.all (fun a => addrBit a i == 0) = true
    · exfalso
      obtain ⟨a, ha⟩ := hne
      have e1 := List.all_eq_true.1 h1 a ha
      have e0 := List.all_eq_true.1 h0 a ha
      simp only [beq_iff_eq] at e1 e0
      omega
    · -- pattern 1
      have hpat : wiredAnd d.handle.selected i + 2 * wiredAndCompl d.handle.selected i = 1 := by
        simp [wiredAnd, wiredAndCompl, h1, h0]
      rw [hpat] at hr
      obtain ⟨d2, hw, hd2, hs2, hp2⟩ := writeBit_faithful d1 1 (Or.inr rfl)
      rw [hp1] at hs2 hp2
      refine ⟨d2, { v with bit := 1, err := none, rom := v.rom + 1 * 2 ^ i }, 1, false, ?_,
        by rw [hd2, hd1], by rw [hs2, hs1], hp2, hok, rfl, rfl, rfl, rfl, Or.inr rfl, ?_,
        fun h => by simp at h, fun _ _ a ha => ?_, fun _ _ => Or.inl fun a ha => ?_⟩
      · unfold searchRom.bitStep
        simp only [hok, if_true, hr]
        rw [hw, rom_add_bit v.rom i hi hrom]
      · obtain ⟨a, ha⟩ := hne
        exact ⟨a, ha, by simpa using List.all_eq_true.1 h1 a ha⟩
      · simpa using List.all_eq_true.1 h1 a ha
      · simpa using List.all_eq_true.1 h1 a ha
  · have hex0 : ∃ a, a ∈ d.handle.selected ∧ addrBit a i = 0 := by
      by_contra hcon
      apply h1
      apply List.all_eq_true.2
      intro a ha
      rcases addrBit_cases a i with e | e
      · exact absurd ⟨a, ha, e⟩ hcon
      · simpa using e
    by_cases h0 : d.handle.selected.all (fun a => addrBit a i == 0) = true
    · -- pattern 2
      have hpat : wiredAnd d.handle.selected i + 2 * wiredAndCompl d.handle.selected i = 2 := by
        simp [wiredAnd, wiredAndCompl, h1, h0]
      rw [hpat] at hr
      obtain ⟨d2, hw, hd2, hs2, hp2⟩ := writeBit_faithful d1 0 (Or.inl rfl)
      rw [hp1] at hs2 hp2
      refine ⟨d2, { v with bit := 2, err := none }, 0, false, ?_,
        by rw [hd2, hd1], by rw [hs2, hs1], hp2, hok, rfl, by simp, rfl, rfl, Or.inl rfl, hex0,
        fun h => by simp at h, fun _ _ a ha => ?_, fun _ _ => Or.inl fun a ha => ?_⟩
      · unfold searchRom.bitStep
        simp only [hok, if_true, hr]
        rw [hw]
      · simpa using List.all_eq_true.1 h0 a ha
      · simpa using List.all_eq_true.1 h0 a ha
    · -- pattern 0: collision
      have hex1 : ∃ a, a ∈ d.handle.selected ∧ addrBit a i = 1 := by
        by_contra hcon
        apply h0
        apply List.all_eq_true.2
        intro a ha
        rcases addrBit_cases a i with e | e
        · simpa using e
        · exact absurd ⟨a, ha, e⟩ hcon
      have hpat : wiredAnd d.handle.selected i + 2 * wiredAndCompl d.handle.selected i = 0 := by
        simp [wiredAnd, wiredAndCompl, h1, h0]
      rw [hpat] at hr
      by_cases hlt : pl < i
      · obtain ⟨d2, hw, hd2, hs2, hp2⟩ := writeBit_faithful d1 0 (Or.inl rfl)
        rw [hp1] at hs2 hp2
        refine ⟨d2, ⟨v.ok, v.cl.set i true, v.rl.set i v.rom, 0, v.rom, none⟩, 0, true, ?_,
          by rw [hd2, hd1], by rw [hs2, hs1], hp2, hok, rfl, by simp, rfl, rfl, Or.inl rfl,
          hex0, fun _ => ⟨hlt, rfl, hex1⟩, fun h => by simp at h, fun h => by simp at h⟩
        unfold searchRom.bitStep
        simp only [hok, if_true, hr, hi32, hpl32, hlt]
        rw [hw]
        rfl
      · have hxc := addrBit_cases rn i
        obtain ⟨d2, hw, hd2, hs2, hp2⟩ := writeBit_faithful d1 (addrBit rn i) hxc
        rw [hp1] at hs2 hp2
        have hstep : searchRom.bitStep faithful rn pl (d, v) i =
            (d2, if addrBit rn i = 1 then
              ⟨v.ok, v.cl, v.rl, addrBit rn i, (v.rom + (1 <<< i) % 2 ^ 64) % 2 ^ 64, none⟩
              else ⟨v.ok, v.cl, v.rl, addrBit rn i, v.rom, none⟩) := by
          unfold searchRom.bitStep
          simp only [hok, if_true, hr, hi32, hpl32, hlt, if_false]
          simp only [shift_and_one_eq_addrBit]
          rw [hw]
          by_cases hb : addrBit rn i = 1 <;> simp [hb]
        rcases hxc with hc | hc
        · refine ⟨d2, { v with bit := 0, err := none }, 0, false, ?_,
            by rw [hd2, hd1], by rw [hs2, hs1, hc], hp2, hok, rfl, by simp, rfl, rfl,
            Or.inl rfl, hex0, fun h => by simp at h, fun _ h => absurd h hlt,
            fun _ _ => Or.inr hc.symm⟩
          rw [hstep, hc]
          rfl
        · refine ⟨d2, { v with bit := 1, err := none, rom := v.rom + 1 * 2 ^ i }, 1, false, ?_,
            by rw [hd2, hd1], by rw [hs2, hs1, hc], hp2, hok, rfl, rfl, rfl, rfl,
            Or.inr rfl, hex1, fun h => by simp at h, fun _ h => absurd h hlt,
            fun _ _ => Or.inr hc.symm⟩
          rw [hstep, hc, rom_add_bit v.rom i hi hrom]
          rfl

end sim

namespace sim
open usb

theorem getD_set_self {α : Type} (l : List α) (i : Nat) (x y : α) (h : i < l.length) :
    (l.set i x).getD i y = x := by
  simp [List.getD_eq_getElem?_getD, List.getElem?_set, h]

theorem getD_set_ne {α : Type} (l : List α) (i j : Nat) (x y : α) (h : i ≠ j) :
    (l.set i x).getD j y = l.getD j y := by
  simp [List.getD_eq_getElem?_getD, List.getElem?_set, h]

theorem addrBit_eq_one (a i : Nat) : addrBit a i = 1 ↔ a.testBit i = true := by
  unfold addrBit; split <;> simp_all

theorem addrBit_eq_zero (a i : Nat) : addrBit a i = 0 ↔ a.testBit i = false := by
  unfold addrBit; split <;> simp_all

theorem testBit_of_lt_two_pow {x i k : Nat} (h : x < 2 ^ i) (hk : i ≤ k) :
    x.testBit k = false :=
  Nat.testBit_lt_two_pow (lt_of_lt_of_le h (Nat.pow_le_pow_right (by decide) hk))

/-- The bits of `rom + c * 2 ^ i` below `i` are those of `rom`. -/
theorem testBit_add_bit_lt (rom c i k : Nat) (hk : k < i) :
    (rom + c * 2 ^ i).testBit k = rom.testBit k := by
  rw [Nat.testBit_to_div_mod, Nat.testBit_to_div_mod]
  congr 2
  obtain ⟨m, rfl⟩ : ∃ m, i = k + 1 + m := ⟨i - (k + 1), by omega⟩
  rw [show rom + c * 2 ^ (k + 1 + m) = rom + 2 ^ k * (2 * (c * 2 ^ m)) by ring,
    Nat.add_mul_div_left _ _ (Nat.two_pow_pos k), Nat.add_mul_mod_self_left]

/-- Bit `i` of `rom + c * 2 ^ i` is `c` when `rom` has no bit at `i` or above. -/
theorem testBit_add_bit_eq (rom c i : Nat) (hrom : rom < 2 ^ i) (hc : c = 0 ∨ c = 1) :
    (rom + c * 2 ^ i).testBit i = decide (c = 1) := by
  rcases hc with hc | hc <;> subst hc
  · simpa using Nat.testBit_lt_two_pow hrom
  · have := Nat.testBit_two_pow_add_eq rom i
    rw [Nat.testBit_lt_two_pow hrom] at this
    rw [Nat.one_mul, Nat.add_comm]
    simpa using this

theorem add_bit_lt (rom c i : Nat) (hrom : rom < 2 ^ i) (hc : c = 0 ∨ c = 1) :
    rom + c * 2 ^ i < 2 ^ (i + 1) := by
  rw [pow_succ]
  rcases hc with hc | hc <;> subst hc <;> omega

theorem agreeBelow_add_bit (rom c i j a : Nat) (hj : j ≤ i) :
    agreeBelow j a (rom + c * 2 ^ i) ↔ agreeBelow j a rom := by
  constructor
  · intro h k hk
    rw [h k hk, testBit_add_bit_lt rom c i k (by omega)]
  · intro h k hk
    rw [h k hk, testBit_add_bit_lt rom c i k (by omega)]

theorem agreeBelow_succ (rom c i a : Nat) (hrom : rom < 2 ^ i) (hc : c = 0 ∨ c = 1) :
    agreeBelow (i + 1) a (rom + c * 2 ^ i) ↔ agreeBelow i a rom ∧ addrBit a i = c := by
  constructor
  · intro h
    refine ⟨(agreeBelow_add_bit rom c i i a le_rfl).1 (fun k hk => h k (by omega)), ?_⟩
    have hi := h i (by omega)
    rw [testBit_add_bit_eq rom c i hrom hc] at hi
    rcases hc with hc | hc <;> subst hc
    · exact (addrBit_eq_zero a i).2 (by simpa using hi)
    · exact (addrBit_eq_one a i).2 (by simpa using hi)
  · rintro ⟨h, hb⟩ k hk
    by_cases hki : k = i
    · subst hki
      rw [testBit_add_bit_eq rom c k hrom hc]
      rcases hc with hc | hc <;> subst hc
      · simpa using (addrBit_eq_zero a k).1 hb
      · simpa using (addrBit_eq_one a k).1 hb
    · rw [testBit_add_bit_lt rom c i k (by omega)]
      exact h k (by omega)

end sim

namespace sim
open usb

/-- One pass of the loop body keeps the invariant of the pass. -/
theorem bitStep_passInv (S : List Nat) (rn pl i : Nat) (d : Device Bus) (v : SearchVars)
    (hpl : pl < 2 ^ 32) (hi : i < 64) (h : PassInv S rn pl i d v) :
    PassInv S rn pl (i + 1) (searchRom.bitStep faithful rn pl (d, v) i).1
      (searchRom.bitStep faithful rn pl (d, v) i).2 := by
  obtain ⟨d2, v2, c, newColl, hstep, hd2, hs2, hp2, hok2, herr2, hrom2, hcl2, hrl2, hc, hexc,
    hnew, hold, hrep⟩ := bitStep_faithful_spec rn pl i d v h.ok hi hpl h.rom_lt h.pos h.nonempty
  rw [hstep]
  simp only
  have hbits : ∀ k, k < i → v2.rom.testBit k = v.rom.testBit k := fun k hk => by
    rw [hrom2]; exact testBit_add_bit_lt v.rom c i k hk
  have hbiti : v2.rom.testBit i = decide (c = 1) := by
    rw [hrom2]; exact testBit_add_bit_eq v.rom c i h.rom_lt hc
  have hagree : ∀ j a, j ≤ i → (agreeBelow j a v2.rom ↔ agreeBelow j a v.rom) := fun j a hj => by
    rw [hrom2]; exact agreeBelow_add_bit v.rom c i j a hj
  have hmem : ∀ a, a ∈ d2.handle.selected ↔ a ∈ S ∧ agreeBelow (i + 1) a v2.rom := by
    intro a
    rw [hs2, List.mem_filter, h.selected a, hrom2, agreeBelow_succ v.rom c i a h.rom_lt hc]
    simp [and_assoc]
  have hclget : ∀ j, j ≠ i → v2.cl.getD j false = v.cl.getD j false := by
    intro j hj
    rw [hcl2]; split
    · exact getD_set_ne _ _ _ _ _ (Ne.symm hj)
    · rfl
  have hrlget : ∀ j, j ≠ i → v2.rl.getD j 0 = v.rl.getD j 0 := by
    intro j hj
    rw [hrl2]; split
    · exact getD_set_ne _ _ _ _ _ (Ne.symm hj)
    · rfl
  have hcli : v.cl.getD i false = false := by
    by_contra hcon
    have := (h.coll i (by simpa using hcon)).2.1
    omega
  refine ⟨hok2, herr2, hd2.trans h.devices, hp2, hmem, ?_, ?_, ?_, ?_, ?_, ?_, ?_⟩
  · obtain ⟨a, ha, hb⟩ := hexc
    exact ⟨a, by rw [hs2, List.mem_filter]; exact ⟨ha, by simpa using hb⟩⟩
  · rw [hrom2]; exact add_bit_lt v.rom c i h.rom_lt hc
  · rw [hcl2]; split <;> simp [h.cl_len]
  · rw [hrl2]; split <;> simp [h.rl_len]
  · intro j hj
    by_cases hji : j = i
    · subst hji
      have hn : newColl = true := by
        by_contra hcon
        rw [hcl2, if_neg hcon, hcli] at hj
        exact absurd hj (by decide)
      obtain ⟨hlt, hc0, a, ha, hb⟩ := hnew hn
      have hrl : v2.rl.getD j 0 = v.rom := by
        rw [hrl2, if_pos hn]; exact getD_set_self _ _ _ _ (by rw [h.rl_len]; exact hi)
      refine ⟨hlt, by omega, ?_, ?_, ?_, a, ((h.selected a).1 ha).1, ?_, ?_⟩
      · rw [hbiti, hc0]; rfl
      · rw [hrl]; exact h.rom_lt
      · rw [hrl]; exact fun k hk => (hbits k hk).symm
      · exact (hagree j a le_rfl).2 ((h.selected a).1 ha).2
      · exact (addrBit_eq_one a j).1 hb
    · rw [hclget j hji] at hj
      obtain ⟨hlt, hjlt, hbit, hrllt, hrlag, a, ha, hag, hb⟩ := h.coll j hj
      rw [hrlget j hji]
      refine ⟨hlt, by omega, ?_, hrllt, ?_, a, ha, ?_, hb⟩
      · rw [hbits j hjlt]; exact hbit
      · exact (hagree j _ (by omega)).2 hrlag
      · exact (hagree j a (by omega)).2 hag
  · intro hpre k hk
    have hk2 : k < i + 1 ∧ k < pl + 1 := by omega
    by_cases hki : k = i
    · subst hki
      have hn : newColl = false := by
        by_contra hcon
        have := (hnew (by simpa using hcon)).1
        omega
      rw [hbiti]
      have hrnbit : ∀ x, x = addrBit rn k → decide (x = 1) = rn.testBit k := by
        intro x hx
        subst hx
        by_cases hb : rn.testBit k = true
        · rw [hb, (addrBit_eq_one rn k).2 hb]; rfl
        · have hb2 : rn.testBit k = false := by simpa using hb
          rw [hb2, (addrBit_eq_zero rn k).2 hb2]; rfl
      rcases hrep hn (by omega) with hall | hceq
      · obtain ⟨a0, ha0, hag0⟩ := hpre
        have hsel : a0 ∈ d.handle.selected := by
          rw [h.selected a0]
          refine ⟨ha0, fun m hm => ?_⟩
          rw [hag0 m (by omega), h.follow ⟨a0, ha0, hag0⟩ m (by omega)]
        have hca := hall a0 hsel
        have hbit0 := hag0 k (by omega)
        apply hrnbit
        rw [← hca]
        unfold addrBit
        rw [hbit0]
      · exact hrnbit c hceq
    · rw [hbits k (by omega)]
      exact h.follow hpre k (by omega)
  · intro j a hlt hj ha hag hne
    by_cases hji : j = i
    · subst hji
      have hsel : a ∈ d.handle.selected :=
        (h.selected a).2 ⟨ha, (hagree j a le_rfl).1 hag⟩
      have hn : newColl = true := by
        by_contra hcon
        have hca := hold (by simpa using hcon) hlt a hsel
        rw [hbiti] at hne
        rcases hc with hc | hc
        · subst hc
          exact hne (by simpa using (addrBit_eq_zero a j).1 hca)
        · subst hc
          exact hne (by simpa using (addrBit_eq_one a j).1 hca)
      rw [hcl2, if_pos hn]
      exact getD_set_self _ _ _ _ (by rw [h.cl_len]; exact hi)
    · rw [hclget j hji]
      refine h.recorded j a hlt (by omega) ha ((hagree j a (by omega)).1 hag) ?_
      rw [← hbits j (by omega)]
      exact hne

end sim

namespace sim
open usb

theorem pass_passInv (S : List Nat) (rn pl : Nat) (d : Device Bus) (v : SearchVars)
    (hpl : pl < 2 ^ 32) (h : PassInv S rn pl 0 d v) (n : Nat) (hn : n ≤ 64) :
    PassInv S rn pl n ((List.range n).foldl (searchRom.bitStep faithful rn pl) (d, v)).1
      ((List.range n).foldl (searchRom.bitStep faithful rn pl) (d, v)).2 := by
  induction n with
  | zero => simpa using h
  | succ n ih =>
    rw [List.range_succ, List.foldl_append]
    simp only [List.foldl_cons, List.foldl_nil]
    exact bitStep_passInv S rn pl n _ _ hpl (by omega) (ih (by omega))

theorem checked_fold (f : Nat → Nat → Nat) (js : List Nat) (c0 : Nat) (b0 : Bool) :
    (js.foldl
      (fun (s : Nat × Bool) j =>
        match onewire.CheckCrc8 (f s.1 j) with
        | some _ => (f s.1 j, false)
        | none => (f s.1 j, true))
      (c0, b0)).1 = js.foldl f c0 ∧
    (js ≠ [] →
      (js.foldl
        (fun (s : Nat × Bool) j =>
          match onewire.CheckCrc8 (f s.1 j) with
          | some _ => (f s.1 j, false)
          | none => (f s.1 j, true))
        (c0, b0)).2 = decide (js.foldl f c0 = 0)) := by
  induction js using List.reverseRecOn with
  | nil => simp
  | append_singleton js j ih =>
    rw [List.foldl_append, List.foldl_append]
    simp only [List.foldl_cons, List.foldl_nil]
    rw [ih.1]
    unfold onewire.CheckCrc8
    by_cases hc : f (List.foldl f c0 js) j = 0
    · simp [hc]
    · simp [hc]

theorem crcLoop_eq_crcValid (rom : Nat) : (searchRom.crcLoop rom).2 = crcValid rom := by
  have h := (checked_fold
    (fun c j => onewire.Crc8 (c % 256) (((rom >>> (j <<< 3)) % 256) &&& 0xff))
    (List.range 8) 0 true).2 (by decide)
  have hb : ∀ j, ((rom >>> (j <<< 3)) % 256) &&& 0xff = (rom >>> (j <<< 3)) % 256 := by
    intro j
    rw [show ((rom >>> (j <<< 3)) % 256) &&& 0xff = (rom >>> (j <<< 3)) % 256 % 256 from
      Nat.and_pow_two_sub_one_eq_mod _ 8, Nat.mod_mod]
  have hfold : (List.range 8).foldl
      (fun c j => onewire.Crc8 (c % 256) (((rom >>> (j <<< 3)) % 256) &&& 0xff)) 0 =
      onewire.foldCrc8 (romBytes rom) := by
    simp only [onewire.foldCrc8, onewire.foldCrc8From, romBytes, List.foldl_map, hb]
  rw [hfold] at h
  unfold searchRom.crcLoop crcValid
  refine Eq.trans h ?_
  generalize onewire.foldCrc8 (romBytes rom) = x
  by_cases hx : x = 0 <;> simp [hx]

end sim

namespace sim
open usb

theorem eq_of_agreeBelow {a b n : Nat} (ha : a < 2 ^ n) (hb : b < 2 ^ n)
    (h : agreeBelow n a b) : a = b := by
  apply Nat.eq_of_testBit_eq
  intro k
  by_cases hk : k < n
  · exact h k hk
  · rw [testBit_of_lt_two_pow ha (by omega), testBit_of_lt_two_pow hb (by omega)]

theorem passInv_rom_mem (S : List Nat) (rn pl : Nat) (d : Device Bus) (v : SearchVars)
    (hS : ∀ a, a ∈ S → a < 2 ^ 64) (h : PassInv S rn pl 64 d v) : v.rom ∈ S := by
  obtain ⟨a, ha⟩ := h.nonempty
  obtain ⟨haS, hag⟩ := (h.selected a).1 ha
  rw [← eq_of_agreeBelow (hS a haS) h.rom_lt hag]
  exact haS

theorem passInv_init (S : List Nat) (rn pl : Nat) (d : Device Bus) (hS : S ≠ [])
    (hd : d.handle.devices = S) (hsel : d.handle.selected = S) (hpos : d.handle.pos = 0) :
    PassInv S rn pl 0 d
      ⟨true, List.replicate RomPorts false, List.replicate RomPorts 0, 0, 0, none⟩ := by
  refine ⟨rfl, rfl, hd, hpos, fun a => ?_, ?_, by decide, by simp [RomPorts],
    by simp [RomPorts], fun j hj => ?_, fun _ k hk => ?_, fun j a _ hj => ?_⟩
  · rw [hsel]
    exact ⟨fun h => ⟨h, fun k hk => absurd hk (by omega)⟩, fun h => h.1⟩
  · rw [hsel]
    exact List.exists_mem_of_ne_nil S hS
  · exfalso
    simp only [List.getD_eq_getElem?_getD, List.getElem?_replicate] at hj
    split at hj <;> simp at hj
  · exact absurd hk (by omega)
  · exact absurd hj (by omega)

theorem attempts_of_ok {σ : Type} (t : Transport σ) (rn pl k : Nat)
    (s : Device σ × SearchVars) (hv : s.2.ok = true) :
    searchRom.attempts t rn pl k s = s := by
  cases k with
  | zero => rfl
  | succ k => rw [searchRom.attempts, if_pos hv]

/-- An attempt whose reset, command byte and 64 bit steps succeed, and which ends
with a non-zero address that passes the checksum, ends the loop of attempts. -/
theorem attempts_first_ok {σ : Type} (t : Transport σ) (rn pl k : Nat) (d d1 d2 d3 : Device σ)
    (v v3 : SearchVars) (hv : v.ok = false) (hr : d.reset t = (d1, none))
    (hw : d1.writeByte t onewire.SearchRom = (d2, none))
    (hfold : (List.range RomPorts).foldl (searchRom.bitStep t rn pl)
      (d2, { v with ok := true }) = (d3, v3))
    (hok : v3.ok = true) (hrom : v3.rom ≠ 0) (hcrc : (searchRom.crcLoop v3.rom).2 = true) :
    searchRom.attempts t rn pl (k + 1) (d, v) = (d3, v3) := by
  have hatt : searchRom.attempt t rn pl (d, v) = (d3, v3) := by
    have hchk : searchRom.check v3 = v3 := by
      unfold searchRom.check
      simp only [hrom, if_false, hok, if_true, hcrc]
      cases v3
      simp_all
    unfold searchRom.attempt
    dsimp only
    rw [hr]
    dsimp only
    rw [hw]
    dsimp only
    rw [hfold, hchk]
  rw [searchRom.attempts]
  simp only [hv, Bool.false_eq_true, if_false, hatt]
  exact attempts_of_ok t rn pl k (d3, v3) hok

/-- On the faithful bus the first attempt of `searchRom` succeeds and ends with the
invariant of the pass at position 64. -/
theorem attempts_faithful (S : List Nat) (rn pl : Nat) (d : Device Bus)
    (hS : ∀ a, a ∈ S → 0 < a ∧ a < 2 ^ 64 ∧ crcValid a = true) (hne : S ≠ [])
    (hd : d.handle.devices = S) (hpl : pl < 2 ^ 32) :
    ∃ d1 v1, searchRom.attempts faithful rn pl Retries
        (d, ⟨false, List.replicate RomPorts false, List.replicate RomPorts 0, 0, 0, none⟩) =
        (d1, v1) ∧ PassInv S rn pl 64 d1 v1 ∧ v1.rom ∈ S := by
  obtain ⟨da, hra, hda, hsa, hpa⟩ := reset_faithful d
  obtain ⟨db, hrb, hdb, hsb, hpb⟩ := writeByte_searchRom_faithful da
  have h0 := passInv_init S rn pl db hne (by rw [hdb, hda, hd]) (by rw [hsb, hsa, hd])
    (by rw [hpb, hpa])
  have h64 := pass_passInv S rn pl db _ hpl h0 64 le_rfl
  have hmem := passInv_rom_mem S rn pl _ _ (fun a ha => (hS a ha).2.1) h64
  rcases hfold : (List.range 64).foldl (searchRom.bitStep faithful rn pl)
      (db, ⟨true, List.replicate RomPorts false, List.replicate RomPorts 0, 0, 0, none⟩)
    with ⟨d1, v1⟩
  rewrite [hfold] at h64 hmem
  simp only at h64 hmem
  refine ⟨d1, v1, ?_, h64, hmem⟩
  have hrom0 : v1.rom ≠ 0 := by
    have := (hS _ hmem).1
    omega
  have hcrc : (searchRom.crcLoop v1.rom).2 = true := by
    rw [crcLoop_eq_crcValid]; exact (hS _ hmem).2.2
  exact attempts_first_ok faithful rn pl 2 d da db d1 _ v1 rfl hra hrb hfold h64.ok hrom0 hcrc

end sim

namespace sim
open usb

theorem agreeBelow_child (rl d0 n x : Nat) (hn : n < 64) (hrl : rl < 2 ^ n)
    (hag : agreeBelow n rl d0) :
    agreeBelow (n + 1) x ((rl ||| (1 <<< n)) % 2 ^ 64) ↔
      agreeBelow n x d0 ∧ x.testBit n = true := by
  have hbit : ∀ k, k < n + 1 →
      ((rl ||| (1 <<< n)) % 2 ^ 64).testBit k = if k = n then true else d0.testBit k := by
    intro k hk
    rw [Nat.testBit_mod_two_pow, Nat.testBit_or, Nat.one_shiftLeft, Nat.testBit_two_pow]
    have h64 : decide (k < 64) = true := by simpa using (by omega : k < 64)
    rw [h64, Bool.true_and]
    by_cases hkn : k = n
    · subst hkn
      simp
    · rw [if_neg hkn, hag k (by omega)]
      have : decide (n = k) = false := by simpa using Ne.symm hkn
      rw [this, Bool.or_false]
  constructor
  · intro h
    refine ⟨fun k hk => ?_, ?_⟩
    · rw [h k (by omega), hbit k (by omega), if_neg (by omega)]
    · rw [h n (by omega), hbit n (by omega), if_pos rfl]
  · rintro ⟨h1, h2⟩ k hk
    rw [hbit k hk]
    by_cases hkn : k = n
    · subst hkn; rw [if_pos rfl]; exact h2
    · rw [if_neg hkn]; exact h1 k (by omega)

theorem agreeBelow_mono {n m a b : Nat} (h : agreeBelow n a b) (hm : m ≤ n) :
    agreeBelow m a b :=
  fun k hk => h k (by omega)

theorem agreeBelow_trans {n a b c : Nat} (h1 : agreeBelow n a b) (h2 : agreeBelow n b c) :
    agreeBelow n a c :=
  fun k hk => (h1 k hk).trans (h2 k hk)

theorem agreeBelow_symm {n a b : Nat} (h : agreeBelow n a b) : agreeBelow n b a :=
  fun k hk => (h k hk).symm

/-- Two different 64-bit addresses that agree below `p` first differ at a position
from `p` to 63. -/
theorem first_difference (a b p : Nat) (ha : a < 2 ^ 64) (hb : b < 2 ^ 64) (hne : a ≠ b)
    (hag : agreeBelow p a b) :
    ∃ j, p ≤ j ∧ j < 64 ∧ agreeBelow j a b ∧ a.testBit j ≠ b.testBit j := by
  have hex : ∃ k, a.testBit k ≠ b.testBit k := Nat.ne_implies_bit_diff hne
  classical
  refine ⟨Nat.find hex, ?_, ?_, ?_, Nat.find_spec hex⟩
  · by_contra hlt
    exact Nat.find_spec hex (hag _ (by omega))
  · by_contra hge
    apply Nat.find_spec hex
    rw [testBit_of_lt_two_pow ha (by omega), testBit_of_lt_two_pow hb (by omega)]
  · intro k hk
    by_contra hd
    exact Nat.find_min hex hk hd

end sim

namespace sim
open usb

/-- The loop over the flagged positions, on the faithful bus: after the positions
below `n` the slice `roms` holds the address of the pass followed by exactly the
devices that leave the path of the pass at a flagged position below `n`. -/
theorem branches_faithful (S : List Nat) (rn pl fuel : Nat) (d1 : Device Bus)
    (v : SearchVars) (hinv : PassInv S rn pl 64 d1 v)
    (IH : ∀ rn1 pl1 (d : Device Bus), d.handle.devices = S → pl1 < 64 → pl < pl1 →
      SearchResult S rn1 pl1 (Device.searchRom faithful fuel d rn1 pl1))
    (n : Nat) (hn : n ≤ 64) :
    ∃ dn rest,
      (List.range n).foldl (searchRom.branch (Device.searchRom faithful fuel) v)
        (some (d1, [v.rom])) = some (dn, v.rom :: rest) ∧
      dn.handle.devices = S ∧
      (∀ x, x ∈ rest → x ∈ S ∧ ∃ j, j < n ∧ v.cl.getD j false = true ∧
        agreeBelow j x v.rom ∧ x.testBit j = true) ∧
      (v.rom :: rest).Nodup ∧
      (∀ a j, a ∈ S → j < n → v.cl.getD j false = true → agreeBelow j a v.rom →
        a.testBit j = true → a ∈ rest) := by
  induction n with
  | zero =>
    refine ⟨d1, [], rfl, hinv.devices, fun x hx => by simp at hx, by simp,
      fun a j _ hj => absurd hj (by omega)⟩
  | succ n ih =>
    obtain ⟨dn, rest, hfold, hdn, q1, q2, q3⟩ := ih (by omega)
    rw [List.range_succ, List.foldl_append, hfold]
    simp only [List.foldl_cons, List.foldl_nil, searchRom.branch]
    by_cases hcl : v.cl.getD n false = true
    · obtain ⟨hlt, _, hbit0, hrllt, hrlag, a1, ha1, hag1, hb1⟩ := hinv.coll n hcl
      have hn32 : n % 2 ^ 32 = n := Nat.mod_eq_of_lt (by omega)
      obtain ⟨dc, c0, crest, hres, hdc, hfollow, hall, hnodup, hcompl⟩ :=
        IH ((v.rl.getD n 0 ||| (1 <<< n)) % 2 ^ 64) n dn hdn (by omega) hlt
      have hchild := fun x => agreeBelow_child (v.rl.getD n 0) v.rom n x (by omega) hrllt hrlag
      have hc0 := hfollow ⟨a1, ha1, (hchild a1).2 ⟨hag1, hb1⟩⟩
      have hmemc : ∀ x, x ∈ c0 :: crest → x ∈ S ∧ agreeBelow n x v.rom ∧ x.testBit n = true := by
        intro x hx
        obtain ⟨hxS, hxag⟩ := hall x hx
        exact ⟨hxS, (hchild x).1 (agreeBelow_trans hxag hc0)⟩
      rw [if_pos hcl, hn32, hres]
      refine ⟨dc, rest ++ c0 :: crest, by simp, hdc, ?_, ?_, ?_⟩
      · intro x hx
        rcases List.mem_append.1 hx with hx | hx
        · obtain ⟨hxS, j, hj, hjc, hjag, hjb⟩ := q1 x hx
          exact ⟨hxS, j, by omega, hjc, hjag, hjb⟩
        · obtain ⟨hxS, hxag, hxb⟩ := hmemc x hx
          exact ⟨hxS, n, by omega, hcl, hxag, hxb⟩
      · rw [List.nodup_cons] at q2 ⊢
        refine ⟨?_, ?_⟩
        · intro hmem
          rcases List.mem_append.1 hmem with hx | hx
          · exact q2.1 hx
          · have := (hmemc _ hx).2.2
            rw [hbit0] at this
            exact absurd this (by decide)
        · rw [List.nodup_append]
          refine ⟨q2.2, hnodup, ?_⟩
          intro x hx1 hx2
          obtain ⟨_, j, hj, hjc, hjag, hjb⟩ := q1 x hx1
          obtain ⟨_, hxag, _⟩ := hmemc x hx2
          have hb0 := (hinv.coll j hjc).2.2.1
          rw [hxag j hj, hb0] at hjb
          exact absurd hjb (by decide)
      · intro a j ha hj hjc hjag hjb
        by_cases hjn : j = n
        · subst hjn
          apply List.mem_append_right
          exact hcompl a ha
            (agreeBelow_trans ((hchild a).2 ⟨hjag, hjb⟩) (agreeBelow_symm hc0))
        · exact List.mem_append_left _ (q3 a j ha (by omega) hjc hjag hjb)
    · rw [if_neg hcl]
      refine ⟨dn, rest, rfl, hdn, ?_, q2, ?_⟩
      · intro x hx
        obtain ⟨hxS, j, hj, hjc, hjag, hjb⟩ := q1 x hx
        exact ⟨hxS, j, by omega, hjc, hjag, hjb⟩
      · intro a j ha hj hjc hjag hjb
        by_cases hjn : j = n
        · subst hjn; exact absurd hjc hcl
        · exact q3 a j ha (by omega) hjc hjag hjb

/-- The search on the faithful bus: every call with `portLast` below 64 and enough
recursion depth returns the result described by `SearchResult`. -/
theorem searchRom_faithful (S : List Nat)
    (hS : ∀ a, a ∈ S → 0 < a ∧ a < 2 ^ 64 ∧ crcValid a = true) (hne : S ≠ []) :
    ∀ fuel rn pl (d : Device Bus), d.handle.devices = S → pl < 64 → 64 ≤ fuel + pl →
      SearchResult S rn pl (d.searchRom faithful fuel rn pl) := by
  intro fuel
  induction fuel with
  | zero => intro rn pl d _ hpl hfuel; omega
  | succ fuel ih =>
    intro rn pl d hd hpl hfuel
    obtain ⟨d1, v1, hatt, hinv, hmem⟩ :=
      attempts_faithful S rn pl d hS hne hd (by omega)
    obtain ⟨dn, rest, hfold, hdn, q1, q2, q3⟩ :=
      branches_faithful S rn pl fuel d1 v1 hinv
        (fun rn1 pl1 d2 hd2 hpl1 hlt => ih rn1 pl1 d2 hd2 hpl1 (by omega)) 64 le_rfl
    have hres : d.searchRom faithful (fuel + 1) rn pl = some (dn, v1.rom :: rest, none) := by
      show searchRom.body faithful (Device.searchRom faithful fuel) d rn pl = _
      unfold searchRom.body
      simp only [hatt, hinv.ok, hinv.err, Bool.not_true, Bool.false_eq_true, if_false]
      rw [show List.range RomPorts = List.range 64 from rfl, hfold]
    refine ⟨dn, v1.rom, rest, hres, hdn, ?_, ?_, q2, ?_⟩
    · intro hpre
      have := hinv.follow hpre
      rwa [Nat.min_eq_right (by omega)] at this
    · intro x hx
      rcases List.mem_cons.1 hx with hx | hx
      · subst hx; exact ⟨hmem, fun _ _ => rfl⟩
      · obtain ⟨hxS, j, _, hjc, hjag, _⟩ := q1 x hx
        exact ⟨hxS, agreeBelow_mono hjag (by have := (hinv.coll j hjc).1; omega)⟩
    · intro a ha hag
      by_cases hav : a = v1.rom
      · rw [hav]; exact List.mem_cons_self _ _
      · obtain ⟨j, hj1, hj2, hjag, hjne⟩ :=
          first_difference a v1.rom (pl + 1) (hS a ha).2.1 (hS _ hmem).2.1 hav hag
        have hcl := hinv.recorded j a (by omega) hj2 ha hjag hjne
        have hb0 := (hinv.coll j hcl).2.2.1
        rw [hb0] at hjne
        exact List.mem_cons_of_mem _ (q3 a j ha hj2 hcl hjag (by simpa using hjne))

end sim

namespace sim
open usb

/-- C5: on the faithful simulated bus carrying a non-empty collection `S` of non-zero
64-bit addresses that pass the CRC8 check, `GetSensors` returns a nil error and a
list of addresses in which every address is a member of `S` and no address occurs
more than once. -/
theorem getSensors_sound_nodup (S : List Nat) (d : Device Bus) (hne : S ≠ [])
    (hS : ∀ a, a ∈ S → 0 < a ∧ a < 2 ^ 64 ∧ crcValid a = true)
    (hd : d.handle.devices = S) :
    ∃ d1 roms, d.GetSensors faithful = some (d1, roms, none) ∧
      (∀ x, x ∈ roms → x ∈ S) ∧ roms.Nodup := by
  obtain ⟨d1, c0, rest, hres, _, _, hall, hnodup, _⟩ :=
    searchRom_faithful S hS hne (RomPorts + 1) 0 0 d hd (by decide) (by decide)
  exact ⟨d1, c0 :: rest, hres, fun x hx => (hall x hx).1, hnodup⟩

set_option maxRecDepth 100000 in
theorem getSensors_sound_nodup_witness :
    ([0x1e00000000000028, 0x2900000000000128, 0xcc00000000000110, 0xed00000009000710] ≠ [] ∧
      (∀ a, a ∈ [0x1e00000000000028, 0x2900000000000128, 0xcc00000000000110,
          0xed00000009000710] → 0 < a ∧ a < 2 ^ 64 ∧ crcValid a = true) ∧
      (session [0x1e00000000000028, 0x2900000000000128, 0xcc00000000000110,
          0xed00000009000710]).handle.devices =
        [0x1e00000000000028, 0x2900000000000128, 0xcc00000000000110, 0xed00000009000710]) ∧
    ∃ d1 roms,
      (session [0x1e00000000000028, 0x2900000000000128, 0xcc00000000000110,
          0xed00000009000710]).GetSensors faithful = some (d1, roms, none) ∧
      (∀ x, x ∈ roms → x ∈ [0x1e00000000000028, 0x2900000000000128, 0xcc00000000000110,
          0xed00000009000710]) ∧ roms.Nodup :=
  ⟨⟨by decide, by decide, rfl⟩,
    getSensors_sound_nodup
      [0x1e00000000000028, 0x2900000000000128, 0xcc00000000000110, 0xed00000009000710]
      (session [0x1e00000000000028, 0x2900000000000128, 0xcc00000000000110, 0xed00000009000710])
      (by decide) (by decide) rfl⟩

end sim

/-! ## Theorems: text that is no address -/

namespace onewire

theorem le_or_32 (n : Nat) (h : 128 ≤ n) : 128 ≤ n ||| 0x20 := by
  obtain ⟨i, hi, hb⟩ := Nat.ge_two_pow_implies_high_bit_true (show n ≥ 2 ^ 7 from h)
  have hb2 : (n ||| 0x20).testBit i = true := by rw [Nat.testBit_or, hb]; rfl
  have h1 := Nat.testBit_implies_ge hb2
  have h2 : 2 ^ 7 ≤ 2 ^ i := Nat.pow_le_pow_right (by decide) hi
  omega

set_option maxRecDepth 20000 in
theorem parseUint_digit_table : ∀ n < 128,
    ((((48 ≤ n && n ≤ 57) || (97 ≤ n && n ≤ 102) || (65 ≤ n && n ≤ 70)) = true →
      (if 48 ≤ n ∧ n ≤ 57 then some (n - 48)
        else if 97 ≤ (n ||| 0x20) ∧ (n ||| 0x20) ≤ 122 then some ((n ||| 0x20) - 97 + 10)
        else none) =
        some (if n ≤ 57 then n - 48 else if n ≤ 70 then n - 55 else n - 87) ∧
      (if n ≤ 57 then n - 48 else if n ≤ 70 then n - 55 else n - 87) < 16) ∧
    (((48 ≤ n && n ≤ 57) || (97 ≤ n && n ≤ 102) || (65 ≤ n && n ≤ 70)) = false →
      (if 48 ≤ n ∧ n ≤ 57 then some (n - 48)
        else if 97 ≤ (n ||| 0x20) ∧ (n ||| 0x20) ≤ 122 then some ((n ||| 0x20) - 97 + 10)
        else none).all (fun v => decide (16 ≤ v)) = true)) := by
  decide

/-- The digit of `ParseUint` is below 16 exactly for the hexadecimal digit
characters, and then it is their value. -/
theorem parseUint_digit_spec (c : Char) :
    (isHexChar c = true → ParseUint.digit c = some (hexCharValue c) ∧ hexCharValue c < 16) ∧
    (isHexChar c = false → (ParseUint.digit c).all (fun v => decide (16 ≤ v)) = true) := by
  unfold isHexChar ParseUint.digit hexCharValue
  generalize c.toNat = n
  by_cases hsmall : n < 128
  · exact parseUint_digit_table n hsmall
  · have hge := le_or_32 n (by omega)
    rw [if_neg (by omega), if_neg (by omega)]
    constructor
    · intro h
      simp only [Bool.or_eq_true, Bool.and_eq_true, decide_eq_true_eq] at h
      omega
    · intro _
      rfl

theorem hexValue_fold_le (cs : List Char) (n : Nat) :
    n ≤ cs.foldl (fun m c => m * 16 + hexCharValue c) n := by
  induction cs generalizing n with
  | nil => simp
  | cons c cs ih =>
    simp only [List.foldl_cons]
    exact le_trans (by omega) (ih (n * 16 + hexCharValue c))

/-- The digit loop of `ParseUint` from a value below 2^64: it ends without an error
exactly on hexadecimal digits whose value stays below 2^64, and with an error its
value is 0 or 2^64 - 1. -/
theorem parseUint_loop_spec (cs : List Char) (n : Nat) (hn : n < 2 ^ 64) :
    (cs.all isHexChar = true ∧ cs.foldl (fun m c => m * 16 + hexCharValue c) n < 2 ^ 64 →
      ParseUint.loop n cs = (cs.foldl (fun m c => m * 16 + hexCharValue c) n, none)) ∧
    (¬ (cs.all isHexChar = true ∧
        cs.foldl (fun m c => m * 16 + hexCharValue c) n < 2 ^ 64) →
      (ParseUint.loop n cs).2 ≠ none ∧
      ((ParseUint.loop n cs).1 = 0 ∨ (ParseUint.loop n cs).1 = 2 ^ 64 - 1)) := by
  induction cs generalizing n with
  | nil =>
    refine ⟨fun _ => rfl, fun h => absurd ⟨rfl, ?_⟩ h⟩
    simpa using hn
  | cons c cs ih =>
    simp only [List.all_cons, Bool.and_eq_true, List.foldl_cons]
    obtain ⟨hhex, hnot⟩ := parseUint_digit_spec c
    by_cases hc : isHexChar c = true
    · obtain ⟨hd, hv⟩ := hhex hc
      have hle := hexValue_fold_le cs (n * 16 + hexCharValue c)
      by_cases hcut : 2 ^ 64 / 16 ≤ n
      · have hl : ParseUint.loop n (c :: cs) =
            (2 ^ 64 - 1, some (Error.New "value out of range")) := by
          simp only [ParseUint.loop, hd]
          rw [if_neg (by omega), if_pos hcut]
        rw [hl]
        refine ⟨fun h => ?_, fun _ => ⟨by simp, Or.inr rfl⟩⟩
        omega
      · have hsum : n * 16 + hexCharValue c < 2 ^ 64 := by omega
        have hl : ParseUint.loop n (c :: cs) =
            ParseUint.loop (n * 16 + hexCharValue c) cs := by
          simp only [ParseUint.loop, hd]
          rw [if_neg (by omega), if_neg hcut, Nat.mod_eq_of_lt hsum, if_neg (by omega)]
        rw [hl]
        obtain ⟨ih1, ih2⟩ := ih (n * 16 + hexCharValue c) hsum
        exact ⟨fun h => ih1 ⟨h.1.2, h.2⟩, fun h => ih2 (fun h2 => h ⟨⟨hc, h2.1⟩, h2.2⟩)⟩
    · have hc2 : isHexChar c = false := by simpa using hc
      have hl : ParseUint.loop n (c :: cs) = (0, some (Error.New "invalid syntax")) := by
        have hall := hnot hc2
        cases hdig : ParseUint.digit c with
        | none => simp only [ParseUint.loop, hdig]
        | some v =>
          rw [hdig] at hall
          simp only [Option.all_some, decide_eq_true_eq] at hall
          simp only [ParseUint.loop, hdig]
          rw [if_pos hall]
      rw [hl]
      exact ⟨fun h => absurd h.1.1 hc, fun _ => ⟨by simp, Or.inl rfl⟩⟩

theorem isHexText64_iff (s : String) :
    isHexText64 s = true ↔
      s.data ≠ [] ∧ s.data.all isHexChar = true ∧ hexValue s.data < 2 ^ 64 := by
  unfold isHexText64
  simp only [Bool.and_eq_true, Bool.not_eq_true', List.isEmpty_eq_false, decide_eq_true_eq,
    and_assoc]

/-- Counterexample to C11 as stated: for the empty string, for text with a character
that is no hexadecimal digit and for hexadecimal text denoting 2^64, `StringToRom`
produces a `Rom` (0, 0 and 2^64 - 1) although the parser reports an error. -/
theorem stringToRom_produces_rom_on_invalid_text :
    (isHexText64 "" = false ∧ (ParseUint "").2 ≠ none ∧ StringToRom "" = 0) ∧
    (isHexText64 "28g" = false ∧ (ParseUint "28g").2 ≠ none ∧ StringToRom "28g" = 0) ∧
    (isHexText64 "10000000000000000" = false ∧ (ParseUint "10000000000000000").2 ≠ none ∧
      StringToRom "10000000000000000" = 2 ^ 64 - 1) := by
  decide

/-- C11, amended: `StringToRom` has no error result. For every string that is not the
hexadecimal text of a 64-bit value the parser reports an error, which `StringToRom`
drops, and the `Rom` produced is 0 or 2^64 - 1 (0 for the empty string); for the
hexadecimal text of a 64-bit value the `Rom` produced is that value. -/
theorem stringToRom_on_invalid_text (s : String) :
    (isHexText64 s = false →
      (ParseUint s).2 ≠ none ∧ (StringToRom s = 0 ∨ StringToRom s = 2 ^ 64 - 1) ∧
      (s.data = [] → StringToRom s = 0)) ∧
    (isHexText64 s = true → (ParseUint s).2 = none ∧ StringToRom s = hexValue s.data) := by
  have hiff := isHexText64_iff s
  obtain ⟨h1, h2⟩ := parseUint_loop_spec s.data 0 (by decide)
  unfold StringToRom ParseUint
  constructor
  · intro hf
    by_cases he : s.data = []
    · rw [if_pos he]
      exact ⟨by simp, Or.inl rfl, fun _ => rfl⟩
    · rw [if_neg he]
      have hnot : ¬ (s.data.all isHexChar = true ∧
          s.data.foldl (fun m c => m * 16 + hexCharValue c) 0 < 2 ^ 64) := by
        intro hcon
        have := hiff.2 ⟨he, hcon.1, hcon.2⟩
        rw [hf] at this
        exact absurd this (by decide)
      obtain ⟨h3, h4⟩ := h2 hnot
      exact ⟨h3, h4, fun h => absurd h he⟩
  · intro ht
    obtain ⟨he, hall, hval⟩ := hiff.1 ht
    rw [if_neg he, h1 ⟨hall, hval⟩]
    exact ⟨rfl, rfl⟩

theorem stringToRom_on_invalid_text_witness :
    (isHexText64 "28g" = false ∧ isHexText64 "1e00000000000028" = true) ∧
    (((ParseUint "28g").2 ≠ none ∧ (StringToRom "28g" = 0 ∨ StringToRom "28g" = 2 ^ 64 - 1) ∧
        (("28g" : String).data = [] → StringToRom "28g" = 0)) ∧
      ((ParseUint "1e00000000000028").2 = none ∧
        StringToRom "1e00000000000028" = hexValue ("1e00000000000028" : String).data)) :=
  ⟨by decide, (stringToRom_on_invalid_text "28g").1 (by decide),
    (stringToRom_on_invalid_text "1e00000000000028").2 (by decide)⟩

end onewire

/-! ## Theorems: the frames and results of the bus primitives -/

namespace usb

set_option maxRecDepth 20000 in
theorem one_add_even_eq_or : ∀ x < 256, x % 2 = 0 → (1 + x) % 256 = (1 ||| x) % 256 := by
  decide

/-- Counterexample to C16 as stated: on a transport whose inbound buffer echoes the
header and carries 2 in slot 2 and 1 in slot 3, `read2Bit` returns 4 with a nil
error, while `inbound[2] | (inbound[3] << 1)` is 2. -/
theorem read2Bit_is_not_or :
    TransfersSucceed (sim.constant [0x18, 0x82, 2, 1]) (sim.sessionOn ()).handle
      [0x18, 0x82, 1, 1, 0, 0, 0, 0] [0x18, 0x82, 2, 1, 0, 0, 0, 0] ∧
    ((sim.sessionOn ()).read2Bit (sim.constant [0x18, 0x82, 2, 1])).2 = (4, none) ∧
    (2 ||| (1 <<< 1) % 256) % 256 = 2 :=
  ⟨⟨rfl, rfl, rfl⟩, by decide, by decide⟩

/-- C16, amended: after a successful exchange whose header echoes correctly,
`read2Bit` returns `(inbound[2] + (inbound[3] << 1)) mod 256` with a nil error, for
all byte values; this is `inbound[2] | (inbound[3] << 1)` whenever `inbound[2]` is 0
or 1. -/
theorem read2Bit_value {σ : Type} (t : Transport σ) (d : Device σ) (inb : List Nat)
    (h : TransfersSucceed t d.handle [0x18, 0x82, 1, 1, 0, 0, 0, 0] inb)
    (h0 : inb.getD 0 0 = 0x18) (h1 : inb.getD 1 0 = 0x82) :
    (d.read2Bit t).2 = ((inb.getD 2 0 + (inb.getD 3 0 <<< 1) % 256) % 256, none) ∧
    (inb.getD 2 0 ≤ 1 →
      (d.read2Bit t).2.1 = (inb.getD 2 0 ||| (inb.getD 3 0 <<< 1) % 256) % 256) := by
  obtain ⟨d1, hd1, hin, hout⟩ := usbWriteReadCtl_of_transfers t
    { d.clearBuffers with outputBuffer := [0x18, 0x82, 1, 1, 0, 0, 0, 0] } inb h
  have hcmp : d1.compareBuffersWithDepth 2 = none := by
    apply (compareBuffersWithDepth_iff d1 2).1.2
    intro i hi
    rw [hin, hout]
    have : i = 0 ∨ i = 1 := by omega
    rcases this with hi | hi <;> subst hi
    · simpa using h0
    · simpa using h1
  have hval : (d.read2Bit t).2 =
      ((inb.getD 2 0 + (inb.getD 3 0 <<< 1) % 256) % 256, none) := by
    have hr : d.read2Bit t =
        (match Device.usbWriteReadCtl t
            { d.clearBuffers with outputBuffer := [0x18, 0x82, 1, 1, 0, 0, 0, 0] } with
          | (d, some e) => (d, 0, some e)
          | (d, none) =>
            match d.compareBuffersWithDepth 2 with
            | some e =>
              (d, (d.inputBuffer.getD 2 0 + (d.inputBuffer.getD 3 0 <<< 1) % 256) % 256, some e)
            | none =>
              (d, (d.inputBuffer.getD 2 0 + (d.inputBuffer.getD 3 0 <<< 1) % 256) % 256, none)) :=
      rfl
    rw [hr, hd1]
    simp only [hcmp, hin]
  refine ⟨hval, fun hle => ?_⟩
  rw [hval]
  simp only
  have hx : (inb.getD 3 0 <<< 1) % 256 % 2 = 0 := by
    rw [Nat.shiftLeft_eq]; omega
  have hxl : (inb.getD 3 0 <<< 1) % 256 < 256 := Nat.mod_lt _ (by decide)
  have : inb.getD 2 0 = 0 ∨ inb.getD 2 0 = 1 := by omega
  rcases this with h2 | h2 <;> rw [h2]
  · simp
  · exact one_add_even_eq_or _ hxl hx

theorem read2Bit_value_witness :
    (TransfersSucceed (sim.constant [0x18, 0x82, 1, 1]) (sim.sessionOn ()).handle
        [0x18, 0x82, 1, 1, 0, 0, 0, 0] [0x18, 0x82, 1, 1, 0, 0, 0, 0] ∧
      [0x18, 0x82, 1, 1, 0, 0, 0, 0].getD 0 0 = 0x18 ∧
      [0x18, 0x82, 1, 1, 0, 0, 0, 0].getD 1 0 = 0x82 ∧
      [0x18, 0x82, 1, 1, 0, 0, 0, 0].getD 2 0 ≤ 1) ∧
    ((sim.sessionOn ()).read2Bit (sim.constant [0x18, 0x82, 1, 1])).2 =
      (([0x18, 0x82, 1, 1, 0, 0, 0, 0].getD 2 0 +
        ([0x18, 0x82, 1, 1, 0, 0, 0, 0].getD 3 0 <<< 1) % 256) % 256, none) ∧
    ((sim.sessionOn ()).read2Bit (sim.constant [0x18, 0x82, 1, 1])).2.1 =
      ([0x18, 0x82, 1, 1, 0, 0, 0, 0].getD 2 0 |||
        ([0x18, 0x82, 1, 1, 0, 0, 0, 0].getD 3 0 <<< 1) % 256) % 256 :=
  ⟨⟨⟨rfl, rfl, rfl⟩, rfl, rfl, by decide⟩,
    (read2Bit_value (sim.constant [0x18, 0x82, 1, 1]) (sim.sessionOn ())
      [0x18, 0x82, 1, 1, 0, 0, 0, 0] ⟨rfl, rfl, rfl⟩ rfl rfl).1,
    (read2Bit_value (sim.constant [0x18, 0x82, 1, 1]) (sim.sessionOn ())
      [0x18, 0x82, 1, 1, 0, 0, 0, 0] ⟨rfl, rfl, rfl⟩ rfl rfl).2 (by decide)⟩

end usb

namespace usb

theorem writeBit_sent {σ : Type} (t : Transport σ) (d : Device σ) (b : Nat) :
    (d.writeBit t b).1.sent = d.sent ++ [[0x18, 0x81, b % 256 &&& 1, 0, 0, 0, 0, 0]] :=
  write_shape_sent t
    { d.clearBuffers with outputBuffer := [0x18, 0x81, b % 256 &&& 1, 0, 0, 0, 0, 0] }

theorem read2Bit_sent {σ : Type} (t : Transport σ) (d : Device σ) :
    (d.read2Bit t).1.sent = d.sent ++ [[0x18, 0x82, 1, 1, 0, 0, 0, 0]] :=
  read_shape_sent t { d.clearBuffers with outputBuffer := [0x18, 0x82, 1, 1, 0, 0, 0, 0] }
    (fun d => (d.inputBuffer.getD 2 0 + (d.inputBuffer.getD 3 0 <<< 1) % 256) % 256)

theorem write4Byte_sent_bytes {σ : Type} (t : Transport σ) (d : Device σ) (w : Nat) :
    (d.write4Byte t w).1.sent =
      d.sent ++ [[0x18, 0x84, w % 256, w / 2 ^ 8 % 256, w / 2 ^ 16 % 256,
        w / 2 ^ 24 % 256, 0, 0]] := by
  obtain ⟨h0, h1, h2, h3⟩ := write4Byte_bytes w
  have h : (d.write4Byte t w).1.sent = d.sent ++
      [[0x18, 0x84, ((w % 2 ^ 32) &&& 0xff) % 256, (((w % 2 ^ 32) >>> 8) &&& 0xff) % 256,
        (((w % 2 ^ 32) >>> 16) &&& 0xff) % 256, (((w % 2 ^ 32) >>> 24) &&& 0xff) % 256, 0, 0]] :=
    write_shape_sent t
      { d.clearBuffers with outputBuffer :=
        [0x18, 0x84, ((w % 2 ^ 32) &&& 0xff) % 256, (((w % 2 ^ 32) >>> 8) &&& 0xff) % 256,
          (((w % 2 ^ 32) >>> 16) &&& 0xff) % 256, (((w % 2 ^ 32) >>> 24) &&& 0xff) % 256, 0, 0] }
  rw [h0, h1, h2, h3] at h
  exact h

theorem usbWriteCtl_inputBuffer {σ : Type} (t : Transport σ) (d : Device σ) :
    (d.usbWriteCtl t).1.inputBuffer = d.inputBuffer := by
  unfold Device.usbWriteCtl
  rcases t.controlOut d.handle d.outputBuffer with ⟨s, written⟩
  rfl

/-- C18: for every prior content `out0`, `in0` of the two command buffers and every
argument, each primitive hands the transport one outbound buffer that depends on the
primitive and its argument only, the whole result of the primitive does not depend on
the prior content, and the inbound buffer is all zero when the write transfer is done
and the read transfer has not yet filled it. -/
theorem primitives_send_fixed_frames {σ : Type} (t : Transport σ) (d : Device σ)
    (out0 in0 : List Nat) (b w : Nat) :
    ((d.reset t).1.sent = d.sent ++ [[0x18, 0x48, 0, 0, 0, 0, 0, 0]] ∧
      (d.writeBit t b).1.sent = d.sent ++ [[0x18, 0x81, b % 256 &&& 1, 0, 0, 0, 0, 0]] ∧
      (d.writeByte t b).1.sent = d.sent ++ [[0x18, 0x88, b % 256, 0, 0, 0, 0, 0]] ∧
      (d.write4Byte t w).1.sent =
        d.sent ++ [[0x18, 0x84, w % 256, w / 2 ^ 8 % 256, w / 2 ^ 16 % 256,
          w / 2 ^ 24 % 256, 0, 0]] ∧
      (d.read2Bit t).1.sent = d.sent ++ [[0x18, 0x82, 1, 1, 0, 0, 0, 0]] ∧
      (d.readByte t).1.sent = d.sent ++ [[0x18, 0x88, 0xff, 0, 0, 0, 0, 0]] ∧
      (d.read4Byte t).1.sent = d.sent ++ [[0x18, 0x84, 0xff, 0xff, 0xff, 0xff, 0, 0]]) ∧
    (Device.reset t { d with outputBuffer := out0, inputBuffer := in0 } = d.reset t ∧
      Device.writeBit t { d with outputBuffer := out0, inputBuffer := in0 } b = d.writeBit t b ∧
      Device.writeByte t { d with outputBuffer := out0, inputBuffer := in0 } b =
        d.writeByte t b ∧
      Device.write4Byte t { d with outputBuffer := out0, inputBuffer := in0 } w =
        d.write4Byte t w ∧
      Device.read2Bit t { d with outputBuffer := out0, inputBuffer := in0 } = d.read2Bit t ∧
      Device.readByte t { d with outputBuffer := out0, inputBuffer := in0 } = d.readByte t ∧
      Device.read4Byte t { d with outputBuffer := out0, inputBuffer := in0 } = d.read4Byte t) ∧
    (Device.clearBuffers { d with outputBuffer := out0, inputBuffer := in0 }).inputBuffer =
      [0, 0, 0, 0, 0, 0, 0, 0] ∧
    ∀ frame : List Nat,
      (Device.usbWriteCtl t
        { Device.clearBuffers { d with outputBuffer := out0, inputBuffer := in0 } with
          outputBuffer := frame }).1.inputBuffer = [0, 0, 0, 0, 0, 0, 0, 0] :=
  ⟨⟨reset_sent t d, writeBit_sent t d b, writeByte_sent t d b, write4Byte_sent_bytes t d w,
      read2Bit_sent t d, readByte_sent t d, read4Byte_sent t d⟩,
    ⟨rfl, rfl, rfl, rfl, rfl, rfl, rfl⟩, rfl,
    fun _ => usbWriteCtl_inputBuffer t _⟩

end usb

/-! ## Theorems: the command sequence of one temperature pass -/

namespace usb

theorem skipRomConvert_sent {σ : Type} (t : Transport σ) (d d3 : Device σ)
    (h : d.skipRomConvert t = (d3, none)) :
    d3.sent = d.sent ++ [[0x18, 0x48, 0, 0, 0, 0, 0, 0], [0x18, 0x88, 0xcc, 0, 0, 0, 0, 0],
      [0x18, 0x88, 0x44, 0, 0, 0, 0, 0]] := by
  unfold Device.skipRomConvert at h
  have s1 := reset_sent t d
  rcases hr1 : d.reset t with ⟨d1, _ | e1⟩ <;> rw [hr1] at h s1 <;> simp only at h s1
  · have s2 := writeByte_sent t d1 onewire.SkipRom
    rcases hr2 : d1.writeByte t onewire.SkipRom with ⟨d2, _ | e2⟩ <;> rw [hr2] at h s2 <;>
      simp only at h s2
    · have s3 := writeByte_sent t d2 onewire.ConvertT
      rcases hr3 : d2.writeByte t onewire.ConvertT with ⟨d4, _ | e3⟩ <;> rw [hr3] at h s3 <;>
        simp only at h s3
      · simp only [Prod.mk.injEq, and_true] at h
        subst h
        rw [s3, s2, s1]
        simp [onewire.SkipRom, onewire.ConvertT]
      · simp at h
    · simp at h
  · simp at h

theorem matchRom_bytes (rom : Nat) :
    ((rom &&& 0xFFFFFFFF) % 2 ^ 32) % 256 = rom % 256 ∧
    ((rom &&& 0xFFFFFFFF) % 2 ^ 32) / 2 ^ 8 % 256 = rom / 2 ^ 8 % 256 ∧
    ((rom &&& 0xFFFFFFFF) % 2 ^ 32) / 2 ^ 16 % 256 = rom / 2 ^ 16 % 256 ∧
    ((rom &&& 0xFFFFFFFF) % 2 ^ 32) / 2 ^ 24 % 256 = rom / 2 ^ 24 % 256 ∧
    (((rom >>> 32) &&& 0xFFFFFFFF) % 2 ^ 32) % 256 = rom / 2 ^ 32 % 256 ∧
    (((rom >>> 32) &&& 0xFFFFFFFF) % 2 ^ 32) / 2 ^ 8 % 256 = rom / 2 ^ 40 % 256 ∧
    (((rom >>> 32) &&& 0xFFFFFFFF) % 2 ^ 32) / 2 ^ 16 % 256 = rom / 2 ^ 48 % 256 ∧
    (((rom >>> 32) &&& 0xFFFFFFFF) % 2 ^ 32) / 2 ^ 24 % 256 = rom / 2 ^ 56 % 256 := by
  have h : ∀ x : Nat, x &&& 0xFFFFFFFF = x % 2 ^ 32 :=
    fun x => Nat.and_pow_two_sub_one_eq_mod x 32
  simp only [h, Nat.shiftRight_eq_div_pow, Nat.mod_mod]
  refine ⟨?_, ?_, ?_, ?_, ?_, ?_, ?_, ?_⟩ <;> omega

theorem matchRom_sent {σ : Type} (t : Transport σ) (d d4 : Device σ) (rom : Nat)
    (h : d.matchRom t rom = (d4, none)) :
    d4.sent = d.sent ++ [[0x18, 0x48, 0, 0, 0, 0, 0, 0], [0x18, 0x88, 0x55, 0, 0, 0, 0, 0],
      [0x18, 0x84, rom % 256, rom / 2 ^ 8 % 256, rom / 2 ^ 16 % 256, rom / 2 ^ 24 % 256, 0, 0],
      [0x18, 0x84, rom / 2 ^ 32 % 256, rom / 2 ^ 40 % 256, rom / 2 ^ 48 % 256,
        rom / 2 ^ 56 % 256, 0, 0]] := by
  unfold Device.matchRom at h
  obtain ⟨b0, b1, b2, b3, b4, b5, b6, b7⟩ := matchRom_bytes rom
  have s1 := reset_sent t d
  rcases hr1 : d.reset t with ⟨d1, _ | e1⟩ <;> rw [hr1] at h s1 <;> simp only at h s1
  · have s2 := writeByte_sent t d1 onewire.MatchRom
    rcases hr2 : d1.writeByte t onewire.MatchRom with ⟨d2, _ | e2⟩ <;> rw [hr2] at h s2 <;>
      simp only at h s2
    · have s3 := write4Byte_sent_bytes t d2 ((rom &&& 0xFFFFFFFF) % 2 ^ 32)
      rcases hr3 : d2.write4Byte t ((rom &&& 0xFFFFFFFF) % 2 ^ 32) with ⟨d3, _ | e3⟩ <;>
        rw [hr3] at h s3 <;> simp only at h s3
      · have s4 := write4Byte_sent_bytes t d3 (((rom >>> 32) &&& 0xFFFFFFFF) % 2 ^ 32)
        rcases hr4 : d3.write4Byte t (((rom >>> 32) &&& 0xFFFFFFFF) % 2 ^ 32)
          with ⟨d5, _ | e4⟩ <;> rw [hr4] at h s4 <;> simp only at h s4
        · simp only [Prod.mk.injEq, and_true] at h
          subst h
          rw [s4, s3, s2, s1, b0, b1, b2, b3, b4, b5, b6, b7]
          simp [onewire.MatchRom]
        · simp at h
      · simp at h
    · simp at h
  · simp at h

end usb

namespace usb

theorem toCmdBuffer_getD_lt (data : List Nat) (i : Nat) : (toCmdBuffer data).getD i 0 < 256 := by
  have h : toCmdBuffer data = [data.getD 0 0 % 256, data.getD 1 0 % 256, data.getD 2 0 % 256,
      data.getD 3 0 % 256, data.getD 4 0 % 256, data.getD 5 0 % 256, data.getD 6 0 % 256,
      data.getD 7 0 % 256] := rfl
  rw [h]
  rcases i with _ | _ | _ | _ | _ | _ | _ | _ | i <;>
    simp only [List.getD_cons_zero, List.getD_cons_succ, List.getD_nil] <;> omega

theorem usbWriteReadCtl_input_lt {σ : Type} (t : Transport σ) (d : Device σ)
    (h : (d.usbWriteReadCtl t).2 = none) (i : Nat) :
    (d.usbWriteReadCtl t).1.inputBuffer.getD i 0 < 256 := by
  revert h
  unfold Device.usbWriteReadCtl Device.usbWriteCtl Device.usbReadCtl
  rcases hout : t.controlOut d.handle d.outputBuffer with ⟨s, written⟩
  rcases hin : t.controlIn s with ⟨s2, data, read⟩
  by_cases hw : written = (CmdSize : Int)
  · by_cases hr : read = (CmdSize : Int)
    · simp only [hw, hr, hin, ne_eq, not_true_eq_false, if_false]
      intro _
      exact toCmdBuffer_getD_lt data i
    · simp [hw, hr, hin]
  · simp [hw]

theorem read_shape_ok {σ : Type} (t : Transport σ) (d d1 : Device σ) (f : Device σ → Nat)
    (l : Nat)
    (h : (match d.usbWriteReadCtl t with
      | (d, some e) => (d, 0, some e)
      | (d, none) =>
        match d.compareBuffersWithDepth 2 with
        | some e => (d, f d, some e)
        | none => (d, f d, none)) = (d1, l, none)) :
    l = f d1 ∧ ∀ i, d1.inputBuffer.getD i 0 < 256 := by
  have hlt := usbWriteReadCtl_input_lt t d
  rcases hr : d.usbWriteReadCtl t with ⟨d2, _ | e⟩ <;> rw [hr] at h hlt <;> simp only at h hlt
  · cases hc : d2.compareBuffersWithDepth 2 <;> rw [hc] at h <;> simp only at h
    · simp only [Prod.mk.injEq, and_true] at h
      obtain ⟨h1, h2⟩ := h
      subst h1
      exact ⟨h2.symm, hlt trivial⟩
    · simp at h
  · simp at h

theorem readByte_ok {σ : Type} (t : Transport σ) (d d1 : Device σ) (l : Nat)
    (h : d.readByte t = (d1, l, none)) :
    l = d1.inputBuffer.getD 2 0 ∧ ∀ i, d1.inputBuffer.getD i 0 < 256 :=
  read_shape_ok t { d.clearBuffers with outputBuffer := [0x18, 0x88, 0xff, 0, 0, 0, 0, 0] } d1
    (fun d => d.inputBuffer.getD 2 0) l h

theorem read4Byte_ok {σ : Type} (t : Transport σ) (d d1 : Device σ) (l : Nat)
    (h : d.read4Byte t = (d1, l, none)) :
    l = (d1.inputBuffer.getD 2 0 + (d1.inputBuffer.getD 3 0 <<< 8) % 2 ^ 32 +
      (d1.inputBuffer.getD 4 0 <<< 16) % 2 ^ 32 + (d1.inputBuffer.getD 5 0 <<< 24) % 2 ^ 32)
        % 2 ^ 32 ∧ ∀ i, d1.inputBuffer.getD i 0 < 256 :=
  read_shape_ok t
    { d.clearBuffers with outputBuffer := [0x18, 0x84, 0xff, 0xff, 0xff, 0xff, 0, 0] } d1
    (fun d => (d.inputBuffer.getD 2 0 + (d.inputBuffer.getD 3 0 <<< 8) % 2 ^ 32 +
      (d.inputBuffer.getD 4 0 <<< 16) % 2 ^ 32 + (d.inputBuffer.getD 5 0 <<< 24) % 2 ^ 32) % 2 ^ 32)
    l h

theorem word_bytes (a b c e : Nat) (ha : a < 256) (hb : b < 256) (hc : c < 256) (he : e < 256) :
    (List.range 4).map (fun i =>
      ((((a + (b <<< 8) % 2 ^ 32 + (c <<< 16) % 2 ^ 32 + (e <<< 24) % 2 ^ 32) % 2 ^ 32)
        >>> (i * 8)) &&& 0xff) % 256) = [a, b, c, e] := by
  have h : ∀ x : Nat, x &&& 0xff = x % 256 := fun x => Nat.and_pow_two_sub_one_eq_mod x 8
  have hr : List.range 4 = [0, 1, 2, 3] := rfl
  rw [hr]
  simp only [List.map_cons, List.map_nil, h, Nat.shiftRight_eq_div_pow, Nat.shiftLeft_eq,
    Nat.reduceMul, Nat.reducePow, Nat.mod_mod, List.cons.injEq, and_true]
  refine ⟨?_, ?_, ?_, ?_⟩ <;> omega

end usb

namespace usb

/-- C17. One pass of `GetTemperature` whose exchanges all succeed and pass their echo
checks (the pass reaches the checksum with the values `l1`, `l2`, `l3`) sends exactly
eleven outbound buffers, in this order: reset, `writeByte(0xCC)`, `writeByte(0x44)`,
reset, `writeByte(0x55)`, `write4Byte` with the four low bytes of `rom` in slots 2..5,
`write4Byte` with the four high bytes of `rom`, `writeByte(0xBE)`, `read4Byte`,
`read4Byte`, `readByte`. The nine bytes folded into the checksum are inbound slots 2..5
of the first read, slots 2..5 of the second read and slot 2 of the byte read. -/
theorem getTemperature_command_sequence {σ : Type} (t : Transport σ) (d : Device σ)
    (rom l1 l2 l3 : Nat)
    (hx : (GetTemperature.exchange t d rom).2 = some (l1, l2, l3)) :
    (GetTemperature.exchange t d rom).1.sent = d.sent ++
      [[0x18, 0x48, 0, 0, 0, 0, 0, 0], [0x18, 0x88, 0xcc, 0, 0, 0, 0, 0],
       [0x18, 0x88, 0x44, 0, 0, 0, 0, 0], [0x18, 0x48, 0, 0, 0, 0, 0, 0],
       [0x18, 0x88, 0x55, 0, 0, 0, 0, 0],
       [0x18, 0x84, rom % 256, rom / 2 ^ 8 % 256, rom / 2 ^ 16 % 256, rom / 2 ^ 24 % 256, 0, 0],
       [0x18, 0x84, rom / 2 ^ 32 % 256, rom / 2 ^ 40 % 256, rom / 2 ^ 48 % 256,
         rom / 2 ^ 56 % 256, 0, 0],
       [0x18, 0x88, 0xbe, 0, 0, 0, 0, 0], [0x18, 0x84, 0xff, 0xff, 0xff, 0xff, 0, 0],
       [0x18, 0x84, 0xff, 0xff, 0xff, 0xff, 0, 0], [0x18, 0x88, 0xff, 0, 0, 0, 0, 0]] ∧
    ∃ d8 d9 d10 : Device σ,
      d8.sent = d.sent ++
        [[0x18, 0x48, 0, 0, 0, 0, 0, 0], [0x18, 0x88, 0xcc, 0, 0, 0, 0, 0],
         [0x18, 0x88, 0x44, 0, 0, 0, 0, 0], [0x18, 0x48, 0, 0, 0, 0, 0, 0],
         [0x18, 0x88, 0x55, 0, 0, 0, 0, 0],
         [0x18, 0x84, rom % 256, rom / 2 ^ 8 % 256, rom / 2 ^ 16 % 256, rom / 2 ^ 24 % 256,
           0, 0],
         [0x18, 0x84, rom / 2 ^ 32 % 256, rom / 2 ^ 40 % 256, rom / 2 ^ 48 % 256,
           rom / 2 ^ 56 % 256, 0, 0],
         [0x18, 0x88, 0xbe, 0, 0, 0, 0, 0]] ∧
      d8.read4Byte t = (d9, l1, none) ∧ d9.read4Byte t = (d10, l2, none) ∧
      d10.readByte t = ((GetTemperature.exchange t d rom).1, l3, none) ∧
      GetTemperature.scratchpad l1 l2 l3 =
        [d9.inputBuffer.getD 2 0, d9.inputBuffer.getD 3 0, d9.inputBuffer.getD 4 0,
         d9.inputBuffer.getD 5 0, d10.inputBuffer.getD 2 0, d10.inputBuffer.getD 3 0,
         d10.inputBuffer.getD 4 0, d10.inputBuffer.getD 5 0,
         (GetTemperature.exchange t d rom).1.inputBuffer.getD 2 0] := by
  rcases hex : GetTemperature.exchange t d rom with ⟨df, r⟩
  rw [hex] at hx
  simp only at hx
  subst hx
  unfold GetTemperature.exchange at hex
  rcases hr1 : d.skipRomConvert t with ⟨d3, _ | e1⟩ <;> rw [hr1] at hex <;> simp only at hex
  swap
  · simp at hex
  rcases hr2 : d3.matchRom t rom with ⟨d7, _ | e2⟩ <;> rw [hr2] at hex <;> simp only at hex
  swap
  · simp at hex
  have s8 := writeByte_sent t d7 onewire.ReadScratchpad
  rcases hr3 : d7.writeByte t onewire.ReadScratchpad with ⟨d8, _ | e3⟩ <;>
    rw [hr3] at hex s8 <;> simp only at hex s8
  swap
  · simp at hex
  have s9 := read4Byte_sent t d8
  rcases hr4 : d8.read4Byte t with ⟨d9, x1, _ | e4⟩ <;> rw [hr4] at hex s9 <;>
    simp only at hex s9
  swap
  · simp at hex
  have s10 := read4Byte_sent t d9
  rcases hr5 : d9.read4Byte t with ⟨d10, x2, _ | e5⟩ <;> rw [hr5] at hex s10 <;>
    simp only at hex s10
  swap
  · simp at hex
  have s11 := readByte_sent t d10
  rcases hr6 : d10.readByte t with ⟨d11, x3, _ | e6⟩ <;> rw [hr6] at hex s11 <;>
    simp only at hex s11
  swap
  · simp at hex
  simp only [Prod.mk.injEq, Option.some.injEq] at hex
  obtain ⟨hd, h1, h2, h3⟩ := hex
  subst hd h1 h2 h3
  have s3 := skipRomConvert_sent t d d3 hr1
  have s7 := matchRom_sent t d3 d7 rom hr2
  have hs8 : d8.sent = d.sent ++
        [[0x18, 0x48, 0, 0, 0, 0, 0, 0], [0x18, 0x88, 0xcc, 0, 0, 0, 0, 0],
         [0x18, 0x88, 0x44, 0, 0, 0, 0, 0], [0x18, 0x48, 0, 0, 0, 0, 0, 0],
         [0x18, 0x88, 0x55, 0, 0, 0, 0, 0],
         [0x18, 0x84, rom % 256, rom / 2 ^ 8 % 256, rom / 2 ^ 16 % 256, rom / 2 ^ 24 % 256,
           0, 0],
         [0x18, 0x84, rom / 2 ^ 32 % 256, rom / 2 ^ 40 % 256, rom / 2 ^ 48 % 256,
           rom / 2 ^ 56 % 256, 0, 0],
         [0x18, 0x88, 0xbe, 0, 0, 0, 0, 0]] := by
    rw [s8, s7, s3]
    simp [onewire.ReadScratchpad]
  obtain ⟨e1, lt1⟩ := read4Byte_ok t d8 d9 x1 hr4
  obtain ⟨e2, lt2⟩ := read4Byte_ok t d9 d10 x2 hr5
  obtain ⟨e3, lt3⟩ := readByte_ok t d10 d11 x3 hr6
  refine ⟨?_, d8, d9, d10, hs8, hr4, hr5, hr6, ?_⟩
  · rw [s11, s10, s9, hs8]
    simp
  · unfold GetTemperature.scratchpad
    rw [e1, e2, word_bytes _ _ _ _ (lt1 2) (lt1 3) (lt1 4) (lt1 5),
      word_bytes _ _ _ _ (lt2 2) (lt2 3) (lt2 4) (lt2 5), e3, Nat.mod_eq_of_lt (lt3 2)]
    rfl

set_option maxRecDepth 100000 in
theorem getTemperature_command_sequence_witness :
    (GetTemperature.exchange sim.thermometer
        (sim.sensorSession [0x91, 0x01, 0x4b, 0x46, 0x7f, 0xff, 0x0c, 0x10, 0x70])
        0x1e00000000000028).2 = some (0x464b0191, 0x100cff7f, 0x70) ∧
    (GetTemperature.exchange sim.thermometer
        (sim.sensorSession [0x91, 0x01, 0x4b, 0x46, 0x7f, 0xff, 0x0c, 0x10, 0x70])
        0x1e00000000000028).1.sent =
      (sim.sensorSession [0x91, 0x01, 0x4b, 0x46, 0x7f, 0xff, 0x0c, 0x10, 0x70]).sent ++
      [[0x18, 0x48, 0, 0, 0, 0, 0, 0], [0x18, 0x88, 0xcc, 0, 0, 0, 0, 0],
       [0x18, 0x88, 0x44, 0, 0, 0, 0, 0], [0x18, 0x48, 0, 0, 0, 0, 0, 0],
       [0x18, 0x88, 0x55, 0, 0, 0, 0, 0],
       [0x18, 0x84, 0x1e00000000000028 % 256, 0x1e00000000000028 / 2 ^ 8 % 256,
         0x1e00000000000028 / 2 ^ 16 % 256, 0x1e00000000000028 / 2 ^ 24 % 256, 0, 0],
       [0x18, 0x84, 0x1e00000000000028 / 2 ^ 32 % 256, 0x1e00000000000028 / 2 ^ 40 % 256,
         0x1e00000000000028 / 2 ^ 48 % 256, 0x1e00000000000028 / 2 ^ 56 % 256, 0, 0],
       [0x18, 0x88, 0xbe, 0, 0, 0, 0, 0], [0x18, 0x84, 0xff, 0xff, 0xff, 0xff, 0, 0],
       [0x18, 0x84, 0xff, 0xff, 0xff, 0xff, 0, 0], [0x18, 0x88, 0xff, 0, 0, 0, 0, 0]] :=
  ⟨by decide,
    (getTemperature_command_sequence sim.thermometer
      (sim.sensorSession [0x91, 0x01, 0x4b, 0x46, 0x7f, 0xff, 0x0c, 0x10, 0x70])
      0x1e00000000000028 0x464b0191 0x100cff7f 0x70 (by decide)).1⟩

end usb

/-! ## Theorems: the search on any transport -/

namespace usb

/-- What one bit step does to the variables of `searchRom`: position `i` may be
flagged, with the address so far recorded for it, only when `portLast` is below `i`
and bit 0 is taken; the address changes only by adding bit `i`; and `ok` stays set
only when the `read2Bit` of the step returned a nil error. -/
theorem bitStep_summary {σ : Type} (t : Transport σ) (rn pl : Nat)
    (s : Device σ × SearchVars) (i : Nat) :
    ∃ newColl addRom : Bool,
      (searchRom.bitStep t rn pl s i).2.cl = (if newColl then s.2.cl.set i true else s.2.cl) ∧
      (searchRom.bitStep t rn pl s i).2.rl =
        (if newColl then s.2.rl.set i s.2.rom else s.2.rl) ∧
      (searchRom.bitStep t rn pl s i).2.rom =
        (if addRom then (s.2.rom + (1 <<< i) % 2 ^ 64) % 2 ^ 64 else s.2.rom) ∧
      (newColl = true → pl % 2 ^ 32 < i % 2 ^ 32 ∧ addRom = false) ∧
      ((searchRom.bitStep t rn pl s i).2.ok = true →
        s.2.ok = true ∧ (searchRom.bitStep t rn pl s i).2.err = none) := by
  rcases s with ⟨d, v⟩
  simp only
  unfold searchRom.bitStep
  by_cases hv : v.ok = true
  · simp only [hv, if_true]
    rcases d.read2Bit t with ⟨d1, bit, _ | e⟩
    · simp only
      split
      · by_cases hc : pl % 2 ^ 32 < i % 2 ^ 32
        · simp only [hc, if_true]
          rcases d1.writeBit t 0 with ⟨d2, _ | e2⟩
          · exact ⟨true, false, by simp⟩
          · exact ⟨true, false, by simp [hc]⟩
        · simp only [hc, if_false]
          rcases d1.writeBit t ((rn >>> i &&& 1) % 256) with ⟨d2, _ | e2⟩
          · simp only
            by_cases hb : (rn >>> i &&& 1) % 256 = 1
            · rw [if_pos hb]
              exact ⟨false, true, by simp⟩
            · rw [if_neg hb]
              exact ⟨false, false, by simp⟩
          · exact ⟨false, false, by simp⟩
      · rcases d1.writeBit t 1 with ⟨d2, _ | e2⟩
        · exact ⟨false, true, by simp⟩
        · exact ⟨false, false, by simp⟩
      · rcases d1.writeBit t 0 with ⟨d2, _ | e2⟩
        · exact ⟨false, false, by simp⟩
        · exact ⟨false, false, by simp⟩
      · exact ⟨false, false, by simp⟩
    · exact ⟨false, false, by simp⟩
  · exact ⟨false, false, by simp [hv]⟩

end usb

namespace usb

theorem check_fields (v : SearchVars) :
    (searchRom.check v).cl = v.cl ∧ (searchRom.check v).rl = v.rl ∧
    (searchRom.check v).rom = v.rom ∧ (searchRom.check v).err = v.err ∧
    ((searchRom.check v).ok = true →
      v.ok = true ∧ v.rom ≠ 0 ∧ (searchRom.crcLoop v.rom).2 = true) := by
  unfold searchRom.check
  by_cases h0 : v.rom = 0
  · simp [h0]
  · by_cases hv : v.ok = true
    · simp [h0, hv]
    · simp [h0, hv]

/-- An attempt either ends early and leaves the variables as they were, or runs the 64
bit steps from the variables with `ok` set and then the zero and checksum tests. -/
theorem attempt_vars {σ : Type} (t : Transport σ) (rn pl : Nat) (s : Device σ × SearchVars) :
    (searchRom.attempt t rn pl s).2 = s.2 ∨
    ∃ d2, (searchRom.attempt t rn pl s).2 = searchRom.check
      ((List.range RomPorts).foldl (searchRom.bitStep t rn pl) (d2, { s.2 with ok := true })).2 := by
  unfold searchRom.attempt
  rcases s.1.reset t with ⟨d1, _ | e1⟩
  · simp only
    rcases d1.writeByte t onewire.SearchRom with ⟨d2, _ | e2⟩
    · simp only
      exact Or.inr ⟨d2, rfl⟩
    · simp only
      exact Or.inl trivial
  · simp only
    exact Or.inl trivial

/-- The flags set by the first `n` bit steps lie above `portLast` and below `n`. -/
theorem foldl_bitStep_cl {σ : Type} (t : Transport σ) (rn pl : Nat) (d : Device σ)
    (v : SearchVars) (n : Nat) (hn : n ≤ 64) (j : Nat)
    (h : ((List.range n).foldl (searchRom.bitStep t rn pl) (d, v)).2.cl.getD j false = true) :
    v.cl.getD j false = true ∨ (pl % 2 ^ 32 < j ∧ j < n) := by
  induction n with
  | zero => exact Or.inl h
  | succ n ih =>
    rw [List.range_succ, List.foldl_append] at h
    simp only [List.foldl_cons, List.foldl_nil] at h
    obtain ⟨newColl, addRom, hcl, _, _, hnew, _⟩ := bitStep_summary t rn pl
      ((List.range n).foldl (searchRom.bitStep t rn pl) (d, v)) n
    rw [hcl] at h
    cases newColl with
    | false =>
      simp only [Bool.false_eq_true, if_false] at h
      rcases ih (by omega) h with h1 | h1
      · exact Or.inl h1
      · exact Or.inr ⟨h1.1, by omega⟩
    | true =>
      simp only [if_true] at h
      by_cases hj : n = j
      · subst hj
        have := (hnew rfl).1
        rw [Nat.mod_eq_of_lt (show n < 2 ^ 32 by omega)] at this
        exact Or.inr ⟨this, by omega⟩
      · rw [sim.getD_set_ne _ _ _ _ _ hj] at h
        rcases ih (by omega) h with h1 | h1
        · exact Or.inl h1
        · exact Or.inr ⟨h1.1, by omega⟩

/-- After 64 bit steps `ok` is set only when the last `read2Bit` returned a nil
error. -/
theorem foldl_bitStep_ok_err {σ : Type} (t : Transport σ) (rn pl : Nat)
    (s : Device σ × SearchVars)
    (h : ((List.range RomPorts).foldl (searchRom.bitStep t rn pl) s).2.ok = true) :
    ((List.range RomPorts).foldl (searchRom.bitStep t rn pl) s).2.err = none := by
  have hr : List.range RomPorts = List.range 63 ++ [63] := List.range_succ 63
  rw [hr, List.foldl_append] at h ⊢
  simp only [List.foldl_cons, List.foldl_nil] at h ⊢
  obtain ⟨_, _, _, _, _, _, hok⟩ := bitStep_summary t rn pl
    ((List.range 63).foldl (searchRom.bitStep t rn pl) s) 63
  exact (hok h).2

/-- Invariant of the loop of attempts: a property of the flags that holds at the start,
is kept by setting a flag above `portLast` and below 64, holds at the end. -/
theorem attempts_cl {σ : Type} (t : Transport σ) (rn pl k : Nat) (s : Device σ × SearchVars)
    (hs : ∀ j, s.2.cl.getD j false = true → pl % 2 ^ 32 < j ∧ j < 64) (j : Nat)
    (h : (searchRom.attempts t rn pl k s).2.cl.getD j false = true) :
    pl % 2 ^ 32 < j ∧ j < 64 := by
  induction k generalizing s with
  | zero => exact hs j h
  | succ k ih =>
    rw [searchRom.attempts] at h
    by_cases hok : s.2.ok = true
    · rw [if_pos hok] at h
      exact hs j h
    · rw [if_neg hok] at h
      refine ih (searchRom.attempt t rn pl s) ?_ h
      intro j1 hj1
      rcases attempt_vars t rn pl s with hv | ⟨d2, hv⟩
      · rw [hv] at hj1
        exact hs j1 hj1
      · rw [hv, (check_fields _).1] at hj1
        rcases foldl_bitStep_cl t rn pl d2 { s.2 with ok := true } RomPorts (by decide) j1 hj1
          with h1 | h1
        · exact hs j1 h1
        · exact h1

/-- When the loop of attempts, started with `ok` clear, ends with `ok` set, the
address is non-zero and passes the checksum loop, and `err` is nil. -/
theorem attempts_ok_valid {σ : Type} (t : Transport σ) (rn pl k : Nat)
    (s : Device σ × SearchVars) (hs : s.2.ok = false)
    (h : (searchRom.attempts t rn pl k s).2.ok = true) :
    (searchRom.attempts t rn pl k s).2.err = none ∧
    (searchRom.attempts t rn pl k s).2.rom ≠ 0 ∧
    (searchRom.crcLoop (searchRom.attempts t rn pl k s).2.rom).2 = true := by
  induction k generalizing s with
  | zero =>
    rw [searchRom.attempts] at h
    rw [hs] at h
    exact absurd h (by decide)
  | succ k ih =>
    rw [searchRom.attempts] at h ⊢
    simp only [hs, Bool.false_eq_true, if_false] at h ⊢
    by_cases hok : (searchRom.attempt t rn pl s).2.ok = true
    · rw [sim.attempts_of_ok t rn pl k _ hok]
      rcases attempt_vars t rn pl s with hv | ⟨d2, hv⟩
      · rw [hv, hs] at hok
        exact absurd hok (by decide)
      · rw [hv] at hok ⊢
        obtain ⟨_, _, hrom, herr, hchk⟩ := check_fields
          ((List.range RomPorts).foldl (searchRom.bitStep t rn pl) (d2, { s.2 with ok := true })).2
        obtain ⟨h1, h2, h3⟩ := hchk hok
        rw [hrom, herr]
        exact ⟨foldl_bitStep_ok_err t rn pl _ h1, h2, h3⟩
    · exact ih _ (by simpa using hok) h

end usb

namespace usb

/-- A property of addresses that holds for the addresses of every recursive call and
for the addresses collected so far holds for the addresses collected by the loop over
the flagged positions. -/
theorem branches_all {σ : Type}
    (search : Device σ → Nat → Nat → Option (Device σ × List Nat × Option Error))
    (v : SearchVars) (P : Nat → Prop)
    (hs : ∀ d rn pl r, search d rn pl = some r → ∀ x, x ∈ r.2.1 → P x)
    (is : List Nat) (acc : Option (Device σ × List Nat))
    (hacc : ∀ p, acc = some p → ∀ x, x ∈ p.2 → P x) :
    ∀ p, is.foldl (searchRom.branch search v) acc = some p → ∀ x, x ∈ p.2 → P x := by
  induction is generalizing acc with
  | nil => simpa using hacc
  | cons i is ih =>
    rw [List.foldl_cons]
    apply ih
    intro p hp x hx
    unfold searchRom.branch at hp
    rcases acc with _ | ⟨d, roms⟩
    · simp at hp
    · simp only at hp
      by_cases hcl : v.cl.getD i false = true
      · rw [if_pos hcl] at hp
        rcases hr : search d ((v.rl.getD i 0 ||| (1 <<< i)) % 2 ^ 64) (i % 2 ^ 32)
          with _ | ⟨d1, r, _ | e⟩ <;> rw [hr] at hp <;> simp only at hp
        · simp at hp
        · simp only [Option.some.injEq] at hp
          subst hp
          rcases List.mem_append.1 hx with hx | hx
          · exact hacc _ rfl x hx
          · exact hs _ _ _ _ hr x hx
        · simp only [Option.some.injEq] at hp
          subst hp
          exact hacc _ rfl x hx
      · rw [if_neg hcl] at hp
        exact hacc _ hp x hx

/-- The loop over the flagged positions calls `search` only at flagged positions: two
functions that agree there give the same loop. -/
theorem branches_congr {σ : Type}
    (s1 s2 : Device σ → Nat → Nat → Option (Device σ × List Nat × Option Error))
    (v : SearchVars) (is : List Nat) (acc : Option (Device σ × List Nat))
    (h : ∀ i, i ∈ is → v.cl.getD i false = true → ∀ d rn, s1 d rn (i % 2 ^ 32) = s2 d rn (i % 2 ^ 32)) :
    is.foldl (searchRom.branch s1 v) acc = is.foldl (searchRom.branch s2 v) acc := by
  apply List.foldl_ext
  intro a i hi
  unfold searchRom.branch
  rcases a with _ | ⟨d, roms⟩
  · rfl
  · simp only
    by_cases hcl : v.cl.getD i false = true
    · rw [if_pos hcl, if_pos hcl, h i hi hcl]
    · rw [if_neg hcl, if_neg hcl]

/-- The flags with which `searchRom` leaves its loop of attempts lie above `portLast`
and below 64. -/
theorem attempts_init_cl {σ : Type} (t : Transport σ) (rn pl : Nat) (d : Device σ) (j : Nat)
    (h : (searchRom.attempts t rn pl Retries
      (d, ⟨false, List.replicate RomPorts false, List.replicate RomPorts 0, 0, 0, none⟩)).2.cl.getD
        j false = true) :
    pl % 2 ^ 32 < j ∧ j < 64 := by
  refine attempts_cl t rn pl Retries _ ?_ j h
  intro j1 hj1
  exfalso
  simp only [List.getD_eq_getElem?_getD, List.getElem?_replicate] at hj1
  split at hj1 <;> simp at hj1

/-- The body of `searchRom` calls `search` only with a `portLast` argument above its
own and below 64. -/
theorem body_congr {σ : Type} (t : Transport σ)
    (s1 s2 : Device σ → Nat → Nat → Option (Device σ × List Nat × Option Error))
    (d : Device σ) (rn pl : Nat)
    (h : ∀ i, pl % 2 ^ 32 < i → i < 64 → ∀ d1 rn1, s1 d1 rn1 i = s2 d1 rn1 i) :
    searchRom.body t s1 d rn pl = searchRom.body t s2 d rn pl := by
  unfold searchRom.body
  simp only
  rw [branches_congr s1 s2]
  intro i _ hcl d1 rn1
  obtain ⟨h1, h2⟩ := attempts_init_cl t rn pl d i hcl
  rw [Nat.mod_eq_of_lt (show i < 2 ^ 32 by omega)]
  exact h i h1 h2 d1 rn1

/-- The result of `searchRom` is the same for every recursion bound that covers the
positions above `portLast`. -/
theorem searchRom_fuel {σ : Type} (t : Transport σ) (f1 f2 : Nat) (d : Device σ) (rn pl : Nat)
    (h1 : 0 < f1) (h1p : 64 ≤ f1 + pl % 2 ^ 32) (h2 : 0 < f2) (h2p : 64 ≤ f2 + pl % 2 ^ 32) :
    d.searchRom t f1 rn pl = d.searchRom t f2 rn pl := by
  induction f1 generalizing f2 d rn pl with
  | zero => omega
  | succ a ih =>
    cases f2 with
    | zero => omega
    | succ b =>
      show searchRom.body t (Device.searchRom t a) d rn pl =
        searchRom.body t (Device.searchRom t b) d rn pl
      apply body_congr
      intro i hi1 hi2 d1 rn1
      have hi : i % 2 ^ 32 = i := Nat.mod_eq_of_lt (by omega)
      exact ih b d1 rn1 i (by omega) (by omega) (by omega) (by omega)

/-- The loop over the flagged positions ends with a result when every call does. -/
theorem branches_isSome {σ : Type}
    (search : Device σ → Nat → Nat → Option (Device σ × List Nat × Option Error))
    (v : SearchVars) (is : List Nat) (acc : Option (Device σ × List Nat))
    (hacc : acc.isSome = true)
    (h : ∀ i, i ∈ is → v.cl.getD i false = true →
      ∀ d rn, (search d rn (i % 2 ^ 32)).isSome = true) :
    (is.foldl (searchRom.branch search v) acc).isSome = true := by
  induction is generalizing acc with
  | nil => simpa using hacc
  | cons i is ih =>
    rw [List.foldl_cons]
    apply ih
    · unfold searchRom.branch
      rcases acc with _ | ⟨d, roms⟩
      · simp at hacc
      · simp only
        by_cases hcl : v.cl.getD i false = true
        · rw [if_pos hcl]
          have := h i (List.mem_cons_self _ _) hcl d ((v.rl.getD i 0 ||| (1 <<< i)) % 2 ^ 64)
          rcases hr : search d ((v.rl.getD i 0 ||| (1 <<< i)) % 2 ^ 64) (i % 2 ^ 32)
            with _ | ⟨d1, r, _ | e⟩
          · rw [hr] at this
            simp at this
          · rfl
          · rfl
        · rw [if_neg hcl]
          rfl
    · intro j hj
      exact h j (List.mem_cons_of_mem _ hj)

/-- The search returns: a recursion bound that covers the positions above `portLast`
is never used up. -/
theorem searchRom_isSome {σ : Type} (t : Transport σ) (fuel : Nat) (d : Device σ) (rn pl : Nat)
    (h1 : 0 < fuel) (h2 : 64 ≤ fuel + pl % 2 ^ 32) :
    (d.searchRom t fuel rn pl).isSome = true := by
  induction fuel generalizing d rn pl with
  | zero => omega
  | succ a ih =>
    show (searchRom.body t (Device.searchRom t a) d rn pl).isSome = true
    unfold searchRom.body
    simp only
    split
    · rfl
    · have hb := branches_isSome (Device.searchRom t a)
        (searchRom.attempts t rn pl Retries
          (d, ⟨false, List.replicate RomPorts false, List.replicate RomPorts 0, 0, 0, none⟩)).2
        (List.range RomPorts)
        (some ((searchRom.attempts t rn pl Retries
          (d, ⟨false, List.replicate RomPorts false, List.replicate RomPorts 0, 0, 0, none⟩)).1,
          [(searchRom.attempts t rn pl Retries
          (d, ⟨false, List.replicate RomPorts false, List.replicate RomPorts 0, 0, 0,
            none⟩)).2.rom])) rfl
        (by
          intro i _ hcl d1 rn1
          obtain ⟨h3, h4⟩ := attempts_init_cl t rn pl d i hcl
          have hi : i % 2 ^ 32 = i := Nat.mod_eq_of_lt (by omega)
          rw [hi]
          exact ih d1 rn1 i (by omega) (by omega))
      revert hb
      generalize (List.range RomPorts).foldl _ _ = res
      intro hb
      rcases res with _ | ⟨d1, roms⟩
      · simp at hb
      · rfl

end usb

namespace usb

/-- Every address returned by `searchRom` is non-zero and passed the checksum loop. -/
theorem searchRom_mem_checked {σ : Type} (t : Transport σ) (fuel : Nat) :
    ∀ (d : Device σ) (rn pl : Nat) (r : Device σ × List Nat × Option Error),
      d.searchRom t fuel rn pl = some r →
      ∀ x, x ∈ r.2.1 → x ≠ 0 ∧ (searchRom.crcLoop x).2 = true := by
  induction fuel with
  | zero =>
    intro d rn pl r h
    simp [Device.searchRom] at h
  | succ a ih =>
    intro d rn pl r h
    have hb : searchRom.body t (Device.searchRom t a) d rn pl = some r := h
    unfold searchRom.body at hb
    simp only at hb
    by_cases hok : (searchRom.attempts t rn pl Retries
        (d, ⟨false, List.replicate RomPorts false, List.replicate RomPorts 0, 0, 0, none⟩)).2.ok
        = true
    · simp only [hok, Bool.not_true, Bool.false_eq_true, if_false] at hb
      obtain ⟨_, hrom, hcrc⟩ := attempts_ok_valid t rn pl Retries _ rfl hok
      have hall := branches_all (Device.searchRom t a)
        (searchRom.attempts t rn pl Retries
          (d, ⟨false, List.replicate RomPorts false, List.replicate RomPorts 0, 0, 0, none⟩)).2
        (fun x => x ≠ 0 ∧ (searchRom.crcLoop x).2 = true) ih (List.range RomPorts)
        (some ((searchRom.attempts t rn pl Retries
          (d, ⟨false, List.replicate RomPorts false, List.replicate RomPorts 0, 0, 0, none⟩)).1,
          [(searchRom.attempts t rn pl Retries
          (d, ⟨false, List.replicate RomPorts false, List.replicate RomPorts 0, 0, 0,
            none⟩)).2.rom]))
        (by
          intro p hp x hx
          simp only [Option.some.injEq] at hp
          subst hp
          simp only [List.mem_singleton] at hx
          subst hx
          exact ⟨hrom, hcrc⟩)
      revert hb hall
      generalize (List.range RomPorts).foldl _ _ = res
      intro hb hall
      rcases res with _ | ⟨d1, roms⟩
      · simp at hb
      · simp only [Option.some.injEq] at hb
        subst hb
        exact hall _ rfl
    · simp only [hok, Bool.not_false, if_true, Option.some.injEq] at hb
      subst hb
      intro x hx
      simp at hx

/-- C15. For every transport, whatever its transfers return, every address in the
result of `searchRom` (for every recursion bound, `romNext` and `portLast`) and in the
result of `GetSensors` is non-zero, and folding `Crc8` from 0 over its eight bytes,
least significant byte first, gives 0. -/
theorem search_results_valid {σ : Type} (t : Transport σ) :
    (∀ (fuel : Nat) (d : Device σ) (rn pl : Nat) (roms : List Nat) (x : Nat),
      ((d.searchRom t fuel rn pl).map fun r => r.2.1) = some roms → x ∈ roms →
        x ≠ 0 ∧ onewire.foldCrc8 (sim.romBytes x) = 0) ∧
    (∀ (d : Device σ) (roms : List Nat) (x : Nat),
      ((d.GetSensors t).map fun r => r.2.1) = some roms → x ∈ roms →
        x ≠ 0 ∧ onewire.foldCrc8 (sim.romBytes x) = 0) := by
  have key : ∀ (fuel : Nat) (d : Device σ) (rn pl : Nat) (roms : List Nat) (x : Nat),
      ((d.searchRom t fuel rn pl).map fun r => r.2.1) = some roms → x ∈ roms →
        x ≠ 0 ∧ onewire.foldCrc8 (sim.romBytes x) = 0 := by
    intro fuel d rn pl roms x h hx
    rcases hr : d.searchRom t fuel rn pl with _ | r
    · rw [hr] at h
      simp at h
    · rw [hr] at h
      simp only [Option.map_some', Option.some.injEq] at h
      subst h
      obtain ⟨h0, hc⟩ := searchRom_mem_checked t fuel d rn pl r hr x hx
      refine ⟨h0, ?_⟩
      rw [sim.crcLoop_eq_crcValid] at hc
      simpa [sim.crcValid] using hc
  exact ⟨key, fun d roms x h hx => key (RomPorts + 1) d 0 0 roms x h hx⟩

set_option maxRecDepth 100000 in
theorem search_results_valid_witness :
    ((((sim.session [0x1e00000000000028, 0xcc00000000000110]).GetSensors sim.faithful).map
        fun r => r.2.1) = some [0xcc00000000000110, 0x1e00000000000028] ∧
      0x1e00000000000028 ∈ [0xcc00000000000110, 0x1e00000000000028]) ∧
    (0x1e00000000000028 ≠ 0 ∧ onewire.foldCrc8 (sim.romBytes 0x1e00000000000028) = 0) :=
  ⟨⟨by decide, by decide⟩,
    (search_results_valid sim.faithful).2
      (sim.session [0x1e00000000000028, 0xcc00000000000110])
      [0xcc00000000000110, 0x1e00000000000028] 0x1e00000000000028 (by decide) (by decide)⟩

end usb

namespace usb

/-- The loop of the code over the flagged positions collects what the specification's
description of the branches collects, after the addresses it started with. -/
theorem branches_eq_spec {σ : Type}
    (search : Device σ → Nat → Nat → Option (Device σ × List Nat × Option Error))
    (v : SearchVars) (is : List Nat) (d : Device σ) (roms : List Nat) :
    is.foldl (searchRom.branch search v) (some (d, roms)) =
      (searchRom.specBranches search v is d).map fun p => (p.1, roms ++ p.2) := by
  induction is generalizing d roms with
  | nil => simp [searchRom.specBranches]
  | cons i is ih =>
    rw [List.foldl_cons, searchRom.specBranches]
    have hnone : ∀ l : List Nat,
        l.foldl (searchRom.branch search v) (none : Option (Device σ × List Nat)) = none := by
      intro l
      induction l with
      | nil => rfl
      | cons j l ihl => rw [List.foldl_cons]; exact ihl
    unfold searchRom.branch
    simp only
    by_cases hcl : v.cl.getD i false = true
    · rw [if_pos hcl, if_pos hcl]
      rcases search d ((v.rl.getD i 0 ||| (1 <<< i)) % 2 ^ 64) (i % 2 ^ 32)
        with _ | ⟨d1, r, _ | e⟩
      · simp only [Option.map_none']
        exact hnone is
      · simp only
        have h := ih d1 (roms ++ r)
        unfold searchRom.branch at h
        rw [h]
        rcases searchRom.specBranches search v is d1 with _ | ⟨d2, rest⟩
        · rfl
        · simp
      · simp only
        have h := ih d1 roms
        unfold searchRom.branch at h
        rw [h]
        rcases searchRom.specBranches search v is d1 with _ | ⟨d2, rest⟩
        · rfl
        · simp
    · rw [if_neg hcl, if_neg hcl]
      have h := ih d roms
      unfold searchRom.branch at h
      exact h

/-- C13. A `searchRom` invocation whose loop of attempts ends with `ok` set returns a
nil error and its own address followed by what the collision branches contribute in
the specification's description (`searchRom.specBranches`): the flagged positions in
increasing order, all addresses of a recursive call that returned a nil error, none of
a recursive call that returned an error, whose error is dropped. With a recursion
bound that covers the positions above `portLast` the invocation returns such a
result. -/
theorem searchRom_drops_failed_branches {σ : Type} (t : Transport σ) (fuel : Nat)
    (d : Device σ) (rn pl : Nat)
    (hok : (searchRom.attempts t rn pl Retries
      (d, ⟨false, List.replicate RomPorts false, List.replicate RomPorts 0, 0, 0, none⟩)).2.ok
        = true) :
    d.searchRom t (fuel + 1) rn pl =
      ((searchRom.specBranches (Device.searchRom t fuel)
        (searchRom.attempts t rn pl Retries
          (d, ⟨false, List.replicate RomPorts false, List.replicate RomPorts 0, 0, 0, none⟩)).2
        (List.range RomPorts)
        (searchRom.attempts t rn pl Retries
          (d, ⟨false, List.replicate RomPorts false, List.replicate RomPorts 0, 0, 0,
            none⟩)).1).map
        fun p => (p.1, (searchRom.attempts t rn pl Retries
          (d, ⟨false, List.replicate RomPorts false, List.replicate RomPorts 0, 0, 0,
            none⟩)).2.rom :: p.2, none)) ∧
    (64 ≤ fuel + 1 + pl % 2 ^ 32 →
      ∃ dn rest,
        d.searchRom t (fuel + 1) rn pl = some (dn, (searchRom.attempts t rn pl Retries
          (d, ⟨false, List.replicate RomPorts false, List.replicate RomPorts 0, 0, 0,
            none⟩)).2.rom :: rest, none) ∧
        searchRom.specBranches (Device.searchRom t fuel)
          (searchRom.attempts t rn pl Retries
            (d, ⟨false, List.replicate RomPorts false, List.replicate RomPorts 0, 0, 0,
              none⟩)).2
          (List.range RomPorts)
          (searchRom.attempts t rn pl Retries
            (d, ⟨false, List.replicate RomPorts false, List.replicate RomPorts 0, 0, 0,
              none⟩)).1 = some (dn, rest)) := by
  have herr := (attempts_ok_valid t rn pl Retries _ rfl hok).1
  have heq : d.searchRom t (fuel + 1) rn pl =
      ((searchRom.specBranches (Device.searchRom t fuel)
        (searchRom.attempts t rn pl Retries
          (d, ⟨false, List.replicate RomPorts false, List.replicate RomPorts 0, 0, 0, none⟩)).2
        (List.range RomPorts)
        (searchRom.attempts t rn pl Retries
          (d, ⟨false, List.replicate RomPorts false, List.replicate RomPorts 0, 0, 0,
            none⟩)).1).map
        fun p => (p.1, (searchRom.attempts t rn pl Retries
          (d, ⟨false, List.replicate RomPorts false, List.replicate RomPorts 0, 0, 0,
            none⟩)).2.rom :: p.2, none)) := by
    show searchRom.body t (Device.searchRom t fuel) d rn pl = _
    unfold searchRom.body
    simp only [hok, herr, Bool.not_true, Bool.false_eq_true, if_false]
    rw [branches_eq_spec]
    generalize searchRom.specBranches _ _ _ _ = res
    rcases res with _ | ⟨d2, rest⟩
    · rfl
    · rfl
  refine ⟨heq, fun hfuel => ?_⟩
  have hsome := searchRom_isSome t (fuel + 1) d rn pl (by omega) hfuel
  rw [heq] at hsome ⊢
  revert hsome
  generalize searchRom.specBranches _ _ _ _ = res
  intro hsome
  rcases res with _ | ⟨d2, rest⟩
  · simp at hsome
  · exact ⟨d2, rest, rfl, rfl⟩

set_option maxRecDepth 100000 in
theorem searchRom_drops_failed_branches_witness :
    (searchRom.attempts sim.faithful 0 0 Retries
      (sim.session [0x1e00000000000028, 0xcc00000000000110],
        ⟨false, List.replicate RomPorts false, List.replicate RomPorts 0, 0, 0, none⟩)).2.ok
      = true ∧
    (sim.session [0x1e00000000000028, 0xcc00000000000110]).searchRom sim.faithful (64 + 1) 0 0 =
      ((searchRom.specBranches (Device.searchRom sim.faithful 64)
        (searchRom.attempts sim.faithful 0 0 Retries
          (sim.session [0x1e00000000000028, 0xcc00000000000110],
            ⟨false, List.replicate RomPorts false, List.replicate RomPorts 0, 0, 0, none⟩)).2
        (List.range RomPorts)
        (searchRom.attempts sim.faithful 0 0 Retries
          (sim.session [0x1e00000000000028, 0xcc00000000000110],
            ⟨false, List.replicate RomPorts false, List.replicate RomPorts 0, 0, 0,
              none⟩)).1).map
        fun p => (p.1, (searchRom.attempts sim.faithful 0 0 Retries
          (sim.session [0x1e00000000000028, 0xcc00000000000110],
            ⟨false, List.replicate RomPorts false, List.replicate RomPorts 0, 0, 0,
              none⟩)).2.rom :: p.2, none)) :=
  ⟨by decide,
    (searchRom_drops_failed_branches sim.faithful 64
      (sim.session [0x1e00000000000028, 0xcc00000000000110]) 0 0 (by decide)).1⟩

end usb

namespace usb

/-- The outbound buffers of one bit step: nothing, or one `read2Bit`, or one `read2Bit`
and one `writeBit`; no reset. -/
theorem bitStep_sent {σ : Type} (t : Transport σ) (rn pl : Nat) (s : Device σ × SearchVars)
    (i : Nat) :
    ∃ fs, (searchRom.bitStep t rn pl s i).1.sent = s.1.sent ++ fs ∧
      fs.count [0x18, 0x48, 0, 0, 0, 0, 0, 0] = 0 ∧
      fs.count [0x18, 0x82, 1, 1, 0, 0, 0, 0] ≤ 1 := by
  rcases s with ⟨d, v⟩
  unfold searchRom.bitStep
  have fin : ∀ (d1 d2 : Device σ) (b : Nat), d1.sent = d.sent ++ [[0x18, 0x82, 1, 1, 0, 0, 0, 0]] →
      d2.sent = d1.sent ++ [[0x18, 0x81, b % 256 &&& 1, 0, 0, 0, 0, 0]] →
      ∃ fs, d2.sent = d.sent ++ fs ∧ fs.count [0x18, 0x48, 0, 0, 0, 0, 0, 0] = 0 ∧
        fs.count [0x18, 0x82, 1, 1, 0, 0, 0, 0] ≤ 1 := by
    intro d1 d2 b h1 h2
    refine ⟨[[0x18, 0x82, 1, 1, 0, 0, 0, 0], [0x18, 0x81, b % 256 &&& 1, 0, 0, 0, 0, 0]],
      by rw [h2, h1]; simp, by simp, by simp⟩
  by_cases hv : v.ok = true
  · simp only [hv, if_true]
    have s1 := read2Bit_sent t d
    revert s1
    rcases d.read2Bit t with ⟨d1, bit, _ | e⟩ <;> intro s1
    · simp only at s1 ⊢
      split
      · by_cases hc : pl % 2 ^ 32 < i % 2 ^ 32
        · simp only [hc, if_true]
          have s2 := writeBit_sent t d1 0
          revert s2
          rcases d1.writeBit t 0 with ⟨d2, _ | e2⟩ <;> intro s2
          · exact fin d1 d2 0 s1 s2
          · exact fin d1 d2 0 s1 s2
        · simp only [hc, if_false]
          have s2 := writeBit_sent t d1 ((rn >>> i &&& 1) % 256)
          revert s2
          rcases d1.writeBit t ((rn >>> i &&& 1) % 256) with ⟨d2, _ | e2⟩ <;> intro s2
          · simp only
            by_cases hb : (rn >>> i &&& 1) % 256 = 1
            · rw [if_pos hb]
              exact fin d1 d2 _ s1 s2
            · rw [if_neg hb]
              exact fin d1 d2 _ s1 s2
          · exact fin d1 d2 _ s1 s2
      · have s2 := writeBit_sent t d1 1
        revert s2
        rcases d1.writeBit t 1 with ⟨d2, _ | e2⟩ <;> intro s2
        · exact fin d1 d2 1 s1 s2
        · exact fin d1 d2 1 s1 s2
      · have s2 := writeBit_sent t d1 0
        revert s2
        rcases d1.writeBit t 0 with ⟨d2, _ | e2⟩ <;> intro s2
        · exact fin d1 d2 0 s1 s2
        · exact fin d1 d2 0 s1 s2
      · exact ⟨[[0x18, 0x82, 1, 1, 0, 0, 0, 0]], s1, by simp, by simp⟩
    · exact ⟨[[0x18, 0x82, 1, 1, 0, 0, 0, 0]], s1, by simp, by simp⟩
  · simp only [hv]
    exact ⟨[], by simp, by simp, by simp⟩

/-- The outbound buffers of the first `n` bit steps: no reset and at most `n`
`read2Bit` commands. -/
theorem foldl_bitStep_sent {σ : Type} (t : Transport σ) (rn pl : Nat)
    (s : Device σ × SearchVars) (n : Nat) :
    ∃ fs, ((List.range n).foldl (searchRom.bitStep t rn pl) s).1.sent = s.1.sent ++ fs ∧
      fs.count [0x18, 0x48, 0, 0, 0, 0, 0, 0] = 0 ∧
      fs.count [0x18, 0x82, 1, 1, 0, 0, 0, 0] ≤ n := by
  induction n with
  | zero => exact ⟨[], by simp, by simp, by simp⟩
  | succ n ih =>
    obtain ⟨fs, h1, h2, h3⟩ := ih
    obtain ⟨gs, g1, g2, g3⟩ := bitStep_sent t rn pl
      ((List.range n).foldl (searchRom.bitStep t rn pl) s) n
    rw [List.range_succ, List.foldl_append]
    simp only [List.foldl_cons, List.foldl_nil]
    refine ⟨fs ++ gs, by rw [g1, h1, List.append_assoc], ?_, ?_⟩
    · rw [List.count_append, h2, g2]
    · rw [List.count_append]
      omega

/-- The outbound buffers of one attempt: one reset and at most 64 `read2Bit`
commands. -/
theorem attempt_sent {σ : Type} (t : Transport σ) (rn pl : Nat) (s : Device σ × SearchVars) :
    ∃ fs, (searchRom.attempt t rn pl s).1.sent = s.1.sent ++ fs ∧
      fs.count [0x18, 0x48, 0, 0, 0, 0, 0, 0] = 1 ∧
      fs.count [0x18, 0x82, 1, 1, 0, 0, 0, 0] ≤ 64 := by
  unfold searchRom.attempt
  have s1 := reset_sent t s.1
  revert s1
  rcases s.1.reset t with ⟨d1, _ | e1⟩ <;> intro s1
  · simp only at s1 ⊢
    have s2 := writeByte_sent t d1 onewire.SearchRom
    revert s2
    rcases d1.writeByte t onewire.SearchRom with ⟨d2, _ | e2⟩ <;> intro s2
    · simp only at s2 ⊢
      obtain ⟨fs, h1, h2, h3⟩ := foldl_bitStep_sent t rn pl (d2, { s.2 with ok := true }) RomPorts
      refine ⟨[[0x18, 0x48, 0, 0, 0, 0, 0, 0], [0x18, 0x88, onewire.SearchRom % 256, 0, 0, 0, 0, 0]]
        ++ fs, ?_, ?_, ?_⟩
      · rw [h1]
        simp only [s2, s1, List.append_assoc, List.singleton_append, List.cons_append,
          List.nil_append]
      · rw [List.count_append, h2]
        simp [onewire.SearchRom]
      · rw [List.count_append]
        have : [[0x18, 0x48, 0, 0, 0, 0, 0, 0],
            [0x18, 0x88, onewire.SearchRom % 256, 0, 0, 0, 0, 0]].count
            [0x18, 0x82, 1, 1, 0, 0, 0, 0] = 0 := by simp [onewire.SearchRom]
        rw [this]
        exact le_trans (by omega) h3
    · simp only at s2 ⊢
      exact ⟨[[0x18, 0x48, 0, 0, 0, 0, 0, 0], [0x18, 0x88, onewire.SearchRom % 256, 0, 0, 0, 0, 0]],
        by rw [s2, s1]; simp, by simp [onewire.SearchRom], by simp [onewire.SearchRom]⟩
  · simp only at s1 ⊢
    exact ⟨[[0x18, 0x48, 0, 0, 0, 0, 0, 0]], s1, by simp, by simp⟩

/-- The outbound buffers of the loop of attempts with `k` passes to come: at most `k`
resets, and at most 64 `read2Bit` commands for each. -/
theorem attempts_sent {σ : Type} (t : Transport σ) (rn pl k : Nat) (s : Device σ × SearchVars) :
    ∃ fs, (searchRom.attempts t rn pl k s).1.sent = s.1.sent ++ fs ∧
      fs.count [0x18, 0x48, 0, 0, 0, 0, 0, 0] ≤ k ∧
      fs.count [0x18, 0x82, 1, 1, 0, 0, 0, 0] ≤
        64 * fs.count [0x18, 0x48, 0, 0, 0, 0, 0, 0] := by
  induction k generalizing s with
  | zero => exact ⟨[], by simp [searchRom.attempts], by simp, by simp⟩
  | succ k ih =>
    rw [searchRom.attempts]
    by_cases hok : s.2.ok = true
    · rw [if_pos hok]
      exact ⟨[], by simp, by simp, by simp⟩
    · rw [if_neg hok]
      obtain ⟨fs, h1, h2, h3⟩ := attempt_sent t rn pl s
      obtain ⟨gs, g1, g2, g3⟩ := ih (searchRom.attempt t rn pl s)
      refine ⟨fs ++ gs, by rw [g1, h1, List.append_assoc], ?_, ?_⟩
      · rw [List.count_append]
        omega
      · rw [List.count_append, List.count_append]
        omega

end usb

namespace usb

/-- C19. The search terminates on every transport, whatever its transfers return, for
every `romNext` and `portLast` (a `uint32`, read modulo 2^32). A call returns as soon
as the recursion bound covers the positions above `portLast` (64 levels for
`portLast = 0`), with the same result for every such bound, and `GetSensors` returns.
The loop of attempts sends at most 3 resets, one for each attempt, and at most 64
`read2Bit` commands for each attempt. Every recursive call made by the body has a
`portLast` argument above the call's own and at most 63: the body does not look at
`search` elsewhere, and these are the only positions that are flagged. -/
theorem searchRom_terminates {σ : Type} (t : Transport σ) (d : Device σ) (rn pl : Nat) :
    (∀ fuel, 0 < fuel → 64 ≤ fuel + pl % 2 ^ 32 →
      (d.searchRom t fuel rn pl).isSome = true ∧
      d.searchRom t fuel rn pl = d.searchRom t (RomPorts + 1) rn pl) ∧
    (d.GetSensors t).isSome = true ∧
    (∃ fs, (searchRom.attempts t rn pl Retries
        (d, ⟨false, List.replicate RomPorts false, List.replicate RomPorts 0, 0, 0, none⟩)).1.sent
          = d.sent ++ fs ∧
      fs.count [0x18, 0x48, 0, 0, 0, 0, 0, 0] ≤ 3 ∧
      fs.count [0x18, 0x82, 1, 1, 0, 0, 0, 0] ≤ 64 * fs.count [0x18, 0x48, 0, 0, 0, 0, 0, 0]) ∧
    (∀ search : Device σ → Nat → Nat → Option (Device σ × List Nat × Option Error),
      searchRom.body t search d rn pl =
        searchRom.body t
          (fun d1 rn1 pl1 => if pl % 2 ^ 32 < pl1 ∧ pl1 ≤ 63 then search d1 rn1 pl1 else none)
          d rn pl) ∧
    (∀ j, (searchRom.attempts t rn pl Retries
        (d, ⟨false, List.replicate RomPorts false, List.replicate RomPorts 0, 0, 0, none⟩)).2.cl.getD
          j false = true → pl % 2 ^ 32 < j ∧ j ≤ 63) := by
  refine ⟨fun fuel h1 h2 => ⟨searchRom_isSome t fuel d rn pl h1 h2,
      searchRom_fuel t fuel (RomPorts + 1) d rn pl h1 h2 (by decide)
        (by simp only [RomPorts]; omega)⟩,
    searchRom_isSome t (RomPorts + 1) d 0 0 (by decide) (by decide),
    attempts_sent t rn pl Retries _, fun search => ?_, fun j hj => ?_⟩
  · apply body_congr
    intro i h1 h2 d1 rn1
    rw [if_pos ⟨h1, by omega⟩]
  · have := attempts_init_cl t rn pl d j hj
    omega

set_option maxRecDepth 100000 in
theorem searchRom_terminates_witness :
    (0 < 64 ∧ 64 ≤ 64 + 0 % 2 ^ 32) ∧
    ((sim.session [0x1e00000000000028, 0xcc00000000000110]).searchRom sim.faithful 64 0 0).isSome
      = true ∧
    (sim.session [0x1e00000000000028, 0xcc00000000000110]).searchRom sim.faithful 64 0 0 =
      (sim.session [0x1e00000000000028, 0xcc00000000000110]).searchRom sim.faithful
        (RomPorts + 1) 0 0 :=
  ⟨⟨by decide, by decide⟩,
    (searchRom_terminates sim.faithful (sim.session [0x1e00000000000028, 0xcc00000000000110])
      0 0).1 64 (by decide) (by decide)⟩

end usb

/-! ## Theorems: what the search leaves untouched in the transport -/

namespace usb

/-- A quantity of the transport state that no control transfer changes is not changed
by an exchange. -/
theorem usbWriteReadCtl_handle {σ α : Type} (t : Transport σ) (f : σ → α)
    (hout : ∀ h out, f (t.controlOut h out).1 = f h) (hin : ∀ h, f (t.controlIn h).1 = f h)
    (d : Device σ) : f (d.usbWriteReadCtl t).1.handle = f d.handle := by
  unfold Device.usbWriteReadCtl Device.usbWriteCtl Device.usbReadCtl
  rcases ho : t.controlOut d.handle d.outputBuffer with ⟨s, written⟩
  rcases hi : t.controlIn s with ⟨s2, data, read⟩
  have h1 : f s = f d.handle := by
    have := hout d.handle d.outputBuffer
    rw [ho] at this
    exact this
  have h2 : f s2 = f s := by
    have := hin s
    rw [hi] at this
    exact this
  by_cases hw : written = (CmdSize : Int)
  · by_cases hr : read = (CmdSize : Int)
    · simp [hw, hr, hi, h1, h2]
    · simp [hw, hr, hi, h1, h2]
  · simp [hw, h1]

theorem write_shape_handle {σ α : Type} (t : Transport σ) (f : σ → α)
    (hout : ∀ h out, f (t.controlOut h out).1 = f h) (hin : ∀ h, f (t.controlIn h).1 = f h)
    (d : Device σ) :
    f (match d.usbWriteReadCtl t with
      | (d, some e) => (d, some e)
      | (d, none) =>
        match d.compareBuffers with
        | some e => (d, some e)
        | none => (d, none)).1.handle = f d.handle := by
  rw [← usbWriteReadCtl_handle t f hout hin d]
  rcases d.usbWriteReadCtl t with ⟨d1, _ | e⟩
  · simp only
    cases d1.compareBuffers <;> rfl
  · rfl

theorem read_shape_handle {σ α : Type} (t : Transport σ) (f : σ → α)
    (hout : ∀ h out, f (t.controlOut h out).1 = f h) (hin : ∀ h, f (t.controlIn h).1 = f h)
    (d : Device σ) (g : Device σ → Nat) :
    f (match d.usbWriteReadCtl t with
      | (d, some e) => (d, 0, some e)
      | (d, none) =>
        match d.compareBuffersWithDepth 2 with
        | some e => (d, g d, some e)
        | none => (d, g d, none)).1.handle = f d.handle := by
  rw [← usbWriteReadCtl_handle t f hout hin d]
  rcases d.usbWriteReadCtl t with ⟨d1, _ | e⟩
  · simp only
    cases d1.compareBuffersWithDepth 2 <;> rfl
  · rfl

theorem reset_handle {σ α : Type} (t : Transport σ) (f : σ → α)
    (hout : ∀ h out, f (t.controlOut h out).1 = f h) (hin : ∀ h, f (t.controlIn h).1 = f h)
    (d : Device σ) : f (d.reset t).1.handle = f d.handle :=
  write_shape_handle t f hout hin
    { d.clearBuffers with outputBuffer := [0x18, 0x48, 0, 0, 0, 0, 0, 0] }

theorem writeByte_handle {σ α : Type} (t : Transport σ) (f : σ → α)
    (hout : ∀ h out, f (t.controlOut h out).1 = f h) (hin : ∀ h, f (t.controlIn h).1 = f h)
    (d : Device σ) (b : Nat) : f (d.writeByte t b).1.handle = f d.handle :=
  write_shape_handle t f hout hin
    { d.clearBuffers with outputBuffer := [0x18, 0x88, b % 256, 0, 0, 0, 0, 0] }

theorem writeBit_handle {σ α : Type} (t : Transport σ) (f : σ → α)
    (hout : ∀ h out, f (t.controlOut h out).1 = f h) (hin : ∀ h, f (t.controlIn h).1 = f h)
    (d : Device σ) (b : Nat) : f (d.writeBit t b).1.handle = f d.handle :=
  write_shape_handle t f hout hin
    { d.clearBuffers with outputBuffer := [0x18, 0x81, b % 256 &&& 1, 0, 0, 0, 0, 0] }

theorem read2Bit_handle {σ α : Type} (t : Transport σ) (f : σ → α)
    (hout : ∀ h out, f (t.controlOut h out).1 = f h) (hin : ∀ h, f (t.controlIn h).1 = f h)
    (d : Device σ) : f (d.read2Bit t).1.handle = f d.handle :=
  read_shape_handle t f hout hin
    { d.clearBuffers with outputBuffer := [0x18, 0x82, 1, 1, 0, 0, 0, 0] }
    (fun d => (d.inputBuffer.getD 2 0 + (d.inputBuffer.getD 3 0 <<< 1) % 256) % 256)

theorem bitStep_handle {σ α : Type} (t : Transport σ) (f : σ → α)
    (hout : ∀ h out, f (t.controlOut h out).1 = f h) (hin : ∀ h, f (t.controlIn h).1 = f h)
    (rn pl : Nat) (s : Device σ × SearchVars) (i : Nat) :
    f (searchRom.bitStep t rn pl s i).1.handle = f s.1.handle := by
  rcases s with ⟨d, v⟩
  unfold searchRom.bitStep
  by_cases hv : v.ok = true
  · simp only [hv, if_true]
    have s1 := read2Bit_handle t f hout hin d
    revert s1
    rcases d.read2Bit t with ⟨d1, bit, _ | e⟩ <;> intro s1
    · simp only at s1 ⊢
      split
      · by_cases hc : pl % 2 ^ 32 < i % 2 ^ 32
        · simp only [hc, if_true]
          have s2 := writeBit_handle t f hout hin d1 0
          revert s2
          rcases d1.writeBit t 0 with ⟨d2, _ | e2⟩ <;> intro s2
          · exact s2.trans s1
          · exact s2.trans s1
        · simp only [hc, if_false]
          have s2 := writeBit_handle t f hout hin d1 ((rn >>> i &&& 1) % 256)
          revert s2
          rcases d1.writeBit t ((rn >>> i &&& 1) % 256) with ⟨d2, _ | e2⟩ <;> intro s2
          · simp only
            by_cases hb : (rn >>> i &&& 1) % 256 = 1
            · rw [if_pos hb]
              exact s2.trans s1
            · rw [if_neg hb]
              exact s2.trans s1
          · exact s2.trans s1
      · have s2 := writeBit_handle t f hout hin d1 1
        revert s2
        rcases d1.writeBit t 1 with ⟨d2, _ | e2⟩ <;> intro s2
        · exact s2.trans s1
        · exact s2.trans s1
      · have s2 := writeBit_handle t f hout hin d1 0
        revert s2
        rcases d1.writeBit t 0 with ⟨d2, _ | e2⟩ <;> intro s2
        · exact s2.trans s1
        · exact s2.trans s1
      · exact s1
    · exact s1
  · simp only [hv]
    rfl

end usb

namespace usb

theorem foldl_bitStep_handle {σ α : Type} (t : Transport σ) (f : σ → α)
    (hout : ∀ h out, f (t.controlOut h out).1 = f h) (hin : ∀ h, f (t.controlIn h).1 = f h)
    (rn pl : Nat) (is : List Nat) (s : Device σ × SearchVars) :
    f (is.foldl (searchRom.bitStep t rn pl) s).1.handle = f s.1.handle := by
  induction is generalizing s with
  | nil => rfl
  | cons i is ih =>
    rw [List.foldl_cons, ih, bitStep_handle t f hout hin]

theorem attempt_handle {σ α : Type} (t : Transport σ) (f : σ → α)
    (hout : ∀ h out, f (t.controlOut h out).1 = f h) (hin : ∀ h, f (t.controlIn h).1 = f h)
    (rn pl : Nat) (s : Device σ × SearchVars) :
    f (searchRom.attempt t rn pl s).1.handle = f s.1.handle := by
  unfold searchRom.attempt
  have s1 := reset_handle t f hout hin s.1
  revert s1
  rcases s.1.reset t with ⟨d1, _ | e1⟩ <;> intro s1
  · simp only at s1 ⊢
    have s2 := writeByte_handle t f hout hin d1 onewire.SearchRom
    revert s2
    rcases d1.writeByte t onewire.SearchRom with ⟨d2, _ | e2⟩ <;> intro s2
    · simp only at s2 ⊢
      rw [foldl_bitStep_handle t f hout hin]
      exact s2.trans s1
    · exact s2.trans s1
  · exact s1

theorem attempts_handle {σ α : Type} (t : Transport σ) (f : σ → α)
    (hout : ∀ h out, f (t.controlOut h out).1 = f h) (hin : ∀ h, f (t.controlIn h).1 = f h)
    (rn pl k : Nat) (s : Device σ × SearchVars) :
    f (searchRom.attempts t rn pl k s).1.handle = f s.1.handle := by
  induction k generalizing s with
  | zero => rfl
  | succ k ih =>
    rw [searchRom.attempts]
    by_cases hok : s.2.ok = true
    · rw [if_pos hok]
    · rw [if_neg hok, ih, attempt_handle t f hout hin]

/-- An invariant of the device and a property of the addresses that every recursive
call keeps, when called with an argument as the loop passes it, are kept by the loop
over the flagged positions. -/
theorem branches_inv {σ : Type}
    (search : Device σ → Nat → Nat → Option (Device σ × List Nat × Option Error))
    (v : SearchVars) (I : Device σ → Prop) (P : Nat → Prop) (Q : Nat → Prop)
    (hs : ∀ d rn pl r, I d → Q rn → search d rn pl = some r → I r.1 ∧ ∀ x, x ∈ r.2.1 → P x)
    (is : List Nat)
    (hq : ∀ i, i ∈ is → v.cl.getD i false = true → Q ((v.rl.getD i 0 ||| (1 <<< i)) % 2 ^ 64))
    (acc : Option (Device σ × List Nat))
    (hacc : ∀ p, acc = some p → I p.1 ∧ ∀ x, x ∈ p.2 → P x) :
    ∀ p, is.foldl (searchRom.branch search v) acc = some p → I p.1 ∧ ∀ x, x ∈ p.2 → P x := by
  induction is generalizing acc with
  | nil => simpa using hacc
  | cons i is ih =>
    rw [List.foldl_cons]
    apply ih (fun j hj => hq j (List.mem_cons_of_mem _ hj))
    intro p hp
    unfold searchRom.branch at hp
    rcases acc with _ | ⟨d, roms⟩
    · simp at hp
    · simp only at hp
      obtain ⟨hI, hP⟩ := hacc _ rfl
      by_cases hcl : v.cl.getD i false = true
      · rw [if_pos hcl] at hp
        have hQ := hq i (List.mem_cons_self _ _) hcl
        rcases hr : search d ((v.rl.getD i 0 ||| (1 <<< i)) % 2 ^ 64) (i % 2 ^ 32)
          with _ | ⟨d1, r, _ | e⟩ <;> rw [hr] at hp <;> simp only at hp
        · simp at hp
        · simp only [Option.some.injEq] at hp
          subst hp
          obtain ⟨hI1, hP1⟩ := hs _ _ _ _ hI hQ hr
          refine ⟨hI1, fun x hx => ?_⟩
          rcases List.mem_append.1 hx with hx | hx
          · exact hP x hx
          · exact hP1 x hx
        · simp only [Option.some.injEq] at hp
          subst hp
          exact ⟨(hs _ _ _ _ hI hQ hr).1, hP⟩
      · rw [if_neg hcl] at hp
        simp only [Option.some.injEq] at hp
        subst hp
        exact ⟨hI, hP⟩

theorem getD_set_cases {α : Type} (l : List α) (i j : Nat) (x y : α) :
    (l.set i x).getD j y = x ∨ (l.set i x).getD j y = l.getD j y := by
  by_cases h : i = j
  · subst h
    by_cases hl : i < l.length
    · exact Or.inl (sim.getD_set_self l i x y hl)
    · right
      simp only [List.getD_eq_getElem?_getD, List.getElem?_set]
      simp [hl, List.getElem?_eq_none (Nat.le_of_not_lt hl)]
  · exact Or.inr (sim.getD_set_ne l i j x y h)

theorem even_add_bit (rom i : Nat) (h : rom % 2 = 0) (hi : 1 ≤ i) :
    ((rom + (1 <<< i) % 2 ^ 64) % 2 ^ 64) % 2 = 0 := by
  obtain ⟨k, rfl⟩ : ∃ k, i = k + 1 := ⟨i - 1, by omega⟩
  rw [Nat.one_shiftLeft, pow_succ]
  generalize 2 ^ k = m
  omega

theorem even_or_bit (a i : Nat) (h : a % 2 = 0) (hi : 1 ≤ i) :
    ((a ||| (1 <<< i)) % 2 ^ 64) % 2 = 0 := by
  obtain ⟨k, rfl⟩ : ∃ k, i = k + 1 := ⟨i - 1, by omega⟩
  have hb : (1 <<< (k + 1)) % 2 = 0 := by
    rw [Nat.one_shiftLeft, pow_succ]
    exact Nat.mul_mod_left _ _
  have ht : (a ||| (1 <<< (k + 1))).testBit 0 = false := by
    rw [Nat.testBit_or, Nat.testBit_zero, Nat.testBit_zero]
    simp [h, hb]
  rw [Nat.testBit_zero] at ht
  have : (a ||| (1 <<< (k + 1))) % 2 = 0 := by
    rcases Nat.mod_two_eq_zero_or_one (a ||| (1 <<< (k + 1))) with h0 | h1
    · exact h0
    · rw [h1] at ht
      simp at ht
  omega

/-- A bit step at a position above 0 keeps the address and the recorded addresses
even. -/
theorem bitStep_even {σ : Type} (t : Transport σ) (rn pl : Nat) (s : Device σ × SearchVars)
    (i : Nat) (hi : 1 ≤ i) (h : s.2.rom % 2 = 0 ∧ ∀ j, s.2.rl.getD j 0 % 2 = 0) :
    (searchRom.bitStep t rn pl s i).2.rom % 2 = 0 ∧
    ∀ j, (searchRom.bitStep t rn pl s i).2.rl.getD j 0 % 2 = 0 := by
  obtain ⟨newColl, addRom, _, hrl, hrom, _, _⟩ := bitStep_summary t rn pl s i
  rw [hrl, hrom]
  refine ⟨?_, fun j => ?_⟩
  · cases addRom with
    | false => exact h.1
    | true => exact even_add_bit _ _ h.1 hi
  · cases newColl with
    | false => exact h.2 j
    | true =>
      simp only [if_true]
      rcases getD_set_cases s.2.rl i j s.2.rom 0 with e | e <;> rw [e]
      · exact h.1
      · exact h.2 j

theorem foldl_bitStep_even {σ : Type} (t : Transport σ) (rn pl : Nat) (is : List Nat)
    (his : ∀ i, i ∈ is → 1 ≤ i) (s : Device σ × SearchVars)
    (h : s.2.rom % 2 = 0 ∧ ∀ j, s.2.rl.getD j 0 % 2 = 0) :
    (is.foldl (searchRom.bitStep t rn pl) s).2.rom % 2 = 0 ∧
    ∀ j, (is.foldl (searchRom.bitStep t rn pl) s).2.rl.getD j 0 % 2 = 0 := by
  induction is generalizing s with
  | nil => exact h
  | cons i is ih =>
    rw [List.foldl_cons]
    exact ih (fun j hj => his j (List.mem_cons_of_mem _ hj)) _
      (bitStep_even t rn pl s i (his i (List.mem_cons_self _ _)) h)

end usb

/-! ## Theorems: a collision at bit position 0 -/

namespace usb

/-- The step at position 0 of a search with `romNext = 0` and `portLast = 0` that reads
a collision: bit 0 is written, and neither the flags nor the recorded addresses nor the
address change. -/
theorem bitStep_zero_collision {σ : Type} (t : Transport σ) (d d1 : Device σ) (v : SearchVars)
    (bit : Nat) (hv : v.ok = true) (hr : d.read2Bit t = (d1, bit, none))
    (hpat : bit &&& 0x03 = 0) :
    (searchRom.bitStep t 0 0 (d, v) 0).2.cl = v.cl ∧
    (searchRom.bitStep t 0 0 (d, v) 0).2.rl = v.rl ∧
    (searchRom.bitStep t 0 0 (d, v) 0).2.rom = v.rom ∧
    (searchRom.bitStep t 0 0 (d, v) 0).1.sent =
      d.sent ++ [[0x18, 0x82, 1, 1, 0, 0, 0, 0], [0x18, 0x81, 0, 0, 0, 0, 0, 0]] := by
  have s1 := read2Bit_sent t d
  rw [hr] at s1
  simp only at s1
  have s2 := writeBit_sent t d1 0
  unfold searchRom.bitStep
  simp only [hv, if_true, hr, hpat]
  have hlt : ¬ (0 % 2 ^ 32 < 0 % 2 ^ 32) := by decide
  have hb : ((0 >>> 0) &&& 1) % 256 = 0 := by decide
  simp only [hlt, if_false, hb]
  revert s2
  rcases d1.writeBit t 0 with ⟨d2, _ | e2⟩ <;> intro s2
  · have h01 : ¬ ((0 : Nat) = 1) := by decide
    simp only [h01, if_false] at s2 ⊢
    refine ⟨trivial, trivial, trivial, ?_⟩
    rw [s2, s1]
    simp
  · simp only at s2 ⊢
    refine ⟨trivial, trivial, trivial, ?_⟩
    rw [s2, s1]
    simp

end usb

namespace sim
open usb

theorem busOut_devices (b : Bus) (out : List Nat) : (busOut b out).1.devices = b.devices := by
  unfold busOut
  split_ifs <;> rfl

theorem busIn_devices (b : Bus) : (busIn b).1.devices = b.devices := rfl

/-- On the faithful bus, with devices of both parities selected at position 0, the step
at position 0 of a search with an even `romNext` leaves the address and the recorded
addresses as they are. -/
theorem bitStep_zero_faithful (S : List Nat) (rn pl : Nat) (d : Device Bus) (v : SearchVars)
    (hodd : ∃ a, a ∈ S ∧ a.testBit 0 = true) (heven : ∃ a, a ∈ S ∧ a.testBit 0 = false)
    (hsel : d.handle.selected = S) (hpos : d.handle.pos = 0) (hrn : rn % 2 = 0) :
    (searchRom.bitStep faithful rn pl (d, v) 0).2.rom = v.rom ∧
    (searchRom.bitStep faithful rn pl (d, v) 0).2.rl = v.rl := by
  by_cases hok : v.ok = true
  · obtain ⟨d1, hr, _, _, _⟩ := read2Bit_faithful d
    rw [hsel, hpos] at hr
    have h1 : S.all (fun a => addrBit a 0 == 1) = false := by
      obtain ⟨a, ha, hb⟩ := heven
      rw [List.all_eq_false]
      exact ⟨a, ha, by simp [(addrBit_eq_zero a 0).2 hb]⟩
    have h0 : S.all (fun a => addrBit a 0 == 0) = false := by
      obtain ⟨a, ha, hb⟩ := hodd
      rw [List.all_eq_false]
      exact ⟨a, ha, by simp [(addrBit_eq_one a 0).2 hb]⟩
    have hpat : wiredAnd S 0 + 2 * wiredAndCompl S 0 = 0 := by
      simp [wiredAnd, wiredAndCompl, h1, h0]
    rw [hpat] at hr
    have hbit : addrBit rn 0 = 0 := by
      rw [addrBit_eq_zero, Nat.testBit_zero]
      simp [hrn]
    obtain ⟨d2, hw, _, _, _⟩ := writeBit_faithful d1 0 (Or.inl rfl)
    have hlt : ¬ (pl % 2 ^ 32 < 0 % 2 ^ 32) := by simp
    have hstep : searchRom.bitStep faithful rn pl (d, v) 0 =
        (d2, ⟨v.ok, v.cl, v.rl, 0, v.rom, none⟩) := by
      unfold searchRom.bitStep
      simp only [hok, if_true, hr, hlt, if_false]
      simp only [shift_and_one_eq_addrBit, hbit]
      rw [hw]
      simp [hok]
    rw [hstep]
    exact ⟨rfl, rfl⟩
  · unfold searchRom.bitStep
    simp only [hok]
    exact ⟨rfl, rfl⟩

/-- On the faithful bus carrying devices of both parities, an attempt of a search with
an even `romNext` keeps the address and the recorded addresses even. -/
theorem attempt_even_faithful (S : List Nat) (rn pl : Nat) (s : Device Bus × SearchVars)
    (hodd : ∃ a, a ∈ S ∧ a.testBit 0 = true) (heven : ∃ a, a ∈ S ∧ a.testBit 0 = false)
    (hd : s.1.handle.devices = S) (hrn : rn % 2 = 0)
    (h : s.2.rom % 2 = 0 ∧ ∀ j, s.2.rl.getD j 0 % 2 = 0) :
    (searchRom.attempt faithful rn pl s).2.rom % 2 = 0 ∧
    ∀ j, (searchRom.attempt faithful rn pl s).2.rl.getD j 0 % 2 = 0 := by
  obtain ⟨d1, hr1, hd1, hs1, hp1⟩ := reset_faithful s.1
  obtain ⟨d2, hr2, hd2, hs2, hp2⟩ := writeByte_searchRom_faithful d1
  have hrange : List.range RomPorts = 0 :: (List.range 63).map Nat.succ :=
    List.range_succ_eq_map 63
  have hatt : (searchRom.attempt faithful rn pl s).2 = searchRom.check
      (((List.range 63).map Nat.succ).foldl (searchRom.bitStep faithful rn pl)
        (searchRom.bitStep faithful rn pl (d2, { s.2 with ok := true }) 0)).2 := by
    unfold searchRom.attempt
    rw [hr1]
    simp only
    rw [hr2]
    simp only
    rw [hrange, List.foldl_cons]
  rw [hatt, (check_fields _).2.2.1, (check_fields _).2.1]
  apply foldl_bitStep_even
  · intro i hi
    obtain ⟨k, _, hk⟩ := List.mem_map.1 hi
    omega
  · obtain ⟨e1, e2⟩ := bitStep_zero_faithful S rn pl d2 { s.2 with ok := true } hodd heven
      (by rw [hs2, hs1, hd]) (by rw [hp2, hp1]) hrn
    rw [e1, e2]
    exact h

theorem attempts_even_faithful (S : List Nat) (rn pl k : Nat) (s : Device Bus × SearchVars)
    (hodd : ∃ a, a ∈ S ∧ a.testBit 0 = true) (heven : ∃ a, a ∈ S ∧ a.testBit 0 = false)
    (hd : s.1.handle.devices = S) (hrn : rn % 2 = 0)
    (h : s.2.rom % 2 = 0 ∧ ∀ j, s.2.rl.getD j 0 % 2 = 0) :
    (searchRom.attempts faithful rn pl k s).2.rom % 2 = 0 ∧
    ∀ j, (searchRom.attempts faithful rn pl k s).2.rl.getD j 0 % 2 = 0 := by
  induction k generalizing s with
  | zero => exact h
  | succ k ih =>
    rw [searchRom.attempts]
    by_cases hok : s.2.ok = true
    · rw [if_pos hok]
      exact h
    · rw [if_neg hok]
      refine ih _ ?_ (attempt_even_faithful S rn pl s hodd heven hd hrn h)
      have := attempt_handle faithful Bus.devices busOut_devices busIn_devices rn pl s
      rw [this]
      exact hd

/-- On the faithful bus carrying devices of both parities, every address returned by a
search with an even `romNext` is even. -/
theorem searchRom_even_faithful (S : List Nat)
    (hodd : ∃ a, a ∈ S ∧ a.testBit 0 = true) (heven : ∃ a, a ∈ S ∧ a.testBit 0 = false)
    (fuel : Nat) :
    ∀ (d : Device Bus) (rn pl : Nat) (r : Device Bus × List Nat × Option Error),
      d.handle.devices = S → rn % 2 = 0 → d.searchRom faithful fuel rn pl = some r →
      r.1.handle.devices = S ∧ ∀ x, x ∈ r.2.1 → x % 2 = 0 := by
  induction fuel with
  | zero =>
    intro d rn pl r _ _ h
    simp [Device.searchRom] at h
  | succ a ih =>
    intro d rn pl r hd hrn h
    have hb : searchRom.body faithful (Device.searchRom faithful a) d rn pl = some r := h
    unfold searchRom.body at hb
    simp only at hb
    have hdev := attempts_handle faithful Bus.devices busOut_devices busIn_devices rn pl Retries
      (d, ⟨false, List.replicate RomPorts false, List.replicate RomPorts 0, 0, 0, none⟩)
    have hev := attempts_even_faithful S rn pl Retries
      (d, ⟨false, List.replicate RomPorts false, List.replicate RomPorts 0, 0, 0, none⟩)
      hodd heven hd hrn
      ⟨rfl, fun j => by
        simp only [List.getD_eq_getElem?_getD, List.getElem?_replicate]
        split <;> rfl⟩
    have hcl := attempts_init_cl faithful rn pl d
    revert hb hdev hev hcl
    generalize searchRom.attempts faithful rn pl Retries
      (d, ⟨false, List.replicate RomPorts false, List.replicate RomPorts 0, 0, 0, none⟩) = res
    intro hb hdev hev hcl
    by_cases hok : res.2.ok = true
    · simp only [hok, Bool.not_true, Bool.false_eq_true, if_false] at hb
      have hall := branches_inv (Device.searchRom faithful a) res.2
        (fun d => d.handle.devices = S) (fun x => x % 2 = 0) (fun rn => rn % 2 = 0)
        (fun d1 rn1 pl1 r1 h1 h2 h3 => ih d1 rn1 pl1 r1 h1 h2 h3) (List.range RomPorts)
        (fun i _ hi => even_or_bit _ _ (hev.2 i) (by have := (hcl i hi).1; omega))
        (some (res.1, [res.2.rom]))
        (by
          intro p hp
          simp only [Option.some.injEq] at hp
          subst hp
          refine ⟨hdev.trans hd, fun x hx => ?_⟩
          simp only [List.mem_singleton] at hx
          subst hx
          exact hev.1)
      revert hb hall
      generalize (List.range RomPorts).foldl _ _ = out
      intro hb hall
      rcases out with _ | ⟨d1, roms⟩
      · simp at hb
      · simp only [Option.some.injEq] at hb
        subst hb
        exact hall _ rfl
    · simp only [hok, Bool.not_false, if_true, Option.some.injEq] at hb
      subst hb
      exact ⟨hdev.trans hd, fun x hx => by simp at hx⟩

end sim

namespace sim
open usb

/-- C20. In the top-level search started by `GetSensors` (`searchRom(0, 0)`), on every
transport: position 0 is never flagged as a collision point; the body makes no
recursive call with `portLast = 0`, so none for position 0; and a step at position 0
that reads a collision writes bit 0 and leaves the flags, the recorded addresses and
the address as they are. On the faithful bus carrying devices that disagree at bit 0,
`GetSensors` returns, every address in its result has bit 0 clear, and no device whose
address has bit 0 set is in the result. -/
theorem bit_zero_collision_not_revisited {σ : Type} (t : Transport σ) (d : Device σ)
    (S : List Nat) (db : Device Bus) (hdb : db.handle.devices = S)
    (hodd : ∃ a, a ∈ S ∧ a.testBit 0 = true) (heven : ∃ a, a ∈ S ∧ a.testBit 0 = false) :
    (searchRom.attempts t 0 0 Retries
      (d, ⟨false, List.replicate RomPorts false, List.replicate RomPorts 0, 0, 0, none⟩)).2.cl.getD
        0 false = false ∧
    (∀ search : Device σ → Nat → Nat → Option (Device σ × List Nat × Option Error),
      searchRom.body t search d 0 0 =
        searchRom.body t (fun d1 rn1 pl1 => if pl1 = 0 then none else search d1 rn1 pl1) d 0 0) ∧
    (∀ (v : SearchVars) (d1 : Device σ) (bit : Nat), v.ok = true →
      d.read2Bit t = (d1, bit, none) → bit &&& 0x03 = 0 →
        (searchRom.bitStep t 0 0 (d, v) 0).2.cl = v.cl ∧
        (searchRom.bitStep t 0 0 (d, v) 0).2.rl = v.rl ∧
        (searchRom.bitStep t 0 0 (d, v) 0).2.rom = v.rom ∧
        (searchRom.bitStep t 0 0 (d, v) 0).1.sent =
          d.sent ++ [[0x18, 0x82, 1, 1, 0, 0, 0, 0], [0x18, 0x81, 0, 0, 0, 0, 0, 0]]) ∧
    ∃ d1 roms err, db.GetSensors faithful = some (d1, roms, err) ∧
      (∀ x, x ∈ roms → x.testBit 0 = false) ∧
      (∀ a, a ∈ S → a.testBit 0 = true → a ∉ roms) := by
  refine ⟨?_, fun search => ?_, fun v d1 bit hv hr hpat =>
    bitStep_zero_collision t d d1 v bit hv hr hpat, ?_⟩
  · cases hc : (searchRom.attempts t 0 0 Retries
      (d, ⟨false, List.replicate RomPorts false, List.replicate RomPorts 0, 0, 0,
        none⟩)).2.cl.getD 0 false with
    | false => rfl
    | true =>
      have := (attempts_init_cl t 0 0 d 0 hc).1
      omega
  · apply body_congr
    intro i h1 _ d1 rn1
    rw [if_neg (by omega)]
  · have hsome := searchRom_isSome faithful (RomPorts + 1) db 0 0 (by decide) (by decide)
    rcases hr : db.searchRom faithful (RomPorts + 1) 0 0 with _ | ⟨d1, roms, err⟩
    · rw [hr] at hsome
      simp at hsome
    · obtain ⟨_, hall⟩ := searchRom_even_faithful S hodd heven (RomPorts + 1) db 0 0
        (d1, roms, err) hdb rfl hr
      have hbit : ∀ x, x ∈ roms → x.testBit 0 = false := by
        intro x hx
        rw [Nat.testBit_zero]
        simp [hall x hx]
      refine ⟨d1, roms, err, hr, hbit, fun a _ ha hmem => ?_⟩
      rw [hbit a hmem] at ha
      exact absurd ha (by decide)

set_option maxRecDepth 100000 in
theorem bit_zero_collision_not_revisited_witness :
    ((session [0x1e00000000000028, 0x3d00000000000001]).handle.devices =
        [0x1e00000000000028, 0x3d00000000000001] ∧
      (∃ a, a ∈ [0x1e00000000000028, 0x3d00000000000001] ∧ a.testBit 0 = true) ∧
      (∃ a, a ∈ [0x1e00000000000028, 0x3d00000000000001] ∧ a.testBit 0 = false)) ∧
    ∃ d1 roms err,
      (session [0x1e00000000000028, 0x3d00000000000001]).GetSensors faithful =
        some (d1, roms, err) ∧
      (∀ x, x ∈ roms → x.testBit 0 = false) ∧
      (∀ a, a ∈ [0x1e00000000000028, 0x3d00000000000001] → a.testBit 0 = true → a ∉ roms) :=
  ⟨⟨rfl, ⟨0x3d00000000000001, by decide, by decide⟩,
      ⟨0x1e00000000000028, by decide, by decide⟩⟩,
    (bit_zero_collision_not_revisited faithful
      (session [0x1e00000000000028, 0x3d00000000000001])
      [0x1e00000000000028, 0x3d00000000000001]
      (session [0x1e00000000000028, 0x3d00000000000001]) rfl
      ⟨0x3d00000000000001, by decide, by decide⟩
      ⟨0x1e00000000000028, by decide, by decide⟩).2.2.2⟩

end sim

/-! ## Theorems: two devices that collide at bit position 3 -/

namespace sim
open usb

set_option maxRecDepth 100000 in
/-- The addresses 0x1e00000000000028 and 0x1e00000000000000 differ at bit positions 3
and 5 only; on the faithful bus holding these two devices `GetSensors` returns no
address at all: the pass takes bit 0 at the collision, and the address it reaches
fails the CRC8 check in all three attempts. -/
theorem getSensors_misses_pair_differing_at_bits_3_and_5 :
    0x1e00000000000028 ^^^ 0x1e00000000000000 = 2 ^ 3 + 2 ^ 5 ∧
    (((session [0x1e00000000000028, 0x1e00000000000000]).GetSensors faithful).map
      fun r => r.2) = some ([], none) ∧
    (((session [0x1e00000000000000, 0x1e00000000000028]).GetSensors faithful).map
      fun r => r.2) = some ([], none) := by
  refine ⟨by decide, ?_, ?_⟩ <;> decide

/-- C12, amended. For every pair of non-zero 64-bit addresses that pass the CRC8
check, agree on the bit positions 0 to 2 and differ at bit position 3, on the faithful
bus holding exactly these two devices `GetSensors` returns a nil error and a list that
holds both addresses, each once. -/
theorem getSensors_finds_both_after_collision (a b : Nat) (d : Device Bus)
    (ha : 0 < a ∧ a < 2 ^ 64 ∧ crcValid a = true)
    (hb : 0 < b ∧ b < 2 ^ 64 ∧ crcValid b = true)
    (hlow : a % 8 = b % 8) (h3 : a.testBit 3 ≠ b.testBit 3)
    (hd : d.handle.devices = [a, b]) :
    ∃ d1 roms, d.GetSensors faithful = some (d1, roms, none) ∧ roms.Perm [a, b] := by
  have hS : ∀ x, x ∈ [a, b] → 0 < x ∧ x < 2 ^ 64 ∧ crcValid x = true := by
    intro x hx
    simp only [List.mem_cons, List.mem_singleton, List.not_mem_nil, or_false] at hx
    rcases hx with rfl | rfl
    · exact ha
    · exact hb
  obtain ⟨d1, c0, rest, hres, _, _, hall, hnodup, hcompl⟩ :=
    searchRom_faithful [a, b] hS (by simp) (RomPorts + 1) 0 0 d hd (by decide) (by decide)
  have hab : agreeBelow 1 a b := by
    intro k hk
    have hk0 : k = 0 := by omega
    subst hk0
    rw [Nat.testBit_zero, Nat.testBit_zero]
    have e1 : a % 2 = b % 2 := by omega
    rw [e1]
  have hne : a ≠ b := by
    intro h
    apply h3
    rw [h]
  have hc0 := (hall c0 (List.mem_cons_self _ _)).1
  simp only [List.mem_cons, List.mem_singleton, List.not_mem_nil, or_false] at hc0
  have hmema : a ∈ c0 :: rest := by
    apply hcompl a (by simp)
    rcases hc0 with rfl | rfl
    · exact fun _ _ => rfl
    · exact hab
  have hmemb : b ∈ c0 :: rest := by
    apply hcompl b (by simp)
    rcases hc0 with rfl | rfl
    · exact agreeBelow_symm hab
    · exact fun _ _ => rfl
  refine ⟨d1, c0 :: rest, hres, ?_⟩
  rw [List.perm_ext_iff_of_nodup hnodup (by simp [hne])]
  intro x
  constructor
  · intro hx
    exact (hall x hx).1
  · intro hx
    simp only [List.mem_cons, List.mem_singleton, List.not_mem_nil, or_false] at hx
    rcases hx with rfl | rfl
    · exact hmema
    · exact hmemb

set_option maxRecDepth 100000 in
theorem getSensors_finds_both_after_collision_witness :
    ((0 < 0xcc00000000000110 ∧ 0xcc00000000000110 < 2 ^ 64 ∧
        crcValid 0xcc00000000000110 = true) ∧
      (0 < 0x1e00000000000028 ∧ 0x1e00000000000028 < 2 ^ 64 ∧
        crcValid 0x1e00000000000028 = true) ∧
      0xcc00000000000110 % 8 = 0x1e00000000000028 % 8 ∧
      Nat.testBit 0xcc00000000000110 3 ≠ Nat.testBit 0x1e00000000000028 3) ∧
    ∃ d1 roms,
      (session [0xcc00000000000110, 0x1e00000000000028]).GetSensors faithful =
        some (d1, roms, none) ∧
      roms.Perm [0xcc00000000000110, 0x1e00000000000028] :=
  ⟨⟨by decide, by decide, by decide, by decide⟩,
    getSensors_finds_both_after_collision 0xcc00000000000110 0x1e00000000000028
      (session [0xcc00000000000110, 0x1e00000000000028])
      (by decide) (by decide) (by decide) (by decide) rfl⟩

end sim

/-! ## Theorems: an attempt after an abandoned attempt -/

namespace sim
open usb

set_option maxRecDepth 1000000 in
/-- C14: the code on a bus whose only device has the CRC8-valid address
0x1e00000000000028, when one transfer fails: the `read2Bit` of bit position 61 in the
first attempt (outbound transfer 124: a reset, the command byte and two transfers for
each of the positions 0 to 60 come before it). The first attempt is abandoned with
0x1e00000000000028 accumulated from the positions below 61. The second attempt
succeeds; run from cleared variables it accumulates 0x1e00000000000028, the bits it
writes, but `GetSensors` returns 0x3c00000000000050 with a nil error: the sum of what
the two attempts accumulated. Without the failure the same bus gives
0x1e00000000000028. -/
theorem getSensors_keeps_bits_of_abandoned_attempt :
    crcValid 0x1e00000000000028 = true ∧
    (((flakySession [0x1e00000000000028]).GetSensors (flaky 124)).map fun r => r.2) =
      some ([0x3c00000000000050], none) ∧
    ((searchRom.attempt (flaky 124) 0 0 (flakySession [0x1e00000000000028],
        ⟨false, List.replicate RomPorts false, List.replicate RomPorts 0, 0, 0, none⟩)).2.ok
      = false ∧
      (searchRom.attempt (flaky 124) 0 0 (flakySession [0x1e00000000000028],
        ⟨false, List.replicate RomPorts false, List.replicate RomPorts 0, 0, 0, none⟩)).2.rom
      = 0x1e00000000000028) ∧
    ((searchRom.attempt (flaky 124) 0 0
        ((searchRom.attempt (flaky 124) 0 0 (flakySession [0x1e00000000000028],
          ⟨false, List.replicate RomPorts false, List.replicate RomPorts 0, 0, 0, none⟩)).1,
        ⟨false, List.replicate RomPorts false, List.replicate RomPorts 0, 0, 0, none⟩)).2.ok
      = true ∧
      (searchRom.attempt (flaky 124) 0 0
        ((searchRom.attempt (flaky 124) 0 0 (flakySession [0x1e00000000000028],
          ⟨false, List.replicate RomPorts false, List.replicate RomPorts 0, 0, 0, none⟩)).1,
        ⟨false, List.replicate RomPorts false, List.replicate RomPorts 0, 0, 0, none⟩)).2.rom
      = 0x1e00000000000028) ∧
    (((session [0x1e00000000000028]).GetSensors faithful).map fun r => r.2) =
      some ([0x1e00000000000028], none) := by
  refine ⟨by decide, ?_, ⟨?_, ?_⟩, ⟨?_, ?_⟩, ?_⟩ <;> decide

end sim

/-! ## Theorems: the passes of a temperature reading -/

namespace usb

/-- The outbound buffers of `skipRomConvert`: a non-empty start of its three commands,
all three when it returns a nil error. -/
theorem skipRomConvert_sent_any {σ : Type} (t : Transport σ) (d : Device σ) :
    ∃ n, 1 ≤ n ∧ n ≤ 3 ∧
      (d.skipRomConvert t).1.sent = d.sent ++
        ([[0x18, 0x48, 0, 0, 0, 0, 0, 0], [0x18, 0x88, 0xcc, 0, 0, 0, 0, 0],
          [0x18, 0x88, 0x44, 0, 0, 0, 0, 0]] : List (List Nat)).take n ∧
      ((d.skipRomConvert t).2 = none → n = 3) := by
  unfold Device.skipRomConvert
  have s1 := reset_sent t d
  revert s1
  rcases d.reset t with ⟨d1, _ | e1⟩ <;> intro s1
  · simp only at s1 ⊢
    have s2 := writeByte_sent t d1 onewire.SkipRom
    revert s2
    rcases d1.writeByte t onewire.SkipRom with ⟨d2, _ | e2⟩ <;> intro s2
    · simp only at s2 ⊢
      have s3 := writeByte_sent t d2 onewire.ConvertT
      revert s3
      rcases d2.writeByte t onewire.ConvertT with ⟨d3, _ | e3⟩ <;> intro s3
      · exact ⟨3, by omega, by omega,
          by simp only at s3 ⊢; rw [s3, s2, s1]; simp [onewire.SkipRom, onewire.ConvertT],
          fun _ => rfl⟩
      · exact ⟨3, by omega, by omega,
          by simp only at s3 ⊢; rw [s3, s2, s1]; simp [onewire.SkipRom, onewire.ConvertT],
          fun _ => rfl⟩
    · exact ⟨2, by omega, by omega,
        by simp only at s2 ⊢; rw [s2, s1]; simp [onewire.SkipRom], fun h => by simp at h⟩
  · exact ⟨1, by omega, by omega, by simp only at s1 ⊢; rw [s1]; simp, fun h => by simp at h⟩

/-- The outbound buffers of `matchRom`: a non-empty start of its four commands, all
four when it returns a nil error. -/
theorem matchRom_sent_any {σ : Type} (t : Transport σ) (d : Device σ) (rom : Nat) :
    ∃ n, 1 ≤ n ∧ n ≤ 4 ∧
      (d.matchRom t rom).1.sent = d.sent ++
        ([[0x18, 0x48, 0, 0, 0, 0, 0, 0], [0x18, 0x88, 0x55, 0, 0, 0, 0, 0],
          [0x18, 0x84, rom % 256, rom / 2 ^ 8 % 256, rom / 2 ^ 16 % 256, rom / 2 ^ 24 % 256,
            0, 0],
          [0x18, 0x84, rom / 2 ^ 32 % 256, rom / 2 ^ 40 % 256, rom / 2 ^ 48 % 256,
            rom / 2 ^ 56 % 256, 0, 0]] : List (List Nat)).take n ∧
      ((d.matchRom t rom).2 = none → n = 4) := by
  unfold Device.matchRom
  obtain ⟨b0, b1, b2, b3, b4, b5, b6, b7⟩ := matchRom_bytes rom
  have s1 := reset_sent t d
  revert s1
  rcases d.reset t with ⟨d1, _ | e1⟩ <;> intro s1
  · simp only at s1 ⊢
    have s2 := writeByte_sent t d1 onewire.MatchRom
    revert s2
    rcases d1.writeByte t onewire.MatchRom with ⟨d2, _ | e2⟩ <;> intro s2
    · simp only at s2 ⊢
      have s3 := write4Byte_sent_bytes t d2 ((rom &&& 0xFFFFFFFF) % 2 ^ 32)
      rw [b0, b1, b2, b3] at s3
      revert s3
      rcases d2.write4Byte t ((rom &&& 0xFFFFFFFF) % 2 ^ 32) with ⟨d3, _ | e3⟩ <;> intro s3
      · simp only at s3 ⊢
        have s4 := write4Byte_sent_bytes t d3 (((rom >>> 32) &&& 0xFFFFFFFF) % 2 ^ 32)
        rw [b4, b5, b6, b7] at s4
        revert s4
        rcases d3.write4Byte t (((rom >>> 32) &&& 0xFFFFFFFF) % 2 ^ 32) with ⟨d4, _ | e4⟩ <;>
          intro s4
        · exact ⟨4, by omega, by omega,
            by simp only at s4 ⊢; rw [s4, s3, s2, s1]; simp [onewire.MatchRom], fun _ => rfl⟩
        · exact ⟨4, by omega, by omega,
            by simp only at s4 ⊢; rw [s4, s3, s2, s1]; simp [onewire.MatchRom], fun _ => rfl⟩
      · exact ⟨3, by omega, by omega,
          by simp only at s3 ⊢; rw [s3, s2, s1]; simp [onewire.MatchRom], fun h => by simp at h⟩
    · exact ⟨2, by omega, by omega,
        by simp only at s2 ⊢; rw [s2, s1]; simp [onewire.MatchRom], fun h => by simp at h⟩
  · exact ⟨1, by omega, by omega, by simp only at s1 ⊢; rw [s1]; simp, fun h => by simp at h⟩

/-- The outbound buffers of one pass of `GetTemperature`: a non-empty start of the
eleven commands of a pass, all eleven when the pass completes its exchanges. -/
theorem exchange_sent_any {σ : Type} (t : Transport σ) (d : Device σ) (rom : Nat) :
    ∃ n, 1 ≤ n ∧ n ≤ 11 ∧
      (GetTemperature.exchange t d rom).1.sent =
        d.sent ++ (GetTemperature.passFrames rom).take n ∧
      ((GetTemperature.exchange t d rom).2 ≠ none → n = 11) := by
  unfold GetTemperature.exchange
  obtain ⟨n1, h1a, h1b, s1, h1c⟩ := skipRomConvert_sent_any t d
  revert s1 h1c
  rcases d.skipRomConvert t with ⟨d1, _ | e1⟩ <;> intro s1 h1c
  · have hn1 : n1 = 3 := h1c rfl
    subst hn1
    simp only at s1 ⊢
    obtain ⟨n2, h2a, h2b, s2, h2c⟩ := matchRom_sent_any t d1 rom
    revert s2 h2c
    rcases d1.matchRom t rom with ⟨d2, _ | e2⟩ <;> intro s2 h2c
    · have hn2 : n2 = 4 := h2c rfl
      subst hn2
      simp only at s2 ⊢
      have s3 := writeByte_sent t d2 onewire.ReadScratchpad
      revert s3
      rcases d2.writeByte t onewire.ReadScratchpad with ⟨d3, _ | e3⟩ <;> intro s3
      · simp only at s3 ⊢
        have s4 := read4Byte_sent t d3
        revert s4
        rcases d3.read4Byte t with ⟨d4, l1, _ | e4⟩ <;> intro s4
        · simp only at s4 ⊢
          have s5 := read4Byte_sent t d4
          revert s5
          rcases d4.read4Byte t with ⟨d5, l2, _ | e5⟩ <;> intro s5
          · simp only at s5 ⊢
            have s6 := readByte_sent t d5
            revert s6
            rcases d5.readByte t with ⟨d6, l3, _ | e6⟩ <;> intro s6
            · exact ⟨11, by omega, by omega,
                by simp only at s6 ⊢; rw [s6, s5, s4, s3, s2, s1];
                   simp [GetTemperature.passFrames, onewire.ReadScratchpad],
                fun _ => rfl⟩
            · exact ⟨11, by omega, by omega,
                by simp only at s6 ⊢; rw [s6, s5, s4, s3, s2, s1];
                   simp [GetTemperature.passFrames, onewire.ReadScratchpad],
                fun _ => rfl⟩
          · exact ⟨10, by omega, by omega,
              by simp only at s5 ⊢; rw [s5, s4, s3, s2, s1];
                 simp [GetTemperature.passFrames, onewire.ReadScratchpad],
              fun h => by simp at h⟩
        · exact ⟨9, by omega, by omega,
            by simp only at s4 ⊢; rw [s4, s3, s2, s1];
               simp [GetTemperature.passFrames, onewire.ReadScratchpad],
            fun h => by simp at h⟩
      · exact ⟨8, by omega, by omega,
          by simp only at s3 ⊢; rw [s3, s2, s1];
             simp [GetTemperature.passFrames, onewire.ReadScratchpad],
          fun h => by simp at h⟩
    · refine ⟨3 + n2, by omega, by omega, ?_, fun h => by simp at h⟩
      simp only at s2 ⊢
      rw [s2, s1]
      have hcases : n2 = 1 ∨ n2 = 2 ∨ n2 = 3 ∨ n2 = 4 := by omega
      rcases hcases with h | h | h | h <;> subst h <;> simp [GetTemperature.passFrames]
  · refine ⟨n1, h1a, by omega, ?_, fun h => by simp at h⟩
    simp only at s1 ⊢
    rw [s1]
    have hcases : n1 = 1 ∨ n1 = 2 ∨ n1 = 3 := by omega
    rcases hcases with h | h | h <;> subst h <;> simp [GetTemperature.passFrames]

end usb

namespace usb

/-- A pass that passes ends the loop of `GetTemperature` with its reading. -/
theorem loop_succ_of_passes {σ : Type} (t : Transport σ) (rom k : Nat) (d : Device σ)
    (h : GetTemperature.passes t rom d = true) :
    ∃ l1 l2 l3, (GetTemperature.exchange t d rom).2 = some (l1, l2, l3) ∧
      onewire.foldCrc8 (GetTemperature.scratchpad l1 l2 l3) = 0 ∧
      GetTemperature.loop t rom (k + 1) d =
        ((GetTemperature.exchange t d rom).1, GetTemperature.convert rom l1, none) := by
  unfold GetTemperature.passes at h
  rcases hex : GetTemperature.exchange t d rom with ⟨d1, _ | ⟨l1, l2, l3⟩⟩
  · rw [hex] at h
    simp at h
  · rw [hex] at h
    simp only [beq_iff_eq] at h
    refine ⟨l1, l2, l3, rfl, h, ?_⟩
    simp only [GetTemperature.loop, hex, h, onewire.CheckCrc8]
    rfl

/-- A pass that does not pass hands the loop of `GetTemperature` on to the next pass,
on the device as the pass left it. -/
theorem loop_succ_of_fails {σ : Type} (t : Transport σ) (rom k : Nat) (d : Device σ)
    (h : GetTemperature.passes t rom d = false) :
    GetTemperature.loop t rom (k + 1) d =
      GetTemperature.loop t rom k (GetTemperature.exchange t d rom).1 := by
  unfold GetTemperature.passes at h
  rcases hex : GetTemperature.exchange t d rom with ⟨d1, _ | ⟨l1, l2, l3⟩⟩
  · simp only [GetTemperature.loop, hex]
  · rw [hex] at h
    simp only [beq_eq_false_iff_ne, ne_eq] at h
    simp only [GetTemperature.loop, hex, onewire.CheckCrc8, h, if_true]
    simp [h]

theorem allBadCrc_succ {σ : Type} (t : Transport σ) (rom k : Nat) (d : Device σ)
    (h : GetTemperature.allBadCrc t rom (k + 1) d = true) :
    GetTemperature.passes t rom d = false ∧ (GetTemperature.exchange t d rom).2 ≠ none ∧
      GetTemperature.allBadCrc t rom k (GetTemperature.exchange t d rom).1 = true := by
  unfold GetTemperature.allBadCrc at h
  unfold GetTemperature.passes
  rcases hex : GetTemperature.exchange t d rom with ⟨d1, _ | ⟨l1, l2, l3⟩⟩
  · rw [hex] at h
    simp at h
  · rw [hex] at h
    simp only [Bool.and_eq_true, bne_iff_ne, ne_eq] at h
    exact ⟨by simp [h.1], by simp, h.2⟩

theorem passFrames_take (rom : Nat) :
    (GetTemperature.passFrames rom).take 11 = GetTemperature.passFrames rom := rfl

end usb

namespace usb

/-- C8: when each of the three passes of `GetTemperature` completes its exchanges but
reads nine bytes that fold to a non-zero CRC8, the method returns temperature 0 with
`InputOutputError` after exactly three Read-Scratchpad commands, having sent exactly
the eleven commands of a pass three times and nothing else. On every transport the
method sends at most three Read-Scratchpad commands. It stops at the first pass that
passes: when the first, the second or the third pass passes, the method returns a nil
error with the device as that pass left it, so nothing is sent after that pass. It
never starts a fourth pass: when three passes have not passed, it returns
`InputOutputError` with the device as the third pass left it. Every pass sends a
non-empty start of the eleven commands of a pass, all eleven when it completes its
exchanges. -/
theorem getTemperature_retry_exhaustion {σ : Type} (t : Transport σ) (d : Device σ)
    (rom l1 l2 l3 : Nat) :
    (GetTemperature.allBadCrc t rom Retries d = true →
      (d.GetTemperature t rom).2 = (0, some Error.InputOutputError) ∧
      (d.GetTemperature t rom).1.readScratchpadCount = d.readScratchpadCount + 3 ∧
      (d.GetTemperature t rom).1.sent = d.sent ++ GetTemperature.passFrames rom ++
        GetTemperature.passFrames rom ++ GetTemperature.passFrames rom) ∧
    (d.GetTemperature t rom).1.readScratchpadCount ≤ d.readScratchpadCount + 3 ∧
    ((GetTemperature.exchange t d rom).2 = some (l1, l2, l3) →
      onewire.foldCrc8 (GetTemperature.scratchpad l1 l2 l3) = 0 →
      (d.GetTemperature t rom).1 = (GetTemperature.exchange t d rom).1 ∧
      (d.GetTemperature t rom).2.2 = none ∧
      (d.GetTemperature t rom).1.readScratchpadCount = d.readScratchpadCount + 1) ∧
    (GetTemperature.passes t rom d = true →
      (d.GetTemperature t rom).1 = (GetTemperature.exchange t d rom).1 ∧
      (d.GetTemperature t rom).2.2 = none) ∧
    (GetTemperature.passes t rom d = false →
      GetTemperature.passes t rom (GetTemperature.exchange t d rom).1 = true →
      (d.GetTemperature t rom).1 =
        (GetTemperature.exchange t (GetTemperature.exchange t d rom).1 rom).1 ∧
      (d.GetTemperature t rom).2.2 = none) ∧
    (GetTemperature.passes t rom d = false →
      GetTemperature.passes t rom (GetTemperature.exchange t d rom).1 = false →
      GetTemperature.passes t rom
        (GetTemperature.exchange t (GetTemperature.exchange t d rom).1 rom).1 = true →
      (d.GetTemperature t rom).1 =
        (GetTemperature.exchange t
          (GetTemperature.exchange t (GetTemperature.exchange t d rom).1 rom).1 rom).1 ∧
      (d.GetTemperature t rom).2.2 = none) ∧
    (GetTemperature.passes t rom d = false →
      GetTemperature.passes t rom (GetTemperature.exchange t d rom).1 = false →
      GetTemperature.passes t rom
        (GetTemperature.exchange t (GetTemperature.exchange t d rom).1 rom).1 = false →
      d.GetTemperature t rom =
        ((GetTemperature.exchange t
          (GetTemperature.exchange t (GetTemperature.exchange t d rom).1 rom).1 rom).1,
          0, some Error.InputOutputError)) ∧
    (∀ d1 : Device σ, ∃ n, 1 ≤ n ∧ n ≤ 11 ∧
      (GetTemperature.exchange t d1 rom).1.sent =
        d1.sent ++ (GetTemperature.passFrames rom).take n ∧
      ((GetTemperature.exchange t d1 rom).2 ≠ none → n = 11)) := by
  have hG : d.GetTemperature t rom = GetTemperature.loop t rom 3 d := rfl
  have hfull : ∀ d1 : Device σ, (GetTemperature.exchange t d1 rom).2 ≠ none →
      (GetTemperature.exchange t d1 rom).1.sent = d1.sent ++ GetTemperature.passFrames rom := by
    intro d1 h
    obtain ⟨n, _, _, hs, hn⟩ := exchange_sent_any t d1 rom
    rw [hs, hn h, passFrames_take]
  refine ⟨fun h => ?_, loop_count_le t rom Retries d, fun hx hcrc => ?_, fun h1 => ?_,
    fun h1 h2 => ?_, fun h1 h2 h3 => ?_, fun h1 h2 h3 => ?_,
    fun d1 => exchange_sent_any t d1 rom⟩
  · obtain ⟨hA1, hA2⟩ := loop_allBadCrc t rom Retries d h
    refine ⟨hA1, hA2, ?_⟩
    obtain ⟨p1, x1, b2⟩ := allBadCrc_succ t rom 2 d h
    obtain ⟨p2, x2, b1⟩ := allBadCrc_succ t rom 1 _ b2
    obtain ⟨p3, x3, _⟩ := allBadCrc_succ t rom 0 _ b1
    rw [hG, loop_succ_of_fails t rom 2 d p1, loop_succ_of_fails t rom 1 _ p2,
      loop_succ_of_fails t rom 0 _ p3]
    simp only [GetTemperature.loop]
    rw [hfull _ x3, hfull _ x2, hfull _ x1]
  · have hc := (exchange_count t d rom).2 (by rw [hx]; simp)
    have hl : d.GetTemperature t rom =
        ((GetTemperature.exchange t d rom).1, GetTemperature.convert rom l1, none) := by
      unfold Device.GetTemperature Retries
      cases hex : GetTemperature.exchange t d rom with
      | mk d1 r =>
        rw [hex] at hx
        simp only at hx
        subst hx
        simp only [GetTemperature.loop, hex, hcrc, onewire.CheckCrc8]
        rfl
    rw [hl]
    exact ⟨rfl, rfl, hc⟩
  · obtain ⟨a, b, c, _, _, hl⟩ := loop_succ_of_passes t rom 2 d h1
    rw [hG, hl]
    exact ⟨rfl, rfl⟩
  · obtain ⟨a, b, c, _, _, hl⟩ := loop_succ_of_passes t rom 1 _ h2
    rw [hG, loop_succ_of_fails t rom 2 d h1, hl]
    exact ⟨rfl, rfl⟩
  · obtain ⟨a, b, c, _, _, hl⟩ := loop_succ_of_passes t rom 0 _ h3
    rw [hG, loop_succ_of_fails t rom 2 d h1, loop_succ_of_fails t rom 1 _ h2, hl]
    exact ⟨rfl, rfl⟩
  · rw [hG, loop_succ_of_fails t rom 2 d h1, loop_succ_of_fails t rom 1 _ h2,
      loop_succ_of_fails t rom 0 _ h3]
    simp only [GetTemperature.loop]

set_option maxRecDepth 100000 in
theorem getTemperature_retry_exhaustion_witness :
    (GetTemperature.allBadCrc sim.thermometer 0x1e00000000000028 Retries
        (sim.sensorSession [0x91, 0x01, 0x4b, 0x46, 0x7f, 0xff, 0x0c, 0x10, 0x71]) = true ∧
      (GetTemperature.exchange sim.thermometer
        (sim.sensorSession [0x91, 0x01, 0x4b, 0x46, 0x7f, 0xff, 0x0c, 0x10, 0x70])
        0x1e00000000000028).2 = some (0x464b0191, 0x100cff7f, 0x70) ∧
      onewire.foldCrc8 (GetTemperature.scratchpad 0x464b0191 0x100cff7f 0x70) = 0 ∧
      GetTemperature.passes (sim.failingAt 4 sim.thermometer) 0x1e00000000000028
        (sim.failingSensorSession [0x91, 0x01, 0x4b, 0x46, 0x7f, 0xff, 0x0c, 0x10, 0x70])
        = false ∧
      GetTemperature.passes (sim.failingAt 4 sim.thermometer) 0x1e00000000000028
        (GetTemperature.exchange (sim.failingAt 4 sim.thermometer)
          (sim.failingSensorSession [0x91, 0x01, 0x4b, 0x46, 0x7f, 0xff, 0x0c, 0x10, 0x70])
          0x1e00000000000028).1 = true) ∧
    (((sim.sensorSession [0x91, 0x01, 0x4b, 0x46, 0x7f, 0xff, 0x0c, 0x10, 0x71]).GetTemperature
        sim.thermometer 0x1e00000000000028).2 = (0, some Error.InputOutputError) ∧
      ((sim.sensorSession [0x91, 0x01, 0x4b, 0x46, 0x7f, 0xff, 0x0c, 0x10, 0x71]).GetTemperature
        sim.thermometer 0x1e00000000000028).1.readScratchpadCount =
        (sim.sensorSession [0x91, 0x01, 0x4b, 0x46, 0x7f, 0xff, 0x0c, 0x10, 0x71]).readScratchpadCount + 3 ∧
      ((sim.sensorSession [0x91, 0x01, 0x4b, 0x46, 0x7f, 0xff, 0x0c, 0x10, 0x71]).GetTemperature
        sim.thermometer 0x1e00000000000028).1.sent =
        (sim.sensorSession [0x91, 0x01, 0x4b, 0x46, 0x7f, 0xff, 0x0c, 0x10, 0x71]).sent ++
          GetTemperature.passFrames 0x1e00000000000028 ++
          GetTemperature.passFrames 0x1e00000000000028 ++
          GetTemperature.passFrames 0x1e00000000000028) ∧
    (((sim.sensorSession [0x91, 0x01, 0x4b, 0x46, 0x7f, 0xff, 0x0c, 0x10, 0x70]).GetTemperature
        sim.thermometer 0x1e00000000000028).1 =
        (GetTemperature.exchange sim.thermometer
          (sim.sensorSession [0x91, 0x01, 0x4b, 0x46, 0x7f, 0xff, 0x0c, 0x10, 0x70])
          0x1e00000000000028).1 ∧
      ((sim.sensorSession [0x91, 0x01, 0x4b, 0x46, 0x7f, 0xff, 0x0c, 0x10, 0x70]).GetTemperature
        sim.thermometer 0x1e00000000000028).2.2 = none ∧
      ((sim.sensorSession [0x91, 0x01, 0x4b, 0x46, 0x7f, 0xff, 0x0c, 0x10, 0x70]).GetTemperature
        sim.thermometer 0x1e00000000000028).1.readScratchpadCount =
        (sim.sensorSession [0x91, 0x01, 0x4b, 0x46, 0x7f, 0xff, 0x0c, 0x10, 0x70]).readScratchpadCount + 1) ∧
    (((sim.failingSensorSession
          [0x91, 0x01, 0x4b, 0x46, 0x7f, 0xff, 0x0c, 0x10, 0x70]).GetTemperature
        (sim.failingAt 4 sim.thermometer) 0x1e00000000000028).1 =
        (GetTemperature.exchange (sim.failingAt 4 sim.thermometer)
          (GetTemperature.exchange (sim.failingAt 4 sim.thermometer)
            (sim.failingSensorSession [0x91, 0x01, 0x4b, 0x46, 0x7f, 0xff, 0x0c, 0x10, 0x70])
            0x1e00000000000028).1 0x1e00000000000028).1 ∧
      ((sim.failingSensorSession
          [0x91, 0x01, 0x4b, 0x46, 0x7f, 0xff, 0x0c, 0x10, 0x70]).GetTemperature
        (sim.failingAt 4 sim.thermometer) 0x1e00000000000028).2.2 = none) :=
  ⟨⟨by decide, by decide, by decide, by decide, by decide⟩,
    (getTemperature_retry_exhaustion sim.thermometer
      (sim.sensorSession [0x91, 0x01, 0x4b, 0x46, 0x7f, 0xff, 0x0c, 0x10, 0x71])
      0x1e00000000000028 0 0 0).1 (by decide),
    (getTemperature_retry_exhaustion sim.thermometer
      (sim.sensorSession [0x91, 0x01, 0x4b, 0x46, 0x7f, 0xff, 0x0c, 0x10, 0x70])
      0x1e00000000000028 0x464b0191 0x100cff7f 0x70).2.2.1 (by decide) (by decide),
    (getTemperature_retry_exhaustion (sim.failingAt 4 sim.thermometer)
      (sim.failingSensorSession [0x91, 0x01, 0x4b, 0x46, 0x7f, 0xff, 0x0c, 0x10, 0x70])
      0x1e00000000000028 0 0 0).2.2.2.2.1 (by decide) (by decide)⟩

end usb
